import Mathlib

/-!
Verification development for the single-header C JSON library `json.h`
(value model, internal hash map, lexer).  Every definition below is a
shallow embedding of the corresponding C function, translated line by
line from the source.  Machine integers (`size_t`) are modelled as `Nat`
with explicit reduction modulo `2 ^ 64` where overflow can occur; byte
strings (`struct json_string`) are lists of byte values; pointers into
the collisions array are modelled as absolute addresses (a `Nat` base
plus offset), exactly as the C code stores them; allocation is modelled
by an oracle that decides the success and the base address of each
successive allocation, which lets theorems quantify over allocator
behaviour (including `realloc` moving a block).
-/

set_option autoImplicit false

/-- Allocation oracle: `ok n` tells whether the `n`-th allocation of a run
succeeds, and `base n` gives the base address of the block it returns.
The C library receives memory through the `JSON_MALLOC` / `JSON_CALLOC` /
`JSON_REALLOC` / `JSON_FREE` interface, so its behaviour is parametric in
exactly this information. -/
structure Alloc where
  ok : Nat → Bool
  base : Nat → Nat

/-- An allocator on which every allocation succeeds (bases all zero). -/
def allocAllOk : Alloc := ⟨fun _ => true, fun _ => 0⟩

/-- Bytes of a C `struct json_string`; the `len` field equals the list
length and the `data == NULL` sentinel of the empty string is the empty
list. -/
abbrev json_string := List Nat

/-- Value of `2 ^ 64`, the modulus of `size_t` arithmetic on the 64-bit
targets this library is built for. -/
def M64 : Nat := 18446744073709551616

/-- Translation of `json__hash` (json.h line 715): djb2-style
`hash = hash * 33 ^ str[i]` over the bytes, in `size_t` arithmetic. -/
def json__hash (str : json_string) : Nat :=
  str.foldl (fun hash c => (hash * 33 % M64) ^^^ c) 5381

/-- Translation of `json_string_eq` (json.h line 777): length test, then a
bytewise comparison loop. -/
def json_string_eq (first second : json_string) : Bool :=
  if first.length ≠ second.length then false
  else (List.range first.length).all fun i => first.getD i 0 = second.getD i 0

/-- Translation of `json_string_create` (json.h line 421): for `len ≤ 0`
returns the empty string with `*ok = true` and performs no allocation;
otherwise consumes one allocation, copying the first `len` bytes on
success and returning the zeroed string with `*ok = false` on failure.
The result triple is (string, value written to `*ok`, next allocation
counter). -/
def json_string_create (a : Alloc) (n : Nat) (str : json_string) (len : Nat) :
    json_string × Bool × Nat :=
  if len = 0 then ([], true, n)
  else if a.ok n then (str.take len, true, n + 1)
  else ([], false, n + 1)

/-- Translation of `json_string_copy` (json.h line 479):
`json_string_create(str.data, str.len, ok)`. -/
def json_string_copy (a : Alloc) (n : Nat) (str : json_string) :
    json_string × Bool × Nat :=
  json_string_create a n str str.length

-- ---------------------------------------------------------------------------
-- Lexer
-- ---------------------------------------------------------------------------

/-- Translation of `enum json_spec`. -/
inductive json_spec where
  | JSON_SPEC_JSON
  | JSON_SPEC_JSONC
  | JSON_SPEC_JSON5
deriving DecidableEq

/-- Translation of `struct json_loc`: 1-based row and column, 0-based byte
position. -/
structure json_loc where
  row : Nat
  col : Nat
  pos : Nat
deriving DecidableEq

/-- Translation of `enum json_token_type` (first enumerator is zero, the
value a zero-initialised token carries). -/
inductive json_token_type where
  | JSON_TOKEN_INVALID
  | JSON_TOKEN_EOF
  | JSON_TOKEN_NUMBER
  | JSON_TOKEN_STRING
  | JSON_TOKEN_LBRACE
  | JSON_TOKEN_RBRACE
  | JSON_TOKEN_LBRACKET
  | JSON_TOKEN_RBRACKET
  | JSON_TOKEN_COMMA
  | JSON_TOKEN_COLON
  | JSON_TOKEN_IDENTIFIER
  | JSON_TOKEN_NULL
  | JSON_TOKEN_TRUE
  | JSON_TOKEN_FALSE
deriving DecidableEq

/-- Translation of `union json_token_data`; `zero` is the zero-initialised
union, the other constructors record which member was last stored. -/
inductive json_token_data where
  | zero
  | number (bits : Nat)
  | string (s : json_string)
deriving DecidableEq

/-- Translation of `struct json_token`. -/
structure json_token where
  loc : json_loc
  len : Nat
  type : json_token_type
  data : json_token_data
deriving DecidableEq

/-- Translation of `struct json_lexer`.  `ch` is the C `int` field (it can
hold the end-of-input sentinel `-1`). -/
structure json_lexer where
  spec : json_spec
  source_name : json_string
  source : json_string
  pos : Nat
  read_pos : Nat
  ch : Int
  row : Nat
  col : Nat
deriving DecidableEq

/-- The all-zero `struct json_lexer`.  `json_lexer_init` only assigns the
string fields, `spec` and `row`, so the caller must hand it
zero-initialised storage; this value models that storage. -/
def json_lexer_zero : json_lexer :=
  { spec := .JSON_SPEC_JSON, source_name := [], source := [],
    pos := 0, read_pos := 0, ch := 0, row := 0, col := 0 }

/-- Translation of `json__lexer_read_ch` (json.h line 1234): newline
handling of row/col, then load the next byte or the `-1` sentinel, then
advance `pos`/`read_pos`. -/
def json__lexer_read_ch (l : json_lexer) : json_lexer :=
  let l := if l.ch = 10 then { l with row := l.row + 1, col := 1 }
           else { l with col := l.col + 1 }
  let ch : Int := if l.read_pos ≥ l.source.length then -1
                  else (l.source.getD l.read_pos 0 : Nat)
  { l with ch := ch, pos := l.read_pos, read_pos := l.read_pos + 1 }

/-- Translation of `json_lexer_init` (json.h line 1253): copy the name and
the source (each copy may fail), set `spec`, set `row := 1`, then read
the first character.  Returns `none` exactly when the C function returns
`false`. -/
def json_lexer_init (a : Alloc) (n : Nat) (source source_name : json_string)
    (spec : json_spec) : Option json_lexer × Nat :=
  let r1 := json_string_copy a n source_name
  if r1.2.1 = false then (none, r1.2.2)
  else
    let r2 := json_string_copy a r1.2.2 source
    if r2.2.1 = false then (none, r2.2.2)
    else
      (some (json__lexer_read_ch
        { json_lexer_zero with
            source_name := r1.1, source := r2.1, spec := spec, row := 1 }),
       r2.2.2)

/-- Conversion of the C `int` character to `unsigned char`, as happens in
the call `json__lexer_is_valid_identifier_ch(l->ch, ...)` (the sentinel
`-1` becomes `255`). -/
def json__to_uchar (ch : Int) : Nat := (ch % 256).toNat

/-- Translation of `json__lexer_is_valid_identifier_ch` (json.h line
1288). -/
def json__lexer_is_valid_identifier_ch (ch : Nat) (first_ch : Bool) : Bool :=
  decide ((97 ≤ ch ∧ ch ≤ 122) ∨ (65 ≤ ch ∧ ch ≤ 90) ∨ ch = 95 ∨
    (first_ch = false ∧ 48 ≤ ch ∧ ch ≤ 57))

/-- Translation of `json__is_whitespace` (json.h line 1295). -/
def json__is_whitespace (ch : Int) : Bool :=
  decide (ch = 32 ∨ ch = 10 ∨ ch = 13 ∨ ch = 9)

/-- Fueled body of the `json__lexer_skip_whitespace` loop.  Each
iteration advances `read_pos`, and once `read_pos` passes the end of
the source `ch` becomes `-1`, which is not whitespace, so fuel
`source.length + 2` (supplied by the wrapper below) always suffices for
the loop to reach its C exit condition. -/
def json__lexer_skip_whitespace_go : Nat → json_lexer → json_lexer
  | 0, l => l
  | fuel + 1, l =>
    if json__is_whitespace l.ch then
      json__lexer_skip_whitespace_go fuel (json__lexer_read_ch l)
    else l

/-- Translation of `json__lexer_skip_whitespace` (json.h line 1302). -/
def json__lexer_skip_whitespace (l : json_lexer) : json_lexer :=
  json__lexer_skip_whitespace_go (l.source.length + 2) l

/-- Fueled body of the identifier scan loop in `json__lexer_read_token`;
the same fuel argument as for whitespace skipping makes the loop reach
its C exit condition. -/
def json__lexer_scan_identifier : Nat → json_lexer → json_lexer
  | 0, l => l
  | fuel + 1, l =>
    if json__lexer_is_valid_identifier_ch (json__to_uchar l.ch) false then
      json__lexer_scan_identifier fuel (json__lexer_read_ch l)
    else l

/-- The constant `false_hash` from json.h line 1284. -/
def false_hash : Nat := 210667871779

/-- The constant `true_hash` from json.h line 1285. -/
def true_hash : Nat := 6383874908

/-- The constant `null_hash` from json.h line 1286. -/
def null_hash : Nat := 229417312366851

/-- Translation of `json__lexer_read_token` (json.h line 1308): remember
the start location, scan the identifier run, hash the scanned span,
compare the hash against the three keyword constants, and otherwise copy
the span into an identifier payload (the only place `*ok` is written).
The `ok` argument is the value currently stored in the caller's flag;
the third component of the result is the value stored there
afterwards. -/
def json__lexer_read_token (l : json_lexer) (ok : Bool) (a : Alloc) (n : Nat) :
    json_token × json_lexer × Bool × Nat :=
  let start_loc : json_loc := ⟨l.row, l.col, l.pos⟩
  let start_pos := l.pos
  let l := json__lexer_scan_identifier (l.source.length + 2) l
  let len := l.pos - start_pos
  let hash := json__hash ((l.source.drop start_pos).take len)
  if hash = false_hash then
    (⟨start_loc, len, .JSON_TOKEN_FALSE, .zero⟩, l, ok, n)
  else if hash = true_hash then
    (⟨start_loc, len, .JSON_TOKEN_TRUE, .zero⟩, l, ok, n)
  else if hash = null_hash then
    (⟨start_loc, len, .JSON_TOKEN_NULL, .zero⟩, l, ok, n)
  else
    let r := json_string_create a n (l.source.drop start_pos) len
    (⟨start_loc, len, .JSON_TOKEN_IDENTIFIER, .string r.1⟩, l, r.2.1, r.2.2)

/-- Translation of `json_lexer_next_token` (json.h line 1341): skip
whitespace, build the length-1 token at the current location, classify
the current character, and for identifier starts delegate to
`json__lexer_read_token` (returning without the trailing
`json__lexer_read_ch`). -/
def json_lexer_next_token (l : json_lexer) (ok : Bool) (a : Alloc) (n : Nat) :
    json_token × json_lexer × Bool × Nat :=
  let l := json__lexer_skip_whitespace l
  let t : json_token :=
    ⟨⟨l.row, l.col, l.pos⟩, 1, .JSON_TOKEN_INVALID, .zero⟩
  if l.ch = -1 then ({ t with type := .JSON_TOKEN_EOF }, json__lexer_read_ch l, ok, n)
  else if l.ch = 123 then ({ t with type := .JSON_TOKEN_LBRACE }, json__lexer_read_ch l, ok, n)
  else if l.ch = 125 then ({ t with type := .JSON_TOKEN_RBRACE }, json__lexer_read_ch l, ok, n)
  else if l.ch = 91 then ({ t with type := .JSON_TOKEN_LBRACKET }, json__lexer_read_ch l, ok, n)
  else if l.ch = 93 then ({ t with type := .JSON_TOKEN_RBRACKET }, json__lexer_read_ch l, ok, n)
  else if l.ch = 44 then ({ t with type := .JSON_TOKEN_COMMA }, json__lexer_read_ch l, ok, n)
  else if l.ch = 58 then ({ t with type := .JSON_TOKEN_COLON }, json__lexer_read_ch l, ok, n)
  else if json__lexer_is_valid_identifier_ch (json__to_uchar l.ch) true then
    json__lexer_read_token l ok a n
  else ({ t with type := .JSON_TOKEN_INVALID }, json__lexer_read_ch l, ok, n)

/-- Fueled driver: initialise a lexer over `src` (empty source name,
plain JSON dialect) and collect `count` successive tokens from
`json_lexer_next_token`, threading the lexer state, the caller's `ok`
flag cell (initially `true`) and the allocation counter; `none` when
initialisation reported failure. -/
def json_lexer_run_go (a : Alloc) : Nat → json_lexer → Bool → Nat → List json_token
  | 0, _, _, _ => []
  | count + 1, l, ok, n =>
    let r := json_lexer_next_token l ok a n
    r.1 :: json_lexer_run_go a count r.2.1 r.2.2.1 r.2.2.2

/-- Token stream of the first `count` tokens over `src`; see
`json_lexer_run_go`. -/
def json_lexer_run (a : Alloc) (src : json_string) (count : Nat) :
    Option (List json_token) :=
  match json_lexer_init a 0 src [] .JSON_SPEC_JSON with
  | (none, _) => none
  | (some l0, n0) => some (json_lexer_run_go a count l0 true n0)

/-- The bytes of `true falsex null`, the input of testable scenario C of
the specification. -/
def c3_source : json_string :=
  [116, 114, 117, 101, 32, 102, 97, 108, 115, 101, 120, 32, 110, 117, 108, 108]

/-- A lexer state over the one-byte source `x`, obtained from a
successful initialisation. -/
def c10_lexer : json_lexer :=
  ((json_lexer_init allocAllOk 0 [120] [] .JSON_SPEC_JSON).1).getD json_lexer_zero

/-- An allocator on which every allocation fails. -/
def allocAllFail : Alloc := ⟨fun _ => false, fun _ => 0⟩


-- ---------------------------------------------------------------------------
-- Value model and hash map
-- ---------------------------------------------------------------------------

/-- Translation of `enum json_type` (first enumerator `JSON_INVALID` is
zero, the tag of a zero-initialised value). -/
inductive json_type where
  | JSON_INVALID
  | JSON_OBJECT
  | JSON_ARRAY
  | JSON_NUMBER
  | JSON_BOOLEAN
  | JSON_STRING
  | JSON_NULL
deriving DecidableEq

/-- Translation of `struct json__hash_map_entry`, generic in the value
type so that the entry and map structures can be nested inside
`json_value` below.  The C `next` field is a raw
`struct json__hash_map_entry *` into the collisions array; it is
modelled as the absolute address the C code stores, namely the base
address of the collisions allocation plus the entry offset (`none` is
the NULL pointer). -/
structure json__hash_map_entry_core (V : Type) where
  key : json_string
  value : V
  next : Option Nat

/-- Translation of `struct json__hash_map`, generic in the value type.
`bucket` and `collisions` model the two heap blocks; the length of each
list is the number of entries actually allocated for the block.
`collisions_base` is the address at which the collisions block currently
resides (needed because `next` links are raw addresses). -/
structure json__hash_map_core (V : Type) where
  bucket : List (json__hash_map_entry_core V)
  bucket_size : Nat
  bucket_cap : Nat
  collisions : List (json__hash_map_entry_core V)
  collisions_size : Nat
  collisions_cap : Nat
  collisions_base : Nat

/-- Translation of `struct json_value` together with its `json_data`
union: one constructor per meaningful tag/member combination,
`JSON_INVALID` being the all-zero value.  The `double` payload of a
number is opaque to every operation in scope and is modelled as its bit
pattern.  An object value carries the `_hm` pointer of
`struct json_object`, which is NULL (`none`) exactly when
`json_object_create` failed. -/
inductive json_value where
  | JSON_INVALID
  | JSON_NULL
  | JSON_BOOLEAN (b : Bool)
  | JSON_NUMBER (bits : Nat)
  | JSON_STRING (s : json_string)
  | JSON_ARRAY (items : List json_value)
  | JSON_OBJECT (hm : Option (json__hash_map_core json_value))

/-- The entry type instantiated at `json_value`. -/
abbrev json__hash_map_entry := json__hash_map_entry_core json_value

/-- The hash map instantiated at `json_value`. -/
abbrev json__hash_map := json__hash_map_core json_value

/-- The `type` tag stored in a `struct json_value`. -/
def json_value_type : json_value → json_type
  | .JSON_INVALID => .JSON_INVALID
  | .JSON_NULL => .JSON_NULL
  | .JSON_BOOLEAN _ => .JSON_BOOLEAN
  | .JSON_NUMBER _ => .JSON_NUMBER
  | .JSON_STRING _ => .JSON_STRING
  | .JSON_ARRAY _ => .JSON_ARRAY
  | .JSON_OBJECT _ => .JSON_OBJECT

/-- An all-zero `struct json__hash_map_entry` (what `calloc` provides and
what delete writes back into a vacated bucket slot). -/
def json__zero_entry : json__hash_map_entry :=
  { key := [], value := .JSON_INVALID, next := none }

/-- Translation of `json__hash_map_entry_valid` (json.h line 1029): an
entry is live exactly when the tag of its value is not `JSON_INVALID`. -/
def json__hash_map_entry_valid (entry : json__hash_map_entry) : Bool :=
  decide (json_value_type entry.value ≠ json_type.JSON_INVALID)

/-- The `JSON_INITIAL_BUCKET_SIZE` configuration constant (default 16). -/
def JSON_INITIAL_BUCKET_SIZE : Nat := 16

/-- The `JSON_GROWTH_FACTOR` configuration constant (default 2). -/
def JSON_GROWTH_FACTOR : Nat := 2

/-- Size in bytes of `struct json__hash_map_entry` on the 64-bit targets
this library is built for: a 16-byte `json_string` key, a 24-byte
`json_value` (8-byte-aligned tag plus 16-byte union) and an 8-byte
pointer.  Needed because `json__hash_map_insert` stores a byte count
into the `collisions_cap` field after growing the collisions array. -/
def json__sizeof_entry : Nat := 48

/-- Dereference a raw entry address against the current collisions block:
the read succeeds when the address lies inside the block, and is a read
of freed (or foreign) memory otherwise, which the model reports as
`none`. -/
def json__deref (hm : json__hash_map) (addr : Nat) : Option json__hash_map_entry :=
  if hm.collisions_base ≤ addr ∧ addr - hm.collisions_base < hm.collisions.length then
    some (hm.collisions.getD (addr - hm.collisions_base) json__zero_entry)
  else none

/-- Location of an entry the C code holds a pointer to: either a bucket
slot (the bucket array is never reallocated by the operations in scope,
so its slots are stable) or a raw address into the collisions region. -/
inductive hm_loc where
  | head (i : Nat)
  | coll (addr : Nat)
deriving DecidableEq

/-- Read the entry a location points to.  For a collisions address that
no longer falls inside the current block the C code would read freed
memory; the model returns the zero entry there (no claim execution ever
does). -/
def json__read_loc (hm : json__hash_map) : hm_loc → json__hash_map_entry
  | .head i => hm.bucket.getD i json__zero_entry
  | .coll addr => (json__deref hm addr).getD json__zero_entry

/-- Write an entry through a location.  A store through a collisions
address that lies outside the current block goes into freed (or foreign)
memory in C; it does not affect the current map state, which is how the
model renders it. -/
def json__write_loc (hm : json__hash_map) (loc : hm_loc) (e : json__hash_map_entry) :
    json__hash_map :=
  match loc with
  | .head i => { hm with bucket := hm.bucket.set i e }
  | .coll addr =>
    if hm.collisions_base ≤ addr ∧ addr - hm.collisions_base < hm.collisions.length then
      { hm with collisions := hm.collisions.set (addr - hm.collisions_base) e }
    else hm

/-- Translation of `json__hm_create` (json.h line 726): one `malloc` for
the map structure and two zeroing `calloc`s of
`JSON_INITIAL_BUCKET_SIZE` entries each; `none` when any of the three
allocations fails. -/
def json__hm_create (a : Alloc) (n : Nat) : Option json__hash_map × Nat :=
  if a.ok n = false then (none, n + 1)
  else if a.ok (n + 1) = false then (none, n + 2)
  else if a.ok (n + 2) = false then (none, n + 3)
  else
    (some { bucket := List.replicate JSON_INITIAL_BUCKET_SIZE json__zero_entry,
            bucket_size := 0,
            bucket_cap := JSON_INITIAL_BUCKET_SIZE,
            collisions := List.replicate JSON_INITIAL_BUCKET_SIZE json__zero_entry,
            collisions_size := 0,
            collisions_cap := JSON_INITIAL_BUCKET_SIZE,
            collisions_base := a.base (n + 2) },
     n + 3)

/-- Chain walk of `json__hash_map_get` (json.h line 805): follow `next`
links comparing keys, returning the location of the matching entry.  The
C loop runs until a NULL `next`; on the acyclic chains of every map the
library builds, fuel `collisions.length + 1` (supplied by the caller) is
enough to reach that exit, and a dangling `next` (a freed-memory read in
C) stops the walk. -/
def json__hash_map_get_go (hm : json__hash_map) (key : json_string) :
    Nat → json__hash_map_entry → Option hm_loc
  | 0, _ => none
  | fuel + 1, entry =>
    match entry.next with
    | none => none
    | some addr =>
      match json__deref hm addr with
      | none => none
      | some e2 =>
        if json_string_eq e2.key key then some (.coll addr)
        else json__hash_map_get_go hm key fuel e2

/-- Translation of `json__hash_map_get` (json.h line 792), returning the
location of the found entry (the C function returns a pointer to it):
home bucket by `hash mod bucket_cap`, early `NULL` on an invalid head,
head comparison, then the chain walk. -/
def json__hash_map_get_loc (hm : json__hash_map) (key : json_string) : Option hm_loc :=
  let hash := json__hash key
  let index := hash % hm.bucket_cap
  let entry := hm.bucket.getD index json__zero_entry
  if json__hash_map_entry_valid entry = false then none
  else if json_string_eq entry.key key then some (.head index)
  else json__hash_map_get_go hm key (hm.collisions.length + 1) entry

/-- The entry `json__hash_map_get` hands back, read through the returned
pointer. -/
def json__hash_map_get (hm : json__hash_map) (key : json_string) :
    Option json__hash_map_entry :=
  (json__hash_map_get_loc hm key).map (json__read_loc hm)

/-- Translation of `json__hash_map_set` (json.h line 913): look the key
up; when absent report `false`; when present delete the old value (a
release of owned storage, without observable effect on the map state)
and store the new value in place, leaving key and chain position
untouched. -/
def json__hash_map_set (hm : json__hash_map) (key : json_string) (value : json_value) :
    Bool × json__hash_map :=
  match json__hash_map_get_loc hm key with
  | none => (false, hm)
  | some loc =>
    let entry := json__read_loc hm loc
    (true, json__write_loc hm loc { entry with value := value })

/-- Chain walk of `json__hash_map_delete` (json.h line 943): while the
current entry has a successor, compare the successor's key; on a match
splice the successor out by rewriting the current entry's `next`.
Fuel as for the get walk. -/
def json__hash_map_delete_go (hm : json__hash_map) (key : json_string) :
    Nat → hm_loc → Bool × json__hash_map
  | 0, _ => (false, hm)
  | fuel + 1, loc =>
    let entry := json__read_loc hm loc
    match entry.next with
    | none => (false, hm)
    | some addr =>
      match json__deref hm addr with
      | none => (false, hm)
      | some e2 =>
        if json_string_eq e2.key key then
          (true, json__write_loc hm loc { entry with next := e2.next })
        else json__hash_map_delete_go hm key fuel (.coll addr)

/-- Translation of `json__hash_map_delete` (json.h line 927).  Note that
the head comparison `json_string_eq(entry->key, key)` is performed
without first checking `json__hash_map_entry_valid`, exactly as in the
source; on a match the head is overwritten with its successor (read
through the raw `next` pointer) or zeroed.  The vacated collisions slot
of a spliced-out successor is left as is.  Neither `bucket_size` nor
`collisions_size` is decremented. -/
def json__hash_map_delete (hm : json__hash_map) (key : json_string) :
    Bool × json__hash_map :=
  let hash := json__hash key
  let index := hash % hm.bucket_cap
  let entry := hm.bucket.getD index json__zero_entry
  if json_string_eq entry.key key then
    match entry.next with
    | some addr =>
      let succ := (json__deref hm addr).getD json__zero_entry
      (true, { hm with bucket := hm.bucket.set index succ })
    | none => (true, { hm with bucket := hm.bucket.set index json__zero_entry })
  else
    json__hash_map_delete_go hm key (hm.collisions.length + 1) (.head index)

/-- Translation of `json_object_get` (json.h line 550), acting on the
(non-NULL) hash map an object owns: on a miss `*found := false` and the
all-zero `struct json_value` (tag `JSON_INVALID`) is returned; on a hit
`*found := true` and the entry's value is returned. -/
def json_object_get (hm : json__hash_map) (key : json_string) : json_value × Bool :=
  match json__hash_map_get hm key with
  | none => (.JSON_INVALID, false)
  | some entry => (entry.value, true)

/-- Translation of `json_object_del` (json.h line 560). -/
def json_object_del (hm : json__hash_map) (key : json_string) : Bool × json__hash_map :=
  json__hash_map_delete hm key

-- ---------------------------------------------------------------------------
-- Deletion (modelled as the sequence of releases it performs)
-- ---------------------------------------------------------------------------

/-- A release performed by the delete functions.  The delete functions of
the library are `void`: their entire observable effect is which owned
storage they hand back to `JSON_FREE`, so each is embedded as the list
of releases it performs. -/
inductive free_action where
  | FreeStringData (bytes : json_string)
  | FreeArrayItems
  | FreeCollisions
  | FreeBucket
  | FreeMapStruct
deriving DecidableEq

/-- Translation of `json_string_delete` (json.h line 704): the byte
buffer is released exactly when `0 < len`. -/
def json_string_delete (string : json_string) : List free_action :=
  if 0 < string.length then [.FreeStringData string] else []

/-- Translation of `json_object_delete` (json.h line 695).  The body of
the C function is empty: `void json_object_delete(struct json_object
object) {}` — it releases nothing, for any object. -/
def json_object_delete (_object : Option json__hash_map) : List free_action := []

mutual
/-- Translation of `json_value_delete` (json.h line 676): objects are
routed to the (empty) `json_object_delete`, arrays release each element
recursively and then their buffer (the body of `json_array_delete`,
json.h line 697), strings release their bytes, and the scalar tags own
nothing. -/
def json_value_delete : json_value → List free_action
  | .JSON_OBJECT hm => json_object_delete hm
  | .JSON_ARRAY items => json_value_delete_items items ++ [.FreeArrayItems]
  | .JSON_STRING s => json_string_delete s
  | .JSON_NUMBER _ => []
  | .JSON_BOOLEAN _ => []
  | .JSON_NULL => []
  | .JSON_INVALID => []

/-- Element loop of `json_array_delete` (json.h lines 698-700). -/
def json_value_delete_items : List json_value → List free_action
  | [] => []
  | v :: rest => json_value_delete v ++ json_value_delete_items rest
end

/-- Translation of `json_array_delete` (json.h line 697): delete every
element, then release the items buffer. -/
def json_array_delete (array : List json_value) : List free_action :=
  json_value_delete_items array ++ [.FreeArrayItems]

/-- Translation of `json__hash_map_entry_delete` (json.h line 907). -/
def json__hash_map_entry_delete (entry : json__hash_map_entry) : List free_action :=
  json_string_delete entry.key ++ json_value_delete entry.value

/-- Translation of `json__hm_delete` (json.h line 757): release the key
and value of every valid entry among the first `collisions_size`
collision slots and all `bucket_cap` bucket slots, then the two arrays
and the map structure itself. -/
def json__hm_delete (map : json__hash_map) : List free_action :=
  ((List.range map.collisions_size).flatMap fun i =>
    let e := map.collisions.getD i json__zero_entry
    if json__hash_map_entry_valid e then
      json_string_delete e.key ++ json_value_delete e.value
    else []) ++
  ((List.range map.bucket_cap).flatMap fun i =>
    let e := map.bucket.getD i json__zero_entry
    if json__hash_map_entry_valid e then
      json_string_delete e.key ++ json_value_delete e.value
    else []) ++
  [.FreeCollisions, .FreeBucket, .FreeMapStruct]


-- ---------------------------------------------------------------------------
-- Hash map insert and grow
-- ---------------------------------------------------------------------------

/-- Chain walk of `json__hash_map_insert` (json.h line 878): advance to
the last entry of the home chain (the C code keeps a pointer to it; the
model keeps its location).  A dangling `next` (freed-memory read in C)
stops the walk. -/
def json__hash_map_chain_end_go (hm : json__hash_map) : Nat → hm_loc → hm_loc
  | 0, loc => loc
  | fuel + 1, loc =>
    match (json__read_loc hm loc).next with
    | none => loc
    | some addr =>
      match json__deref hm addr with
      | none => loc
      | some _ => json__hash_map_chain_end_go hm fuel (.coll addr)

/-- Result of `json__hash_map_grow` acting on `*hm`: `ok` is a completed
growth (the C function installed the new storage and returned `true`),
carrying the releases `json__hm_delete(hm)` performed on the old table
at json.h line 850 just before `*hm = new_hm` — the old keys and values
(the re-insertion pass copied only the keys, so freed string and array
value payloads are still referenced by the new table), the two old
arrays, and the old map structure itself, through which the next
statement then stores the new map.  `fail` is a reported allocation
failure (`false` returned, map left as carried), and `ub` marks the
path where one of the two unchecked `calloc` calls at json.h lines
819-820 returned NULL and the code went on to dereference it. -/
inductive json__grow_result where
  | ok (hm : json__hash_map) (n : Nat) (released : List free_action)
  | fail (hm : json__hash_map) (n : Nat)
  | ub

/-- Load-factor test of `json__hash_map_insert` (json.h line 901):
`(double)bucket_size / (double)bucket_cap > 0.7`.  For every capacity
the library ever uses (powers of two up to well below `2 ^ 53`) the
quotient is an exact dyadic double, no dyadic of that granularity lies
between the double literal `0.7` and the rational `7/10`, and so the
double comparison coincides with the exact integer test below. -/
def json__load_factor_exceeded (hm : json__hash_map) : Bool :=
  decide (10 * hm.bucket_size > 7 * hm.bucket_cap)

/-- Epilogue of `json__hash_map_insert` (json.h lines 901-904): when the
load factor is exceeded, growth is attempted and its result discarded;
the insert reports `true` either way. -/
def json__hash_map_insert_tail (growFn : Nat → json__hash_map → json__grow_result)
    (_a : Alloc) (n : Nat) (hm : json__hash_map) : Option (Bool × json__hash_map × Nat) :=
  if json__load_factor_exceeded hm then
    match growFn n hm with
    | .ok hm2 n2 _ => some (true, hm2, n2)
    | .fail hm2 n2 => some (true, hm2, n2)
    | .ub => none
  else some (true, hm, n)

/-- Continuation of `json__hash_map_insert` after the collisions array is
known to have room (json.h lines 893-895): store the new entry at index
`collisions_size`, write its absolute address into the `next` field of
the chain end (a store through a pointer taken before any `realloc`, so
it is lost to the current block if that pointer went stale), bump both
sizes, then run the load-factor epilogue. -/
def json__hash_map_insert_link (growFn : Nat → json__hash_map → json__grow_result)
    (a : Alloc) (n : Nat) (hm : json__hash_map) (endLoc : hm_loc)
    (new_entry : json__hash_map_entry) : Option (Bool × json__hash_map × Nat) :=
  let hm2 : json__hash_map := { hm with
    collisions := hm.collisions.set hm.collisions_size new_entry }
  let hm3 := json__write_loc hm2 endLoc
    { json__read_loc hm2 endLoc with
        next := some (hm2.collisions_base + hm2.collisions_size) }
  let hm4 : json__hash_map := { hm3 with collisions_size := hm3.collisions_size + 1 }
  json__hash_map_insert_tail growFn a n { hm4 with bucket_size := hm4.bucket_size + 1 }

/-- Translation of `json__hash_map_insert` (json.h line 863),
parameterised by what the trailing best-effort `json__hash_map_grow`
call does (the two are mutually recursive in C; the recursion is tied
below through a growth-depth index).  Steps, in source order: copy the
key (report failure leaving the map untouched); hash the copy and take
the home slot; if the home slot is live, walk to the chain end, grow the
collisions array by `JSON_GROWTH_FACTOR` via `realloc` when
`collisions_cap <= collisions_size + 1` (on failure report it with the
map untouched; on success the block may move to a fresh base and the
byte count `new_size` is stored into `collisions_cap` exactly as the
source does), store the entry in slot `collisions_size` and write the
new entry's address through the chain-end pointer obtained before the
`realloc`; otherwise store the entry into the empty home slot; increment
`bucket_size`; finally attempt growth when the load factor is exceeded,
returning `true` regardless of the growth outcome.  `none` is the
undefined-behaviour outcome bubbling up from growth. -/
def json__hash_map_insert_core (growFn : Nat → json__hash_map → json__grow_result)
    (a : Alloc) (n : Nat) (hm : json__hash_map) (key : json_string)
    (value : json_value) : Option (Bool × json__hash_map × Nat) :=
  let rk := json_string_copy a n key
  if rk.2.1 = false then some (false, hm, rk.2.2)
  else
    let n1 := rk.2.2
    let new_entry : json__hash_map_entry := { key := rk.1, value := value, next := none }
    let index := json__hash new_entry.key % hm.bucket_cap
    let entry := hm.bucket.getD index json__zero_entry
    if json__hash_map_entry_valid entry then
      let endLoc := json__hash_map_chain_end_go hm (hm.collisions.length + 1) (.head index)
      if hm.collisions_cap ≤ hm.collisions_size + 1 then
        if a.ok n1 = false then some (false, hm, n1 + 1)
        else
          let entries := hm.collisions_cap * JSON_GROWTH_FACTOR
          let hm2 : json__hash_map := { hm with
            collisions := hm.collisions.take entries ++
              List.replicate (entries - hm.collisions.length) json__zero_entry,
            collisions_cap := entries * json__sizeof_entry,
            collisions_base := a.base n1 }
          json__hash_map_insert_link growFn a (n1 + 1) hm2 endLoc new_entry
      else json__hash_map_insert_link growFn a n1 hm endLoc new_entry
    else
      let hm2 : json__hash_map := { hm with bucket := hm.bucket.set index new_entry }
      json__hash_map_insert_tail growFn a n1
        { hm2 with bucket_size := hm2.bucket_size + 1 }

/-- Result of the re-insertion pass inside `json__hash_map_grow`:
completed with the accumulated new map, stopped by a failed insert, or
stopped by undefined behaviour inside a nested insert. -/
inductive json__reinsert_result where
  | ok (hm : json__hash_map) (n : Nat)
  | failed (n : Nat)
  | crashed

/-- Chain pass of `json__hash_map_grow` (json.h lines 835-847): re-insert
the given entry into the map under construction, then follow its `next`
chain re-inserting every entry on it. -/
def json__grow_chain
    (insertFn : Nat → json__hash_map → json_string → json_value →
      Option (Bool × json__hash_map × Nat))
    (old : json__hash_map) : Nat → json__hash_map_entry → json__hash_map → Nat →
      json__reinsert_result
  | 0, _, acc, n => .ok acc n
  | fuel + 1, e, acc, n =>
    match insertFn n acc e.key e.value with
    | none => .crashed
    | some (false, _, n2) => .failed n2
    | some (true, acc2, n2) =>
      match e.next with
      | none => .ok acc2 n2
      | some addr =>
        match json__deref old addr with
        | none => .ok acc2 n2
        | some e2 => json__grow_chain insertFn old fuel e2 acc2 n2

/-- Bucket pass of `json__hash_map_grow` (json.h lines 829-848): walk
every bucket slot of the old map, skipping invalid heads, and re-insert
each live chain. -/
def json__grow_buckets
    (insertFn : Nat → json__hash_map → json_string → json_value →
      Option (Bool × json__hash_map × Nat))
    (old : json__hash_map) : Nat → Nat → json__hash_map → Nat → json__reinsert_result
  | 0, _, acc, n => .ok acc n
  | k + 1, i, acc, n =>
    let e := old.bucket.getD i json__zero_entry
    if json__hash_map_entry_valid e = false then
      json__grow_buckets insertFn old k (i + 1) acc n
    else
      match json__grow_chain insertFn old (old.collisions.length + 1) e acc n with
      | .ok acc2 n2 => json__grow_buckets insertFn old k (i + 1) acc2 n2
      | r => r

/-- Translation of `json__hash_map_grow` (json.h line 817), indexed by
the depth of nested growth attempts still allowed (each re-insert runs
the full insert logic, which can itself trigger a growth; at depth 0
that attempt is rendered as a failed best-effort growth, a case never
reached in the executions proved below).  Two `calloc`s of
`bucket_cap * JSON_GROWTH_FACTOR` entries are made without a NULL
check (`ub` on failure), every live chain entry is re-inserted into the
new structure, a failed re-insert frees the new arrays and reports
failure with the original map intact, and on completion the old table
is destroyed with `json__hm_delete` (json.h line 850) and the new map
stored over it.  The re-insertion copies only the keys and transfers
each value by struct assignment, so that destruction frees the byte
payloads of the string and array values the new table still
references, and it frees the old map structure through which
`*hm = new_hm` then writes; the releases are carried on the `ok`
result, while the shallow map state tracks the struct-level contents
the code leaves behind in that storage. -/
def json__hash_map_grow (a : Alloc) : Nat → Nat → json__hash_map → json__grow_result
  | 0, n, hm => .fail hm n
  | gas + 1, n, hm =>
    let new_cap := hm.bucket_cap * JSON_GROWTH_FACTOR
    if a.ok n = false then .ub
    else if a.ok (n + 1) = false then .ub
    else
      let new_hm : json__hash_map :=
        { bucket := List.replicate new_cap json__zero_entry, bucket_size := 0,
          bucket_cap := new_cap,
          collisions := List.replicate new_cap json__zero_entry, collisions_size := 0,
          collisions_cap := new_cap, collisions_base := a.base (n + 1) }
      match json__grow_buckets
          (fun n2 acc k v =>
            json__hash_map_insert_core
              (fun n3 hm3 => json__hash_map_grow a gas n3 hm3) a n2 acc k v)
          hm hm.bucket_cap 0 new_hm (n + 2) with
      | .ok final nf => .ok final nf (json__hm_delete hm)
      | .failed nf => .fail hm nf
      | .crashed => .ub

/-- The public insert: `json__hash_map_insert_core` tied to
`json__hash_map_grow` at growth depth `gas`. -/
def json__hash_map_insert (gas : Nat) (a : Alloc) (n : Nat) (hm : json__hash_map)
    (key : json_string) (value : json_value) : Option (Bool × json__hash_map × Nat) :=
  json__hash_map_insert_core (fun n2 hm2 => json__hash_map_grow a gas n2 hm2)
    a n hm key value

/-- Translation of `json_object_set` (json.h line 540): update in place
via `json__hash_map_set`, fall back to `json__hash_map_insert` when the
key does not exist. -/
def json_object_set (gas : Nat) (a : Alloc) (n : Nat) (hm : json__hash_map)
    (key : json_string) (value : json_value) : Option (Bool × json__hash_map × Nat) :=
  match json__hash_map_set hm key value with
  | (true, hm2) => some (true, hm2, n)
  | (false, _) => json__hash_map_insert gas a n hm key value

-- ---------------------------------------------------------------------------
-- Deep copy
-- ---------------------------------------------------------------------------

/- The deep-copy family below is mutually recursive through object
values, indexed by a depth bound explained on `json_value_copy`. -/
mutual
/-- Translation of `json_value_copy` (json.h line 659).  The `depth`
index bounds how many object levels the recursion may still descend
through; `none` renders the undefined-behaviour outcomes (a NULL `_hm`
dereference, or exhausted depth, which no finite value ever reaches
when the caller supplies depth at least the value's nesting height).
`ok` is the value currently stored in the caller's success flag: the
scalar cases return without writing it, all other cases write it.
Arrays are copied by `json_array_copyv` (json.h line 605): one
allocation and a shallow element copy.  An object value is copied by
`json_object_copyv`, whose success flag is exactly whether
`json__hash_map_copy` returned a map. -/
def json_value_copy (depth : Nat) (a : Alloc) (n : Nat) (ok : Bool) :
    json_value → Option (json_value × Bool × Nat)
  | .JSON_OBJECT ohm =>
    match ohm, depth with
    | none, _ => none
    | some _, 0 => none
    | some hm, d + 1 =>
      match json__hash_map_copy d a n hm with
      | none => none
      | some (r, n2) => some (.JSON_OBJECT r, r.isSome, n2)
  | .JSON_ARRAY items =>
    if a.ok n then some (.JSON_ARRAY items, true, n + 1)
    else some (.JSON_ARRAY [], false, n + 1)
  | .JSON_STRING str =>
    let r := json_string_copy a n str
    some (.JSON_STRING r.1, r.2.1, r.2.2)
  | .JSON_NUMBER b => some (.JSON_NUMBER b, ok, n)
  | .JSON_BOOLEAN b => some (.JSON_BOOLEAN b, ok, n)
  | .JSON_NULL => some (.JSON_NULL, ok, n)
  | .JSON_INVALID => some (.JSON_INVALID, ok, n)
termination_by _ => (depth, 0, 0)

/-- Translation of `json__hash_map_entry_copy` (json.h line 1002): an
invalid source entry yields the zero entry; otherwise the `next`
pointer is rebased by the pointer arithmetic
`(entry.next - old_collisions) + new_collisions`, the key is copied (on
failure the entry is returned with `*ok = false` and its zero value),
and the value is deep-copied (on failure the fresh key is released and
`*ok` reports the failure). -/
def json__hash_map_entry_copy (depth : Nat) (a : Alloc) (n : Nat)
    (entry : json__hash_map_entry) (new_base old_base : Nat) :
    Option (json__hash_map_entry × Bool × Nat) :=
  if json__hash_map_entry_valid entry = false then some (json__zero_entry, true, n)
  else
    let nxt : Option Nat := entry.next.map fun addr => addr - old_base + new_base
    let rs := json_string_copy a n entry.key
    if rs.2.1 = false then
      some ({ key := rs.1, value := .JSON_INVALID, next := nxt }, false, rs.2.2)
    else
      match json_value_copy depth a rs.2.2 true entry.value with
      | none => none
      | some (v2, okv, n3) =>
        some ({ key := rs.1, value := v2, next := nxt }, okv, n3)
termination_by (depth, 1, 0)

/-- Bucket loop of `json__hash_map_copy` (json.h lines 977-983): clone
slot by slot, aborting with no map as soon as a clone fails. -/
def json__hash_map_copy_bucket (depth : Nat) (a : Alloc) (old : json__hash_map) :
    Nat → Nat → json__hash_map → Nat → Option (Option json__hash_map × Nat)
  | 0, _, acc, n => some (some acc, n)
  | k + 1, i, acc, n =>
    match json__hash_map_entry_copy depth a n (old.bucket.getD i json__zero_entry)
        acc.collisions_base old.collisions_base with
    | none => none
    | some (_, false, n2) => some (none, n2)
    | some (e2, true, n2) =>
      json__hash_map_copy_bucket depth a old k (i + 1)
        { acc with bucket := acc.bucket.set i e2 } n2
termination_by k _ _ _ => (depth, 2, k)

/-- Collisions loop of `json__hash_map_copy` (json.h lines 985-991):
clone the first `collisions_size` slots, aborting with no map as soon
as a clone fails. -/
def json__hash_map_copy_colls (depth : Nat) (a : Alloc) (old : json__hash_map) :
    Nat → Nat → json__hash_map → Nat → Option (Option json__hash_map × Nat)
  | 0, _, acc, n => some (some acc, n)
  | k + 1, i, acc, n =>
    match json__hash_map_entry_copy depth a n (old.collisions.getD i json__zero_entry)
        acc.collisions_base old.collisions_base with
    | none => none
    | some (_, false, n2) => some (none, n2)
    | some (e2, true, n2) =>
      json__hash_map_copy_colls depth a old k (i + 1)
        { acc with collisions := acc.collisions.set i e2 } n2
termination_by k _ _ _ => (depth, 2, k)

/-- Translation of `json__hash_map_copy` (json.h line 956): two
`calloc`s of `bucket_cap` entries each (note: the collisions array of
the clone is allocated with `bucket_cap` entries, not
`collisions_cap`), size fields copied over, every bucket slot and the
first `collisions_size` collision slots cloned entry by entry, and a
final `malloc` of the map structure; `none` in the first component
whenever an allocation or an entry clone failed. -/
def json__hash_map_copy (depth : Nat) (a : Alloc) (n : Nat) (hm : json__hash_map) :
    Option (Option json__hash_map × Nat) :=
  if a.ok n = false then some (none, n + 1)
  else if a.ok (n + 1) = false then some (none, n + 2)
  else
    let new_hm : json__hash_map :=
      { bucket := List.replicate hm.bucket_cap json__zero_entry,
        bucket_size := hm.bucket_size, bucket_cap := hm.bucket_cap,
        collisions := List.replicate hm.bucket_cap json__zero_entry,
        collisions_size := hm.collisions_size, collisions_cap := hm.bucket_cap,
        collisions_base := a.base (n + 1) }
    match json__hash_map_copy_bucket depth a hm hm.bucket_cap 0 new_hm (n + 2) with
    | none => none
    | some (none, n2) => some (none, n2)
    | some (some m1, n2) =>
      match json__hash_map_copy_colls depth a hm hm.collisions_size 0 m1 n2 with
      | none => none
      | some (none, n3) => some (none, n3)
      | some (some m2, n3) =>
        if a.ok n3 = false then some (none, n3 + 1)
        else some (some m2, n3 + 1)
termination_by (depth, 3, 0)
end

-- ---------------------------------------------------------------------------
-- Concrete states used by the claim theorems
-- ---------------------------------------------------------------------------

/-- The map a successful `json__hm_create` returns (three successful
allocations; the fallback of the `getD` is never used). -/
def json__fresh_map : json__hash_map :=
  ((json__hm_create allocAllOk 0).1).getD ⟨[], 0, 0, [], 0, 0, 0⟩

/-- Observer: the number payload stored under a key, `none` when the key
is absent or holds a different variant. -/
def json__get_number (hm : json__hash_map) (key : json_string) : Option Nat :=
  match json__hash_map_get hm key with
  | some e =>
    match e.value with
    | .JSON_NUMBER b => some b
    | _ => none
  | none => none

/-- A fresh map holding the single key `deez` with the string value
`hello` (the object of the repository's own test). -/
def c4_map : json__hash_map :=
  match json__hash_map_insert 1 allocAllOk 3 json__fresh_map
      [100, 101, 101, 122] (.JSON_STRING [104, 101, 108, 108, 111]) with
  | some (_, m, _) => m
  | none => json__fresh_map

/-- Seventeen distinct three-byte keys that all hash to bucket 14 of a
16-bucket map (`json__hash k % 16 = 14` for each). -/
def c1_keys : List json_string :=
  [[107, 97, 97], [107, 97, 113], [107, 98, 98], [107, 98, 114],
   [107, 99, 99], [107, 99, 115], [107, 100, 100], [107, 100, 116],
   [107, 101, 101], [107, 101, 117], [107, 102, 102], [107, 102, 118],
   [107, 103, 103], [107, 103, 119], [107, 104, 104], [107, 104, 120],
   [107, 105, 105]]

/-- Head entry of the full chain: key `c1_keys[0]`, chained to the
collisions slot at absolute address 1000 + 0. -/
def c1_head : json__hash_map_entry :=
  { key := [107, 97, 97], value := .JSON_NUMBER 0, next := some 1000 }

/-- Collision entry `j` of the full chain: key `c1_keys[j+1]`, chained to
the slot at absolute address 1000 + (j+1), the last one ending the
chain. -/
def c1_coll (j : Nat) : json__hash_map_entry :=
  { key := c1_keys.getD (j + 1) [], value := .JSON_NUMBER (j + 1),
    next := if j < 14 then some (1000 + j + 1) else none }

/-- A map state of the shape repeated colliding inserts produce once the
collisions array is full: sixteen live entries forming one chain from
bucket 14 through collision slots 0..14, `collisions_size = 15` against
`collisions_cap = 16` (so the next insert into the chain must `realloc`
the collisions array), the block residing at base address 1000. -/
def c1_map : json__hash_map :=
  { bucket := (List.replicate 16 json__zero_entry).set 14 c1_head,
    bucket_size := 16, bucket_cap := 16,
    collisions := (List.range 15).map c1_coll ++ [json__zero_entry],
    collisions_size := 15, collisions_cap := 16, collisions_base := 1000 }

/-- Allocator on which every allocation succeeds and the `realloc` of the
collisions array (the second allocation of the insert below) returns a
block at base 6000: the block moved. -/
def c1_alloc_move : Alloc := ⟨fun _ => true, fun n => if n = 1 then 6000 else 9000⟩

/-- Allocator identical to `c1_alloc_move` except that the `realloc`
returns the block at its old base 1000: the block did not move. -/
def c1_alloc_stay : Alloc := ⟨fun _ => true, fun n => if n = 1 then 1000 else 9000⟩

/-- Result of inserting the seventeenth colliding key into `c1_map` when
the `realloc` moves the collisions block. -/
def c1_result_move : Option (Bool × json__hash_map × Nat) :=
  json__hash_map_insert 1 c1_alloc_move 0 c1_map [107, 105, 105] (.JSON_NUMBER 16)

/-- The map after the moving-realloc insert. -/
def c1_map_move : json__hash_map :=
  match c1_result_move with
  | some (_, m, _) => m
  | none => c1_map

/-- The map after the identical insert whose `realloc` did not move the
block. -/
def c1_map_stay : json__hash_map :=
  match json__hash_map_insert 1 c1_alloc_stay 0 c1_map [107, 105, 105] (.JSON_NUMBER 16) with
  | some (_, m, _) => m
  | none => c1_map

-- ---------------------------------------------------------------------------
-- Specification-side descriptions used to settle the copy claim
-- ---------------------------------------------------------------------------

/-- Whether a value is an object (carries a nested hash map). -/
def json__value_is_object : json_value → Bool
  | .JSON_OBJECT _ => true
  | _ => false

/-- Well-formedness of a hash map state, holding of every map the
library builds while its allocations succeed: the bucket array has
exactly `bucket_cap` slots, the collisions block has exactly
`bucket_cap` slots of which the first `collisions_size` are filled (so
the filled part also fits a `bucket_cap`-sized clone), every `next`
link (from a bucket slot
or from a filled collision slot) is an address inside the filled part
of the current collisions block, and every filled collision slot is
valid. -/
def json__hm_wf (hm : json__hash_map) : Prop :=
  hm.bucket.length = hm.bucket_cap ∧
  0 < hm.bucket_cap ∧
  hm.collisions.length = hm.bucket_cap ∧
  hm.collisions_size ≤ hm.bucket_cap ∧
  (∀ i, i < hm.bucket.length →
    ((hm.bucket.getD i json__zero_entry).next.all fun addr =>
      decide (hm.collisions_base ≤ addr ∧
        addr - hm.collisions_base < hm.collisions_size)) = true) ∧
  (∀ j, j < hm.collisions_size →
    ((hm.collisions.getD j json__zero_entry).next.all fun addr =>
      decide (hm.collisions_base ≤ addr ∧
        addr - hm.collisions_base < hm.collisions_size)) = true) ∧
  (∀ j, j < hm.collisions_size →
    json__hash_map_entry_valid (hm.collisions.getD j json__zero_entry) = true)

/-- Every value stored in the map is a leaf (not an object); object
values are deep-cloned into fresh storage by copy, so only for leaf
values is the clone's payload literally the source payload. -/
def json__hm_leaf_values (hm : json__hash_map) : Prop :=
  (∀ i, i < hm.bucket.length →
    json__value_is_object (hm.bucket.getD i json__zero_entry).value = false) ∧
  (∀ j, j < hm.collisions_size →
    json__value_is_object (hm.collisions.getD j json__zero_entry).value = false)

/-- Well-formedness is a decidable property of a concrete map state. -/
instance json__hm_wf_dec (hm : json__hash_map) : Decidable (json__hm_wf hm) := by
  unfold json__hm_wf
  infer_instance

/-- Leaf-valuedness is a decidable property of a concrete map state. -/
instance json__hm_leaf_values_dec (hm : json__hash_map) :
    Decidable (json__hm_leaf_values hm) := by
  unfold json__hm_leaf_values
  infer_instance

/-- Modelled from the spec: the clone `copy` is described as producing —
every slot cloned value for value, with each `next` link recomputed as
the same relative index into the new collisions array that the source
link had into the source collisions array (invalid slots cloned as
zero, the clone's collisions array allocated with `bucket_cap`
entries).  This is the comparison definition for the refinement; the
translation of the C code is `json__hash_map_copy`. -/
def json__rebase_entry (old_base new_base : Nat) (e : json__hash_map_entry) :
    json__hash_map_entry :=
  if json__hash_map_entry_valid e then
    { e with next := e.next.map fun addr => addr - old_base + new_base }
  else json__zero_entry

/-- Modelled from the spec: the whole-map counterpart of
`json__rebase_entry`; see there. -/
def json__rebase (hm : json__hash_map) (new_base : Nat) : json__hash_map :=
  { bucket := hm.bucket.map (json__rebase_entry hm.collisions_base new_base),
    bucket_size := hm.bucket_size,
    bucket_cap := hm.bucket_cap,
    collisions :=
      (hm.collisions.take hm.collisions_size).map
        (json__rebase_entry hm.collisions_base new_base)
      ++ List.replicate (hm.bucket_cap - hm.collisions_size) json__zero_entry,
    collisions_size := hm.collisions_size,
    collisions_cap := hm.bucket_cap,
    collisions_base := new_base }

/-- Shift of an entry location under a relocation of the collisions
block: bucket slots are unaffected, collisions addresses keep their
relative index from the new base. -/
def json__shift_loc (old_base new_base : Nat) : hm_loc → hm_loc
  | .head i => .head i
  | .coll addr => .coll (addr - old_base + new_base)

/-- A fresh map holding the two keys `kaa` and `kbb`, which collide into
bucket 14, so the second lives in the collisions region and is chained
from the first. -/
def c7_map : json__hash_map :=
  match json__hash_map_insert 1 allocAllOk 3 json__fresh_map [107, 97, 97]
      (.JSON_NUMBER 1) with
  | some (_, m, n) =>
    (match json__hash_map_insert 1 allocAllOk n m [107, 98, 98] (.JSON_NUMBER 2) with
     | some (_, m2, _) => m2
     | none => m)
  | none => json__fresh_map

-- ---------------------------------------------------------------------------
-- Chain layout abstraction used for the growth claim
-- ---------------------------------------------------------------------------

/-- Observer: the key and value a lookup returns (the part of a found
entry that is independent of link representation). -/
def json__getKV (hm : json__hash_map) (key : json_string) :
    Option (json_string × json_value) :=
  (json__hash_map_get hm key).map fun e => (e.key, e.value)

/-- The entry at `e` heads a chain whose collision slots are exactly
`js`, in order: its `next` holds the absolute address of the first slot
of `js`, and so on, the last entry ending the chain. -/
def json__chain_is (m : json__hash_map) : json__hash_map_entry → List Nat → Prop
  | e, [] => e.next = none
  | e, j :: js => j < m.collisions_size ∧ e.next = some (m.collisions_base + j) ∧
      json__chain_is m (m.collisions.getD j json__zero_entry) js

/-- A concrete chain layout is checkable. -/
instance json__chain_is_dec (m : json__hash_map) :
    ∀ (e : json__hash_map_entry) (js : List Nat), Decidable (json__chain_is m e js)
  | e, [] => inferInstanceAs (Decidable (e.next = none))
  | e, j :: js =>
    letI := json__chain_is_dec m (m.collisions.getD j json__zero_entry) js
    inferInstanceAs (Decidable (j < m.collisions_size ∧
      e.next = some (m.collisions_base + j) ∧
      json__chain_is m (m.collisions.getD j json__zero_entry) js))

/-- The entries of the chain of bucket `i` whose collision slots are
`js`: the head followed by the listed collision slots when the head is
live, nothing otherwise. -/
def json__chain_entry_list (m : json__hash_map) (i : Nat) (js : List Nat) :
    List json__hash_map_entry :=
  if json__hash_map_entry_valid (m.bucket.getD i json__zero_entry) then
    m.bucket.getD i json__zero_entry ::
      js.map (fun j => m.collisions.getD j json__zero_entry)
  else []

/-- Key-value projection of a chain. -/
def json__chain_kvs (m : json__hash_map) (i : Nat) (js : List Nat) :
    List (json_string × json_value) :=
  (json__chain_entry_list m i js).map fun e => (e.key, e.value)

/-- All live key-value bindings of the map, bucket by bucket, each chain
from head to tail, under the layout `layout` (the collision slots of
each bucket's chain). -/
def json__all_kvs (m : json__hash_map) (layout : List (List Nat)) :
    List (json_string × json_value) :=
  (List.range m.bucket_cap).flatMap fun i =>
    json__chain_kvs m i (layout.getD i [])

/-- Invariant tying a map state to its chain layout; it holds of every
state the library reaches from a fresh map by successful inserts.  The
arrays have exactly `bucket_cap` slots each, the layout has one slot
list per bucket, the filled collision slots `0 .. collisions_size - 1`
are exactly the slots of the chains (each in exactly one chain), a live
bucket head heads the chain its layout entry describes while a dead one
has an empty layout entry, every chain entry is valid and hashes to its
home bucket, keys are globally distinct, and `bucket_size` counts the
live entries. -/
def json__inv (m : json__hash_map) (layout : List (List Nat)) : Prop :=
  m.bucket.length = m.bucket_cap ∧
  16 ≤ m.bucket_cap ∧
  m.collisions.length = m.bucket_cap ∧
  m.collisions_cap = m.bucket_cap ∧
  m.collisions_size ≤ m.bucket_cap ∧
  layout.length = m.bucket_cap ∧
  layout.flatten.Perm (List.range m.collisions_size) ∧
  (∀ i, i < m.bucket_cap →
    (json__hash_map_entry_valid (m.bucket.getD i json__zero_entry) = true →
      json__chain_is m (m.bucket.getD i json__zero_entry) (layout.getD i [])) ∧
    (json__hash_map_entry_valid (m.bucket.getD i json__zero_entry) = false →
      layout.getD i [] = [])) ∧
  (∀ i, i < m.bucket_cap →
    ∀ p ∈ json__chain_kvs m i (layout.getD i []),
      json_value_type p.2 ≠ json_type.JSON_INVALID ∧
      json__hash p.1 % m.bucket_cap = i) ∧
  ((json__all_kvs m layout).map Prod.fst).Nodup ∧
  m.bucket_size = (json__all_kvs m layout).length

/-- The map state both `json__hm_create` and the growth path build before
any entry is stored: two zeroed blocks of `cap` entries each. -/
def json__empty_map (cap base : Nat) : json__hash_map :=
  { bucket := List.replicate cap json__zero_entry, bucket_size := 0,
    bucket_cap := cap,
    collisions := List.replicate cap json__zero_entry, collisions_size := 0,
    collisions_cap := cap, collisions_base := base }

/-- The re-insertion pass of `json__hash_map_grow`, abstracted to the
sequence of key-value bindings it feeds to the insert function (the
concrete pass walks the old map's chains; the lemmas below show it
visits exactly the live bindings in layout order). -/
def json__reinsert_list
    (insertFn : Nat → json__hash_map → json_string → json_value →
      Option (Bool × json__hash_map × Nat)) :
    List (json_string × json_value) → json__hash_map → Nat → json__reinsert_result
  | [], acc, n => .ok acc n
  | (k, v) :: rest, acc, n =>
    match insertFn n acc k v with
    | none => .crashed
    | some (false, _, n2) => .failed n2
    | some (true, acc2, n2) => json__reinsert_list insertFn rest acc2 n2

/-- The layout invariant is a checkable property of a concrete map and
layout. -/
instance json__inv_dec (m : json__hash_map) (layout : List (List Nat)) :
    Decidable (json__inv m layout) := by
  unfold json__inv
  infer_instance

/-- Run a list of inserts (growth depth 1) against a map, threading the
allocation counter; `none` if any insert fails, crashes, or reports an
unexpected result. -/
def json__insert_seq (a : Alloc) : Nat → List (json_string × json_value) →
    json__hash_map → Option (json__hash_map × Nat)
  | n, [], m => some (m, n)
  | n, (k, v) :: rest, m =>
    match json__hash_map_insert 1 a n m k v with
    | some (true, m2, n2) => json__insert_seq a n2 rest m2
    | _ => none

/-- Create a fresh map and run the inserts against it. -/
def json__run_inserts (a : Alloc) (kvs : List (json_string × json_value)) :
    Option (json__hash_map × Nat) :=
  match json__hm_create a 0 with
  | (some m, n) => json__insert_seq a n kvs m
  | (none, _) => none

/-- Twelve distinct two-byte keys with number values: inserting them into
a fresh 16-bucket map drives `bucket_size` to 12, and `10 * 12 > 7 * 16`
makes the twelfth insert trigger the load-factor growth. -/
def c2_kvs : List (json_string × json_value) :=
  (List.range 12).map fun i => ([107, 48 + i], json_value.JSON_NUMBER i)

/-- A 16-bucket map holding the single key `k0` (home bucket 14) with
the owned string value `hi`: the smallest state on which a growth
exhibits the release of a transferred string payload. -/
def c2_str_map : json__hash_map :=
  { bucket := (List.replicate 16 json__zero_entry).set 14
      { key := [107, 48], value := .JSON_STRING [104, 105], next := none },
    bucket_size := 1, bucket_cap := 16,
    collisions := List.replicate 16 json__zero_entry,
    collisions_size := 0, collisions_cap := 16, collisions_base := 1000 }

/-- The chain layout of `c2_str_map`: every chain is collision-free. -/
def c2_str_layout : List (List Nat) := List.replicate 16 []

-- ---------------------------------------------------------------------------
-- Theorems
-- ---------------------------------------------------------------------------

/-- The comparison loop `json_string_eq` agrees with propositional
equality of the byte lists. -/
theorem json_string_eq_iff (first second : json_string) :
    json_string_eq first second = true ↔ first = second := by
  constructor
  · intro h
    by_cases hl : first.length = second.length
    · simp only [json_string_eq, hl, ne_eq, not_true_eq_false, if_false,
        List.all_eq_true, List.mem_range, decide_eq_true_eq] at h
      apply List.ext_getElem hl
      intro i h1 h2
      have := h i (hl ▸ h1)
      rwa [List.getD_eq_getElem _ _ h1, List.getD_eq_getElem _ _ h2] at this
    · simp [json_string_eq, hl] at h
  · rintro rfl
    simp [json_string_eq]

/-- Claim C3.  The claim states that lexing `true falsex null` yields a
TRUE token, an IDENTIFIER token for `falsex`, a NULL token and an EOF
token.  The code disagrees: `json__hash` of the spans `true` / `null`
(6382899763 and 6382864862) differs from the precompiled constants
`true_hash` = 6383874908 and `null_hash` = 229417312366851 (which the
repository's generator `comp_hashes.c` computed from the bytes of a
function pointer and of the `NULL` macro instead of the keyword
strings), so all three keyword-shaped runs are classified as
identifiers.  This theorem evaluates the lexer on the failing input:
the stream is IDENTIFIER("true"), IDENTIFIER("falsex"),
IDENTIFIER("null"), EOF, and no scanned hash matches its keyword
constant. -/
theorem c3_keywords_lex_as_identifiers :
    json_lexer_run allocAllOk c3_source 4 =
      some [⟨⟨1, 1, 0⟩, 4, .JSON_TOKEN_IDENTIFIER, .string [116, 114, 117, 101]⟩,
            ⟨⟨1, 6, 5⟩, 6, .JSON_TOKEN_IDENTIFIER, .string [102, 97, 108, 115, 101, 120]⟩,
            ⟨⟨1, 13, 12⟩, 4, .JSON_TOKEN_IDENTIFIER, .string [110, 117, 108, 108]⟩,
            ⟨⟨1, 17, 16⟩, 1, .JSON_TOKEN_EOF, .zero⟩] ∧
    json__hash [116, 114, 117, 101] = 6382899763 ∧
    json__hash [116, 114, 117, 101] ≠ true_hash ∧
    json__hash [110, 117, 108, 108] = 6382864862 ∧
    json__hash [110, 117, 108, 108] ≠ null_hash ∧
    json__hash [102, 97, 108, 115, 101, 98] ≠ false_hash := by
  decide

/-- Claim C8.  After a successful `json_lexer_init` on the two-byte
source `\x7b\x7d`, three successive `json_lexer_next_token` calls
return LBRACE at row 1, column 1, position 0, RBRACE at row 1,
column 2, position 1, and EOF at row 1, column 3, position 2. -/
theorem c8_brace_token_positions :
    json_lexer_run allocAllOk [123, 125] 3 =
      some [⟨⟨1, 1, 0⟩, 1, .JSON_TOKEN_LBRACE, .zero⟩,
            ⟨⟨1, 2, 1⟩, 1, .JSON_TOKEN_RBRACE, .zero⟩,
            ⟨⟨1, 3, 2⟩, 1, .JSON_TOKEN_EOF, .zero⟩] := by
  decide

/-- Claim C10.  `json_lexer_next_token` leaves the caller's `ok` cell
untouched whenever the produced token is not an IDENTIFIER token (EOF,
punctuation, keyword and invalid tokens), and on the identifier path the
cell is written by the span copy, so an allocation failure there is
reported through it: over the source `x` with a failing allocator the
token is an IDENTIFIER and the flag becomes `false` although the caller
stored `true`. -/
theorem c10_ok_written_only_on_identifier_path :
    (∀ (l : json_lexer) (ok : Bool) (a : Alloc) (n : Nat),
        (json_lexer_next_token l ok a n).1.type ≠ .JSON_TOKEN_IDENTIFIER →
        (json_lexer_next_token l ok a n).2.2.1 = ok) ∧
    (json_lexer_next_token c10_lexer true allocAllFail 0).1.type =
      .JSON_TOKEN_IDENTIFIER ∧
    (json_lexer_next_token c10_lexer true allocAllFail 0).2.2.1 = false := by
  refine ⟨?_, by decide, by decide⟩
  intro l ok a n
  unfold json_lexer_next_token
  dsimp only
  split
  · exact fun _ => rfl
  · split
    · exact fun _ => rfl
    · split
      · exact fun _ => rfl
      · split
        · exact fun _ => rfl
        · split
          · exact fun _ => rfl
          · split
            · exact fun _ => rfl
            · split
              · exact fun _ => rfl
              · split
                · unfold json__lexer_read_token
                  dsimp only
                  split
                  · exact fun _ => rfl
                  · split
                    · exact fun _ => rfl
                    · split
                      · exact fun _ => rfl
                      · exact fun h => absurd rfl h
                · exact fun _ => rfl

/-- Witness for the universally quantified part of the C10 theorem: on
the all-zero lexer (current character 0, not an identifier start) the
token is INVALID and the flag value `true` is preserved. -/
theorem c10_ok_written_only_on_identifier_path_witness :
    (json_lexer_next_token json_lexer_zero true allocAllOk 0).1.type ≠
      .JSON_TOKEN_IDENTIFIER ∧
    (json_lexer_next_token json_lexer_zero true allocAllOk 0).2.2.1 = true :=
  ⟨by decide,
   c10_ok_written_only_on_identifier_path.1 json_lexer_zero true allocAllOk 0
     (by decide)⟩

/-- Claim C9.  Whenever lookup misses, `json_object_get` stores `false`
through `found` and returns the all-zero `struct json_value`, whose tag
is `JSON_INVALID`; nothing stale or partial is returned. -/
theorem c9_object_get_miss_returns_zero_value :
    ∀ (hm : json__hash_map) (key : json_string),
      json__hash_map_get hm key = none →
      json_object_get hm key = (json_value.JSON_INVALID, false) := by
  intro hm key h
  simp [json_object_get, h]

/-- Witness for the C9 theorem: on a freshly created map the key `deez`
misses, and `json_object_get` returns the invalid value and `false`. -/
theorem c9_object_get_miss_returns_zero_value_witness :
    json__hash_map_get json__fresh_map [100, 101, 101, 122] = none ∧
    json_object_get json__fresh_map [100, 101, 101, 122] =
      (json_value.JSON_INVALID, false) :=
  ⟨rfl, c9_object_get_miss_returns_zero_value json__fresh_map [100, 101, 101, 122] rfl⟩

/-- Claim C5.  The claim states `delete(k)` returns `true` exactly when
`k` is live, and that a second delete reports not-found.  The code
disagrees for the empty key: `json__hash_map_delete` compares the head
slot's key before checking that the slot is valid, and a zeroed slot
carries the zero-length key, which `json_string_eq` equates with the
empty key.  On a freshly created map, where no key at all is live,
`get` of the empty key misses, yet `delete` of the empty key returns
`true` — and returns `true` again when repeated. -/
theorem c5_delete_empty_key_reports_found_on_empty_map :
    json__hash_map_get json__fresh_map [] = none ∧
    (json__hash_map_delete json__fresh_map []).1 = true ∧
    (json__hash_map_delete (json__hash_map_delete json__fresh_map []).2 []).1 = true :=
  ⟨rfl, rfl, rfl⟩

/-- Claim C4.  The claim states `json_object_delete` deletes the object's
hash map, recursively deleting every live key and value and freeing
both arrays.  The body of `json_object_delete` (json.h line 695) is
empty, so it releases nothing — for every object, including one holding
a live string entry — whereas the map destructor `json__hm_delete`,
which the claim says the object delete delegates to, releases the
entry's key and value and both arrays of the very same map. -/
theorem c4_object_delete_releases_nothing :
    (∀ obj : Option json__hash_map, json_object_delete obj = []) ∧
    json_object_delete (some c4_map) = [] ∧
    json__hm_delete c4_map =
      [.FreeStringData [100, 101, 101, 122],
       .FreeStringData [104, 101, 108, 108, 111],
       .FreeCollisions, .FreeBucket, .FreeMapStruct] :=
  ⟨fun _ => rfl, rfl, by decide⟩

/-- Claim C1.  The claim states every entry's `next` link is a logical
index-based reference rather than a raw address, so that chains survive
any reallocation of the collisions array.  In the code `next` is a raw
pointer: `c1_map` stores the head link as the absolute address 1000
(the collisions base plus offset 0), and when the seventeenth colliding
insert forces the `realloc` of the full collisions array, the outcome
depends on whether the allocator moved the block.  If it moved (base
6000), the insert still reports success but the pre-realloc chain
pointers go stale: the fifteen chained keys and the newly inserted key
are all unreachable afterwards (the load-factor growth that follows
walks the dangling chain and silently drops them).  If the block did
not move, every one of the seventeen keys remains reachable.  Index
based links would make both outcomes identical. -/
theorem c1_chain_links_are_raw_addresses_broken_by_realloc :
    (c1_map.bucket.getD 14 json__zero_entry).next = some 1000 ∧
    json__get_number c1_map [107, 97, 113] = some 1 ∧
    json__get_number c1_map [107, 104, 120] = some 15 ∧
    c1_result_move.map (fun r => r.1) = some true ∧
    json__get_number c1_map_move [107, 97, 113] = none ∧
    json__get_number c1_map_move [107, 104, 120] = none ∧
    json__get_number c1_map_move [107, 105, 105] = none ∧
    json__get_number c1_map_stay [107, 97, 113] = some 1 ∧
    json__get_number c1_map_stay [107, 104, 120] = some 15 ∧
    json__get_number c1_map_stay [107, 105, 105] = some 16 := by
  refine ⟨rfl, rfl, rfl, rfl, rfl, rfl, rfl, rfl, rfl, rfl⟩

/-- The load-factor epilogue of insert never reports failure: the growth
result is discarded and `true` is returned. -/
theorem json__hash_map_insert_tail_true
    (growFn : Nat → json__hash_map → json__grow_result) (a : Alloc) (n : Nat)
    (hm : json__hash_map) (b : Bool) (hm2 : json__hash_map) (n2 : Nat)
    (h : json__hash_map_insert_tail growFn a n hm = some (b, hm2, n2)) :
    b = true := by
  unfold json__hash_map_insert_tail at h
  split at h
  · cases hg : growFn n hm <;> rw [hg] at h <;> simp_all
  · simp_all

/-- The slot-and-link phase of insert never reports failure either. -/
theorem json__hash_map_insert_link_true
    (growFn : Nat → json__hash_map → json__grow_result) (a : Alloc) (n : Nat)
    (hm : json__hash_map) (endLoc : hm_loc) (new_entry : json__hash_map_entry)
    (b : Bool) (hm2 : json__hash_map) (n2 : Nat)
    (h : json__hash_map_insert_link growFn a n hm endLoc new_entry = some (b, hm2, n2)) :
    b = true := by
  unfold json__hash_map_insert_link at h
  exact json__hash_map_insert_tail_true _ _ _ _ _ _ _ h

/-- Claim C6.  When a mutating hash-map operation reports allocation
failure the receiver is unchanged: an insert that returns `false`
returns the map exactly as it was (the code in fact never leaves even
the collisions growth behind on a failed insert, which is within the
allowance the claim makes); a growth that returns `false` returns the
map exactly as it was; and a copy whose first allocation fails produces
no new map. -/
theorem c6_failure_leaves_map_unchanged :
    ∀ (gas : Nat) (a : Alloc) (n : Nat) (hm : json__hash_map) (key : json_string)
      (value : json_value) (hm2 : json__hash_map) (n2 depth : Nat),
      (json__hash_map_insert gas a n hm key value = some (false, hm2, n2) → hm2 = hm) ∧
      (json__hash_map_grow a gas n hm = .fail hm2 n2 → hm2 = hm) ∧
      (a.ok n = false →
        (json__hash_map_copy depth a n hm).map (fun r => r.1) = some none) := by
  intro gas a n hm key value hm2 n2 depth
  refine ⟨?_, ?_, ?_⟩
  · intro h
    unfold json__hash_map_insert json__hash_map_insert_core at h
    dsimp only at h
    split at h
    · simp only [Option.some.injEq, Prod.mk.injEq] at h
      exact h.2.1.symm
    · split at h
      · split at h
        · split at h
          · simp only [Option.some.injEq, Prod.mk.injEq] at h
            exact h.2.1.symm
          · exact absurd (json__hash_map_insert_link_true _ _ _ _ _ _ _ _ _ h).symm
              (by simp)
        · exact absurd (json__hash_map_insert_link_true _ _ _ _ _ _ _ _ _ h).symm
            (by simp)
      · exact absurd (json__hash_map_insert_tail_true _ _ _ _ _ _ _ h).symm (by simp)
  · intro h
    cases gas with
    | zero =>
      unfold json__hash_map_grow at h
      injection h with h1 _
      exact h1.symm
    | succ g =>
      unfold json__hash_map_grow at h
      dsimp only at h
      split at h
      · exact json__grow_result.noConfusion h
      · split at h
        · exact json__grow_result.noConfusion h
        · split at h
          · exact json__grow_result.noConfusion h
          · injection h with h1 _
            exact h1.symm
          · exact json__grow_result.noConfusion h
  · intro h
    unfold json__hash_map_copy
    simp [h]

/-- Witness for the C6 theorem: on a fresh map, an insert whose key copy
fails reports failure with the map unchanged, depth-exhausted growth
reports failure with the map unchanged, and a copy whose first
allocation fails produces no map. -/
theorem c6_failure_leaves_map_unchanged_witness :
    json__hash_map_insert 1 allocAllFail 0 json__fresh_map [97] (.JSON_NUMBER 1) =
      some (false, json__fresh_map, 1) ∧
    json__hash_map_grow allocAllOk 0 0 json__fresh_map = .fail json__fresh_map 0 ∧
    allocAllFail.ok 0 = false ∧
    json__fresh_map = json__fresh_map ∧
    (json__hash_map_copy 0 allocAllFail 0 json__fresh_map).map (fun r => r.1) =
      some none :=
  ⟨rfl, rfl, rfl,
   (c6_failure_leaves_map_unchanged 1 allocAllFail 0 json__fresh_map [97]
     (.JSON_NUMBER 1) json__fresh_map 1 0).1 rfl,
   (c6_failure_leaves_map_unchanged 1 allocAllFail 0 json__fresh_map [97]
     (.JSON_NUMBER 1) json__fresh_map 1 0).2.2 rfl⟩

/-- Reading a mapped list at an in-range index applies the function to
the original element. -/
theorem json__getD_map {α β : Type} (f : α → β) (l : List α) (i : Nat)
    (da : α) (db : β) (h : i < l.length) :
    (l.map f).getD i db = f (l.getD i da) := by
  rw [List.getD_eq_getElem _ _ (by simpa using h), List.getD_eq_getElem _ _ h]
  simp

/-- Rebasing preserves entry validity. -/
theorem json__valid_rebase_entry (ob nb : Nat) (e : json__hash_map_entry) :
    json__hash_map_entry_valid (json__rebase_entry ob nb e) =
      json__hash_map_entry_valid e := by
  unfold json__rebase_entry
  split
  · rfl
  · simp_all [json__zero_entry, json__hash_map_entry_valid, json_value_type]

/-- On an always-successful allocator, copying a non-object value (with
the success flag holding `true`) returns the value itself and leaves
the flag `true`. -/
theorem json_value_copy_leaf (a : Alloc) (hok : ∀ m, a.ok m = true)
    (depth n : Nat) (v : json_value) (hv : json__value_is_object v = false) :
    ∃ n2, json_value_copy depth a n true v = some (v, true, n2) := by
  cases v with
  | JSON_OBJECT ohm => simp [json__value_is_object] at hv
  | JSON_ARRAY items => exact ⟨n + 1, by simp [json_value_copy, hok n]⟩
  | JSON_STRING s =>
    refine ⟨if s.length = 0 then n else n + 1, ?_⟩
    unfold json_value_copy json_string_copy json_string_create
    by_cases h0 : s.length = 0
    · simp [h0, List.eq_nil_of_length_eq_zero h0]
    · simp [h0, hok n]
  | JSON_NUMBER b => exact ⟨n, by simp [json_value_copy]⟩
  | JSON_BOOLEAN b => exact ⟨n, by simp [json_value_copy]⟩
  | JSON_NULL => exact ⟨n, by simp [json_value_copy]⟩
  | JSON_INVALID => exact ⟨n, by simp [json_value_copy]⟩

/-- On an always-successful allocator, cloning a non-object entry yields
exactly the rebased entry (key and value carried over, link shifted to
the same relative index from the new base) and reports success. -/
theorem json__hash_map_entry_copy_leaf (a : Alloc) (hok : ∀ m, a.ok m = true)
    (depth n : Nat) (e : json__hash_map_entry) (nb ob : Nat)
    (hv : json__value_is_object e.value = false) :
    ∃ n2, json__hash_map_entry_copy depth a n e nb ob =
      some (json__rebase_entry ob nb e, true, n2) := by
  unfold json__hash_map_entry_copy json__rebase_entry
  by_cases hval : json__hash_map_entry_valid e = true
  · obtain ⟨n2, hv2⟩ :=
      json_value_copy_leaf a hok depth
        (json_string_copy a n e.key).2.2 e.value hv
    refine ⟨n2, ?_⟩
    have hkey : (json_string_copy a n e.key).1 = e.key ∧
        (json_string_copy a n e.key).2.1 = true := by
      unfold json_string_copy json_string_create
      by_cases h0 : e.key.length = 0
      · simp [h0, List.eq_nil_of_length_eq_zero h0]
      · simp [h0, hok n]
    simp only [hval, if_true, if_neg (by simp [hval] : ¬json__hash_map_entry_valid e = false),
      hkey.2, hv2]
    simp [hkey.1]
  · simp only [Bool.not_eq_true] at hval
    simp [hval]

/-- Unpacking of the boolean link condition used in `json__hm_wf`. -/
theorem json__next_all_imp {e : json__hash_map_entry} {p : Nat → Prop}
    [DecidablePred p] (h : (e.next.all fun addr => decide (p addr)) = true) :
    ∀ addr, e.next = some addr → p addr := by
  intro addr ha
  rw [ha] at h
  simpa using h

/-- Writing a list at an index and then reading: the updated slot when it
is the written in-range index, the old slot otherwise. -/
theorem json__getD_set {α : Type} (l : List α) (i j : Nat) (e : α) (d : α) :
    (l.set i e).getD j d = if i = j ∧ i < l.length then e else l.getD j d := by
  by_cases hij : i = j
  · subst hij
    by_cases hi : i < l.length
    · simp [hi, List.getD_eq_getElem, List.getElem_set]
    · rw [List.set_eq_of_length_le (by omega)]
      simp [hi]
  · by_cases hj : j < l.length
    · simp [hij, List.getD_eq_getElem, List.getElem_set, hj]
    · rw [List.getD_eq_default _ _ (by simpa using hj),
        List.getD_eq_default _ _ (by omega)]
      simp [hij]

/-- Specification of the bucket-cloning loop of `json__hash_map_copy` on
an always-successful allocator over non-object values: it completes,
writes the rebased source slots `i .. i+k-1` into the accumulator's
bucket and leaves everything else of the accumulator unchanged. -/
theorem json__copy_bucket_spec (depth : Nat) (a : Alloc) (hok : ∀ m, a.ok m = true)
    (old : json__hash_map) :
    ∀ (k i : Nat) (acc : json__hash_map) (n : Nat),
      (∀ j, i ≤ j → j < i + k →
        json__value_is_object (old.bucket.getD j json__zero_entry).value = false) →
      i + k ≤ acc.bucket.length →
      ∃ final n2,
        json__hash_map_copy_bucket depth a old k i acc n = some (some final, n2) ∧
        final.bucket.length = acc.bucket.length ∧
        (∀ d j, final.bucket.getD j d =
          if i ≤ j ∧ j < i + k then
            json__rebase_entry old.collisions_base acc.collisions_base
              (old.bucket.getD j json__zero_entry)
          else acc.bucket.getD j d) ∧
        final.collisions = acc.collisions ∧
        final.bucket_size = acc.bucket_size ∧
        final.bucket_cap = acc.bucket_cap ∧
        final.collisions_size = acc.collisions_size ∧
        final.collisions_cap = acc.collisions_cap ∧
        final.collisions_base = acc.collisions_base := by
  intro k
  induction k with
  | zero =>
    intro i acc n _ _
    refine ⟨acc, n, by simp [json__hash_map_copy_bucket], rfl, ?_, rfl, rfl, rfl, rfl, rfl, rfl⟩
    intro d j
    have h : ¬(i ≤ j ∧ j < i) := by omega
    simp [h]
  | succ k ih =>
    intro i acc n hleaf hlen
    obtain ⟨n2, hec⟩ := json__hash_map_entry_copy_leaf a hok depth n
      (old.bucket.getD i json__zero_entry) acc.collisions_base old.collisions_base
      (hleaf i (by omega) (by omega))
    obtain ⟨final, n3, hrec, hflen, hfget, hfcoll, hf1, hf2, hf3, hf4, hf5⟩ :=
      ih (i + 1)
        { acc with bucket := (acc.bucket.set i
            (json__rebase_entry old.collisions_base acc.collisions_base
              (old.bucket.getD i json__zero_entry))) } n2
        (fun j h1 h2 => hleaf j (by omega) (by omega))
        (by simpa using by omega)
    refine ⟨final, n3, ?_, by simpa using hflen, ?_, by simpa using hfcoll,
      by simpa using hf1, by simpa using hf2, by simpa using hf3,
      by simpa using hf4, by simpa using hf5⟩
    · unfold json__hash_map_copy_bucket
      rw [hec]
      exact hrec
    · intro d j
      rw [hfget d j]
      by_cases hji : j = i
      · subst hji
        have h1 : ¬(j + 1 ≤ j ∧ j < j + 1 + k) := by omega
        have h2 : j ≤ j ∧ j < j + (k + 1) := by omega
        simp only [h1, if_false, h2, if_true]
        rw [json__getD_set]
        simp [show j < acc.bucket.length by omega]
      · by_cases hin : i + 1 ≤ j ∧ j < i + 1 + k
        · have : i ≤ j ∧ j < i + (k + 1) := by omega
          simp [hin, this]
        · have : ¬(i ≤ j ∧ j < i + (k + 1)) := by omega
          simp only [hin, if_false, this, if_false]
          rw [json__getD_set]
          have hij : ¬i = j := fun h => hji h.symm
          simp [hij]

/-- Specification of the collisions-cloning loop of `json__hash_map_copy`
on an always-successful allocator over non-object values; the analogue
of `json__copy_bucket_spec`. -/
theorem json__copy_colls_spec (depth : Nat) (a : Alloc) (hok : ∀ m, a.ok m = true)
    (old : json__hash_map) :
    ∀ (k i : Nat) (acc : json__hash_map) (n : Nat),
      (∀ j, i ≤ j → j < i + k →
        json__value_is_object (old.collisions.getD j json__zero_entry).value = false) →
      i + k ≤ acc.collisions.length →
      ∃ final n2,
        json__hash_map_copy_colls depth a old k i acc n = some (some final, n2) ∧
        final.collisions.length = acc.collisions.length ∧
        (∀ d j, final.collisions.getD j d =
          if i ≤ j ∧ j < i + k then
            json__rebase_entry old.collisions_base acc.collisions_base
              (old.collisions.getD j json__zero_entry)
          else acc.collisions.getD j d) ∧
        final.bucket = acc.bucket ∧
        final.bucket_size = acc.bucket_size ∧
        final.bucket_cap = acc.bucket_cap ∧
        final.collisions_size = acc.collisions_size ∧
        final.collisions_cap = acc.collisions_cap ∧
        final.collisions_base = acc.collisions_base := by
  intro k
  induction k with
  | zero =>
    intro i acc n _ _
    refine ⟨acc, n, by simp [json__hash_map_copy_colls], rfl, ?_, rfl, rfl, rfl, rfl, rfl, rfl⟩
    intro d j
    have h : ¬(i ≤ j ∧ j < i) := by omega
    simp [h]
  | succ k ih =>
    intro i acc n hleaf hlen
    obtain ⟨n2, hec⟩ := json__hash_map_entry_copy_leaf a hok depth n
      (old.collisions.getD i json__zero_entry) acc.collisions_base old.collisions_base
      (hleaf i (by omega) (by omega))
    obtain ⟨final, n3, hrec, hflen, hfget, hfbuck, hf1, hf2, hf3, hf4, hf5⟩ :=
      ih (i + 1)
        { acc with collisions := (acc.collisions.set i
            (json__rebase_entry old.collisions_base acc.collisions_base
              (old.collisions.getD i json__zero_entry))) } n2
        (fun j h1 h2 => hleaf j (by omega) (by omega))
        (by simpa using by omega)
    refine ⟨final, n3, ?_, by simpa using hflen, ?_, by simpa using hfbuck,
      by simpa using hf1, by simpa using hf2, by simpa using hf3,
      by simpa using hf4, by simpa using hf5⟩
    · unfold json__hash_map_copy_colls
      rw [hec]
      exact hrec
    · intro d j
      rw [hfget d j]
      by_cases hji : j = i
      · subst hji
        have h1 : ¬(j + 1 ≤ j ∧ j < j + 1 + k) := by omega
        have h2 : j ≤ j ∧ j < j + (k + 1) := by omega
        simp only [h1, if_false, h2, if_true]
        rw [json__getD_set]
        simp [show j < acc.collisions.length by omega]
      · by_cases hin : i + 1 ≤ j ∧ j < i + 1 + k
        · have : i ≤ j ∧ j < i + (k + 1) := by omega
          simp [hin, this]
        · have : ¬(i ≤ j ∧ j < i + (k + 1)) := by omega
          simp only [hin, if_false, this, if_false]
          rw [json__getD_set]
          have hij : ¬i = j := fun h => hji h.symm
          simp [hij]

/-- On an always-successful allocator, `json__hash_map_copy` of a
well-formed map of leaf values returns exactly the spec-side clone
`json__rebase` at the base address the collisions calloc produced. -/
theorem json__hash_map_copy_rebase (depth n : Nat) (a : Alloc)
    (hok : ∀ m, a.ok m = true) (hm : json__hash_map)
    (hwf : json__hm_wf hm) (hleaf : json__hm_leaf_values hm) :
    ∃ n2, json__hash_map_copy depth a n hm =
      some (some (json__rebase hm (a.base (n + 1))), n2) := by
  obtain ⟨hblen, hcap, hsz1, hsz2, _, _, _⟩ := hwf
  obtain ⟨hlb, hlc⟩ := hleaf
  obtain ⟨f1, n2, hrun1, hlen1, hget1, hcoll1, h11, h12, h13, h14, h15⟩ :=
    json__copy_bucket_spec depth a hok hm hm.bucket_cap 0
      { bucket := List.replicate hm.bucket_cap json__zero_entry,
        bucket_size := hm.bucket_size, bucket_cap := hm.bucket_cap,
        collisions := List.replicate hm.bucket_cap json__zero_entry,
        collisions_size := hm.collisions_size, collisions_cap := hm.bucket_cap,
        collisions_base := a.base (n + 1) } (n + 2)
      (fun j _ hj => hlb j (by rw [hblen]; omega)) (by simp)
  obtain ⟨f2, n3, hrun2, hlen2, hget2, hbuck2, h21, h22, h23, h24, h25⟩ :=
    json__copy_colls_spec depth a hok hm hm.collisions_size 0 f1 n2
      (fun j _ hj => hlc j (by omega)) (by rw [hcoll1]; simp; omega)
  have hfeq : f2 = json__rebase hm (a.base (n + 1)) := by
    have hf1b : f1.collisions_base = a.base (n + 1) := by simpa using h15
    have hb2 : f2.bucket = hm.bucket.map
        (json__rebase_entry hm.collisions_base (a.base (n + 1))) := by
      rw [hbuck2]
      apply List.ext_getElem
      · simp only [List.length_map]
        rw [hlen1, hblen]
        simp
      · intro i h1 h2
        have hic : i < hm.bucket_cap := by
          have := hlen1
          simp at this
          omega
        rw [← List.getD_eq_getElem _ json__zero_entry h1, hget1]
        have hcond : 0 ≤ i ∧ i < 0 + hm.bucket_cap := by omega
        simp only [hcond, and_self, if_true]
        rw [List.getElem_map, List.getD_eq_getElem _ _ (by omega)]
    have hc2 : f2.collisions =
        (hm.collisions.take hm.collisions_size).map
          (json__rebase_entry hm.collisions_base (a.base (n + 1)))
        ++ List.replicate (hm.bucket_cap - hm.collisions_size) json__zero_entry := by
      apply List.ext_getElem
      · rw [hlen2, hcoll1]
        simp
        omega
      · intro i h1 h2
        have hic : i < hm.bucket_cap := by
          rw [hlen2, hcoll1] at h1
          simpa using h1
        rw [← List.getD_eq_getElem _ json__zero_entry h1, hget2]
        by_cases his : i < hm.collisions_size
        · have hcond : 0 ≤ i ∧ i < 0 + hm.collisions_size := by omega
          simp only [hcond, and_self, if_true, hf1b]
          rw [List.getElem_append_left (by simp [List.length_take]; omega),
            List.getElem_map, List.getElem_take,
            List.getD_eq_getElem _ _ (by omega)]
        · have hcond : ¬(0 ≤ i ∧ i < 0 + hm.collisions_size) := by omega
          simp only [hcond, if_false, hcoll1]
          rw [List.getD_eq_getElem _ _ (by simp; omega), List.getElem_replicate,
            List.getElem_append_right (by simp [List.length_take]; omega),
            List.getElem_replicate]
    have hs1 : f2.bucket_size = hm.bucket_size := by
      rw [h21]; simpa using h11
    have hs2 : f2.bucket_cap = hm.bucket_cap := by
      rw [h22]; simpa using h12
    have hs3 : f2.collisions_size = hm.collisions_size := by
      rw [h23]; simpa using h13
    have hs4 : f2.collisions_cap = hm.bucket_cap := by
      rw [h24]; simpa using h14
    have hs5 : f2.collisions_base = a.base (n + 1) := by
      rw [h25]; exact hf1b
    cases f2
    simp_all [json__rebase]
  refine ⟨n3 + 1, ?_⟩
  unfold json__hash_map_copy
  simp only [hok n, hok (n + 1), Bool.true_eq_false, if_false]
  rw [hrun1]
  dsimp only
  rw [hrun2]
  dsimp only
  simp [hok n3, hfeq]

/-- Dereferencing the shifted address in the rebased map yields the
rebased entry of the old slot. -/
theorem json__deref_rebase (hm : json__hash_map) (b2 : Nat)
    (hwf : json__hm_wf hm) (addr : Nat) (_h1 : hm.collisions_base ≤ addr)
    (h2 : addr - hm.collisions_base < hm.collisions_size) :
    json__deref (json__rebase hm b2) (addr - hm.collisions_base + b2) =
      some (json__rebase_entry hm.collisions_base b2
        (hm.collisions.getD (addr - hm.collisions_base) json__zero_entry)) := by
  obtain ⟨hblen, hcap, hclen, hsz, _, _, _⟩ := hwf
  unfold json__deref json__rebase
  dsimp only
  have hlen : ((hm.collisions.take hm.collisions_size).map
      (json__rebase_entry hm.collisions_base b2)
      ++ List.replicate (hm.bucket_cap - hm.collisions_size) json__zero_entry).length
      = hm.bucket_cap := by
    simp [List.length_take]
    omega
  have hc : b2 ≤ addr - hm.collisions_base + b2 ∧
      addr - hm.collisions_base + b2 - b2 < ((hm.collisions.take hm.collisions_size).map
        (json__rebase_entry hm.collisions_base b2)
        ++ List.replicate (hm.bucket_cap - hm.collisions_size) json__zero_entry).length := by
    rw [hlen]
    omega
  rw [if_pos hc]
  congr 1
  have hidx : addr - hm.collisions_base + b2 - b2 = addr - hm.collisions_base := by omega
  rw [hidx, List.getD_eq_getElem _ _ (by rw [hlen]; omega),
    List.getElem_append_left (by simp [List.length_take]; omega),
    List.getElem_map, List.getElem_take,
    List.getD_eq_getElem _ _ (by omega)]

/-- The chain walk of get, run in lock-step on the rebased map: it
returns the shifted location of whatever the walk on the source map
returns.  The two maps have collision blocks of equal length, so the
fuel `json__hash_map_get_loc` supplies is the same on both sides. -/
theorem json__get_go_rebase (hm : json__hash_map) (b2 : Nat) (key : json_string)
    (hwf : json__hm_wf hm) :
    ∀ (fuel : Nat) (e e2 : json__hash_map_entry),
      e2.next = e.next.map (fun addr => addr - hm.collisions_base + b2) →
      ((e.next.all fun addr => decide (hm.collisions_base ≤ addr ∧
        addr - hm.collisions_base < hm.collisions_size)) = true) →
      json__hash_map_get_go (json__rebase hm b2) key fuel e2 =
        (json__hash_map_get_go hm key fuel e).map
          (json__shift_loc hm.collisions_base b2) := by
  intro fuel
  induction fuel with
  | zero => intro e e2 _ _; rfl
  | succ fuel ih =>
    intro e e2 hnext hlink
    unfold json__hash_map_get_go
    rw [hnext]
    cases hen : e.next with
    | none => rfl
    | some addr =>
      dsimp only [Option.map]
      have hin := json__next_all_imp hlink addr hen
      have hderef_old : json__deref hm addr =
          some (hm.collisions.getD (addr - hm.collisions_base) json__zero_entry) := by
        unfold json__deref
        rw [if_pos ⟨hin.1, by have := hwf.2.2.1; have := hwf.2.2.2.1; omega⟩]
      have hderef_new := json__deref_rebase hm b2 hwf addr hin.1 hin.2
      rw [hderef_old, hderef_new]
      dsimp only
      have hval := hwf.2.2.2.2.2.2 (addr - hm.collisions_base) hin.2
      have hkey : (json__rebase_entry hm.collisions_base b2
          (hm.collisions.getD (addr - hm.collisions_base) json__zero_entry)).key =
          (hm.collisions.getD (addr - hm.collisions_base) json__zero_entry).key := by
        unfold json__rebase_entry
        rw [if_pos hval]
      rw [hkey]
      by_cases heq : json_string_eq
          (hm.collisions.getD (addr - hm.collisions_base) json__zero_entry).key key = true
      · rw [if_pos heq, if_pos heq]
        rfl
      · rw [if_neg heq, if_neg heq]
        apply ih
        · unfold json__rebase_entry
          rw [if_pos hval]
        · exact hwf.2.2.2.2.2.1 (addr - hm.collisions_base) hin.2

/-- The location lookup on the rebased map is the shifted location lookup
of the source map. -/
theorem json__get_loc_rebase (hm : json__hash_map) (b2 : Nat) (key : json_string)
    (hwf : json__hm_wf hm) :
    json__hash_map_get_loc (json__rebase hm b2) key =
      (json__hash_map_get_loc hm key).map (json__shift_loc hm.collisions_base b2) := by
  obtain ⟨hblen, hcap, hclen, hsz, hheads, hcolls, hvalid⟩ := hwf
  simp only [json__hash_map_get_loc]
  have hbcap : (json__rebase hm b2).bucket_cap = hm.bucket_cap := rfl
  have hidx : json__hash key % hm.bucket_cap < hm.bucket.length := by
    rw [hblen]
    exact Nat.mod_lt _ hcap
  have hhead : (json__rebase hm b2).bucket.getD (json__hash key % hm.bucket_cap)
      json__zero_entry =
      json__rebase_entry hm.collisions_base b2
        (hm.bucket.getD (json__hash key % hm.bucket_cap) json__zero_entry) := by
    unfold json__rebase
    dsimp only
    exact json__getD_map _ _ _ json__zero_entry _ hidx
  rw [hbcap, hhead, json__valid_rebase_entry]
  by_cases hv : json__hash_map_entry_valid
      (hm.bucket.getD (json__hash key % hm.bucket_cap) json__zero_entry) = true
  · rw [hv]
    have hcond : ¬(true = false) := by simp
    rw [if_neg hcond, if_neg hcond]
    have hkeep : json__rebase_entry hm.collisions_base b2
        (hm.bucket.getD (json__hash key % hm.bucket_cap) json__zero_entry) =
        { hm.bucket.getD (json__hash key % hm.bucket_cap) json__zero_entry with
          next := (hm.bucket.getD (json__hash key % hm.bucket_cap)
            json__zero_entry).next.map
              fun addr => addr - hm.collisions_base + b2 } := by
      unfold json__rebase_entry
      rw [if_pos hv]
    rw [hkeep]
    by_cases heq : json_string_eq
        (hm.bucket.getD (json__hash key % hm.bucket_cap) json__zero_entry).key key = true
    · rw [if_pos heq, if_pos heq]
      rfl
    · rw [if_neg heq, if_neg heq]
      have hlenfuel : (json__rebase hm b2).collisions.length = hm.collisions.length := by
        unfold json__rebase
        simp [List.length_take]
        omega
      rw [hlenfuel]
      exact json__get_go_rebase hm b2 key
        ⟨hblen, hcap, hclen, hsz, hheads, hcolls, hvalid⟩
        (hm.collisions.length + 1) _ _ rfl
        (hheads (json__hash key % hm.bucket_cap) hidx)
  · simp only [Bool.not_eq_true] at hv
    rw [hv]
    rfl

/-- Locations the chain walk hands back are in-range collision
addresses. -/
theorem json__get_go_sound (hm : json__hash_map) (key : json_string)
    (hwf : json__hm_wf hm) :
    ∀ (fuel : Nat) (e : json__hash_map_entry),
      ((e.next.all fun addr => decide (hm.collisions_base ≤ addr ∧
        addr - hm.collisions_base < hm.collisions_size)) = true) →
      ∀ loc, json__hash_map_get_go hm key fuel e = some loc →
        ∃ addr, loc = hm_loc.coll addr ∧ hm.collisions_base ≤ addr ∧
          addr - hm.collisions_base < hm.collisions_size := by
  intro fuel
  induction fuel with
  | zero => intro e _ loc h; exact absurd h (by simp [json__hash_map_get_go])
  | succ fuel ih =>
    intro e hlink loc h
    unfold json__hash_map_get_go at h
    cases hen : e.next with
    | none => rw [hen] at h; exact absurd h (by simp)
    | some addr =>
      rw [hen] at h
      dsimp only at h
      have hin := json__next_all_imp hlink addr hen
      have hderef : json__deref hm addr =
          some (hm.collisions.getD (addr - hm.collisions_base) json__zero_entry) := by
        unfold json__deref
        rw [if_pos ⟨hin.1, by have := hwf.2.2.1; have := hwf.2.2.2.1; omega⟩]
      rw [hderef] at h
      dsimp only at h
      by_cases heq : json_string_eq
          (hm.collisions.getD (addr - hm.collisions_base) json__zero_entry).key key = true
      · rw [if_pos heq] at h
        exact ⟨addr, by simpa using h.symm, hin.1, hin.2⟩
      · rw [if_neg heq] at h
        exact ih _ (hwf.2.2.2.2.2.1 (addr - hm.collisions_base) hin.2) loc h

/-- Locations returned by the lookup are either the home bucket slot or
an in-range collision address, and the entry there is valid. -/
theorem json__get_loc_sound (hm : json__hash_map) (key : json_string)
    (hwf : json__hm_wf hm) :
    ∀ loc, json__hash_map_get_loc hm key = some loc →
      json__hash_map_entry_valid (json__read_loc hm loc) = true ∧
      (loc = hm_loc.head (json__hash key % hm.bucket_cap) ∨
       ∃ addr, loc = hm_loc.coll addr ∧ hm.collisions_base ≤ addr ∧
         addr - hm.collisions_base < hm.collisions_size) := by
  intro loc h
  unfold json__hash_map_get_loc at h
  dsimp only at h
  by_cases hv : json__hash_map_entry_valid
      (hm.bucket.getD (json__hash key % hm.bucket_cap) json__zero_entry) = false
  · rw [if_pos hv] at h
    exact absurd h (by simp)
  · rw [if_neg hv] at h
    by_cases heq : json_string_eq
        (hm.bucket.getD (json__hash key % hm.bucket_cap) json__zero_entry).key key = true
    · rw [if_pos heq] at h
      have hloc : loc = hm_loc.head (json__hash key % hm.bucket_cap) := by
        simpa using h.symm
      subst hloc
      refine ⟨by simpa [json__read_loc] using hv, Or.inl rfl⟩
    · rw [if_neg heq] at h
      obtain ⟨addr, hloc, h1, h2⟩ :=
        json__get_go_sound hm key hwf _ _
          (hwf.2.2.2.2.1 (json__hash key % hm.bucket_cap)
            (by rw [hwf.1]; exact Nat.mod_lt _ hwf.2.1)) loc h
      subst hloc
      refine ⟨?_, Or.inr ⟨addr, rfl, h1, h2⟩⟩
      have hderef : json__deref hm addr =
          some (hm.collisions.getD (addr - hm.collisions_base) json__zero_entry) := by
        unfold json__deref
        rw [if_pos ⟨h1, by have := hwf.2.2.1; have := hwf.2.2.2.1; omega⟩]
      simp only [json__read_loc, hderef, Option.getD_some]
      exact hwf.2.2.2.2.2.2 (addr - hm.collisions_base) h2

/-- The lookup on the rebased map returns exactly the rebased entry of
what the lookup on the source map returns. -/
theorem json__get_rebase (hm : json__hash_map) (b2 : Nat) (key : json_string)
    (hwf : json__hm_wf hm) :
    json__hash_map_get (json__rebase hm b2) key =
      (json__hash_map_get hm key).map
        (json__rebase_entry hm.collisions_base b2) := by
  unfold json__hash_map_get
  rw [json__get_loc_rebase hm b2 key hwf]
  cases hl : json__hash_map_get_loc hm key with
  | none => rfl
  | some loc =>
    dsimp only [Option.map]
    congr 1
    obtain ⟨_, hshape⟩ := json__get_loc_sound hm key hwf loc hl
    rcases hshape with hloc | ⟨addr, hloc, h1, h2⟩
    · subst hloc
      simp only [json__shift_loc, json__read_loc]
      have hidx : json__hash key % hm.bucket_cap < hm.bucket.length := by
        rw [hwf.1]; exact Nat.mod_lt _ hwf.2.1
      unfold json__rebase
      dsimp only
      exact json__getD_map _ _ _ json__zero_entry _ hidx
    · subst hloc
      simp only [json__shift_loc, json__read_loc]
      rw [json__deref_rebase hm b2 hwf addr h1 h2]
      have hderef : json__deref hm addr =
          some (hm.collisions.getD (addr - hm.collisions_base) json__zero_entry) := by
        unfold json__deref
        rw [if_pos ⟨h1, by have := hwf.2.2.1; have := hwf.2.2.2.1; omega⟩]
      rw [hderef]
      rfl

/-- Entries handed back by a lookup are valid. -/
theorem json__get_result_valid (hm : json__hash_map) (key : json_string)
    (hwf : json__hm_wf hm) :
    ∀ e, json__hash_map_get hm key = some e →
      json__hash_map_entry_valid e = true := by
  intro e h
  unfold json__hash_map_get at h
  cases hl : json__hash_map_get_loc hm key with
  | none => rw [hl] at h; exact absurd h (by simp)
  | some loc =>
    rw [hl] at h
    simp only [Option.map, Option.some.injEq] at h
    obtain ⟨hval, _⟩ := json__get_loc_sound hm key hwf loc hl
    rw [← h]
    exact hval

/-- Reading a filled collision slot of the rebased map yields the rebased
entry of the source slot. -/
theorem json__rebase_coll_getD (hm : json__hash_map) (b2 : Nat)
    (hwf : json__hm_wf hm) (j : Nat) (hj : j < hm.collisions_size) :
    (json__rebase hm b2).collisions.getD j json__zero_entry =
      json__rebase_entry hm.collisions_base b2
        (hm.collisions.getD j json__zero_entry) := by
  obtain ⟨hblen, hcap, hclen, hsz, _, _, _⟩ := hwf
  unfold json__rebase
  dsimp only
  rw [List.getD_eq_getElem _ _ (by simp [List.length_take]; omega),
    List.getElem_append_left (by simp [List.length_take]; omega),
    List.getElem_map, List.getElem_take, List.getD_eq_getElem _ _ (by omega)]

/-- Claim C7.  On a well-formed populated map of leaf values, with every
allocation succeeding, `json__hash_map_copy` produces exactly the
spec-side clone `json__rebase hm b2` at the fresh base `b2` the clone's
collisions calloc returned: a structurally identical map whose every
`next` link carries the same relative index into the new collisions
block that the source link had into the source block (conjuncts three
and four), sharing no addressable storage with the source (all its
links point into its own block at `b2`).  Consequently every lookup on
the clone returns an entry with exactly the source's key and value
(conjunct two), and — since the two maps are disjoint stores — mutating
one cannot change lookups on the other. -/
theorem c7_copy_rebases_links_and_preserves_gets :
    ∀ (hm : json__hash_map) (a : Alloc) (n depth : Nat),
      json__hm_wf hm → json__hm_leaf_values hm → (∀ m, a.ok m = true) →
      (∃ n2, json__hash_map_copy depth a n hm =
        some (some (json__rebase hm (a.base (n + 1))), n2)) ∧
      (∀ key, (json__hash_map_get (json__rebase hm (a.base (n + 1))) key).map
          (fun e => (e.key, e.value)) =
        (json__hash_map_get hm key).map (fun e => (e.key, e.value))) ∧
      (∀ i addr, i < hm.bucket.length →
        json__hash_map_entry_valid (hm.bucket.getD i json__zero_entry) = true →
        (hm.bucket.getD i json__zero_entry).next = some addr →
        ((json__rebase hm (a.base (n + 1))).bucket.getD i json__zero_entry).next =
          some (addr - hm.collisions_base + a.base (n + 1))) ∧
      (∀ j addr, j < hm.collisions_size →
        (hm.collisions.getD j json__zero_entry).next = some addr →
        ((json__rebase hm (a.base (n + 1))).collisions.getD j json__zero_entry).next =
          some (addr - hm.collisions_base + a.base (n + 1))) := by
  intro hm a n depth hwf hleaf hok
  refine ⟨json__hash_map_copy_rebase depth n a hok hm hwf hleaf, ?_, ?_, ?_⟩
  · intro key
    rw [json__get_rebase hm (a.base (n + 1)) key hwf]
    cases hg : json__hash_map_get hm key with
    | none => rfl
    | some e =>
      have hval := json__get_result_valid hm key hwf e hg
      simp only [Option.map]
      unfold json__rebase_entry
      rw [if_pos hval]
  · intro i addr hi hval hnext
    unfold json__rebase
    dsimp only
    rw [json__getD_map _ _ _ json__zero_entry _ hi]
    unfold json__rebase_entry
    rw [if_pos hval]
    show (hm.bucket.getD i json__zero_entry).next.map _ = _
    rw [hnext]
    rfl
  · intro j addr hj hnext
    rw [json__rebase_coll_getD hm (a.base (n + 1)) hwf j hj]
    unfold json__rebase_entry
    rw [if_pos (hwf.2.2.2.2.2.2 j hj)]
    show (hm.collisions.getD j json__zero_entry).next.map _ = _
    rw [hnext]
    rfl

/-- Witness for the C7 theorem: on the concrete two-entry colliding map
`c7_map` (well-formed, leaf values, always-successful allocator with
fresh base 0) the lookup of the chained key `kbb` agrees between the
clone and the source. -/
theorem c7_copy_rebases_links_and_preserves_gets_witness :
    (json__hash_map_get (json__rebase c7_map 0) [107, 98, 98]).map
        (fun e => (e.key, e.value)) =
      (json__hash_map_get c7_map [107, 98, 98]).map (fun e => (e.key, e.value)) :=
  (c7_copy_rebases_links_and_preserves_gets c7_map allocAllOk 0 1
    (by decide) (by decide) (fun _ => rfl)).2.1 [107, 98, 98]

-- ---------------------------------------------------------------------------
-- Chain layout lemmas for the growth claim
-- ---------------------------------------------------------------------------

/-- A member of a list of lists is no longer than the flattening. -/
theorem json__length_le_flatten {α : Type} :
    ∀ (L : List (List α)) (l : List α), l ∈ L → l.length ≤ L.flatten.length := by
  intro L
  induction L with
  | nil => intro l h; cases h
  | cons x xs ih =>
    intro l h
    rw [List.mem_cons] at h
    rw [List.flatten_cons, List.length_append]
    rcases h with h | h
    · subst h; omega
    · have := ih l h; omega

/-- Flattening as a `flatMap` over the index range. -/
theorem json__flatten_eq_flatMap {α : Type} :
    ∀ (L : List (List α)),
      L.flatten = (List.range L.length).flatMap fun i => L.getD i [] := by
  intro L
  induction L with
  | nil => rfl
  | cons x xs ih =>
    rw [List.flatten_cons, ih, List.length_cons, List.range_succ_eq_map,
      List.flatMap_cons, List.flatMap_map]
    simp [List.getD_cons_succ]

/-- Two different slot lists of a layout with `Nodup` flattening share no
slot. -/
theorem json__layout_disjoint {α : Type} (L : List (List α)) (h : L.flatten.Nodup)
    (i j : Nat) (hij : i ≠ j) (x : α)
    (hxi : x ∈ L.getD i []) (hxj : x ∈ L.getD j []) : False := by
  by_cases hi : i < L.length
  · by_cases hj : j < L.length
    · rw [List.getD_eq_getElem _ _ hi] at hxi
      rw [List.getD_eq_getElem _ _ hj] at hxj
      have hpw := (List.nodup_flatten.mp h).2
      rw [List.pairwise_iff_getElem] at hpw
      rcases Nat.lt_or_ge i j with hlt | hge
      · exact hpw i j hi hj hlt hxi hxj
      · have hlt : j < i := by omega
        exact hpw j i hj hi hlt hxj hxi
    · rw [List.getD_eq_default _ _ (by omega)] at hxj
      cases hxj
  · rw [List.getD_eq_default _ _ (by omega)] at hxi
    cases hxi

/-- Every slot of a chain lies in the filled part of the collisions
block. -/
theorem json__chain_is_slots (m : json__hash_map) :
    ∀ (js : List Nat) (e : json__hash_map_entry), json__chain_is m e js →
      ∀ j ∈ js, j < m.collisions_size := by
  intro js
  induction js with
  | nil => intro e _ j hj; cases hj
  | cons j0 js ih =>
    intro e h j hj
    obtain ⟨h1, h2, h3⟩ := h
    rw [List.mem_cons] at hj
    rcases hj with hj | hj
    · subst hj; exact h1
    · exact ih _ h3 j hj

/-- A chain survives into any map state that keeps the block base, does
not shrink the filled region, and leaves the chain's slots unchanged. -/
theorem json__chain_is_frame (m m2 : json__hash_map)
    (hbase : m2.collisions_base = m.collisions_base)
    (hsize : m.collisions_size ≤ m2.collisions_size) :
    ∀ (js : List Nat) (e : json__hash_map_entry),
      (∀ j ∈ js, m2.collisions.getD j json__zero_entry =
        m.collisions.getD j json__zero_entry) →
      json__chain_is m e js → json__chain_is m2 e js := by
  intro js
  induction js with
  | nil => intro e _ h; exact h
  | cons j js ih =>
    intro e hsl h
    obtain ⟨h1, h2, h3⟩ := h
    refine ⟨by omega, by rw [hbase]; exact h2, ?_⟩
    rw [hsl j (List.mem_cons_self j js)]
    exact ih _ (fun j2 hj2 => hsl j2 (List.mem_cons_of_mem _ hj2)) h3

/-- Extending a chain by one fresh slot: after the chain's last entry has
its `next` pointed at slot `s` and slot `s` holds a chain-ending entry,
the old chain followed by `s` is a chain of the new state. -/
theorem json__chain_is_snoc (m m2 : json__hash_map) (s t : Nat)
    (hbase : m2.collisions_base = m.collisions_base)
    (hsize : m2.collisions_size = m.collisions_size + 1)
    (hs : s < m2.collisions_size)
    (hnews : (m2.collisions.getD s json__zero_entry).next = none)
    (ht : m2.collisions.getD t json__zero_entry =
      { m.collisions.getD t json__zero_entry with
          next := some (m.collisions_base + s) }) :
    ∀ (js : List Nat) (e : json__hash_map_entry),
      json__chain_is m e (js ++ [t]) →
      (∀ j ∈ js, m2.collisions.getD j json__zero_entry =
        m.collisions.getD j json__zero_entry) →
      json__chain_is m2 e (js ++ [t] ++ [s]) := by
  intro js
  induction js with
  | nil =>
    intro e h _
    obtain ⟨h1, h2, h3⟩ := h
    refine ⟨by omega, by rw [hbase]; exact h2, ?_⟩
    rw [ht]
    refine ⟨hs, by rw [hbase], ?_⟩
    exact hnews
  | cons j js ih =>
    intro e h hsl
    obtain ⟨h1, h2, h3⟩ := h
    refine ⟨by omega, by rw [hbase]; exact h2, ?_⟩
    rw [hsl j (List.mem_cons_self j js)]
    exact ih _ h3 (fun j2 hj2 => hsl j2 (List.mem_cons_of_mem _ hj2))

/-- Dereferencing the address of a filled collision slot. -/
theorem json__deref_slot (m : json__hash_map) (j : Nat)
    (hj : j < m.collisions.length) :
    json__deref m (m.collisions_base + j) =
      some (m.collisions.getD j json__zero_entry) := by
  have hidx : m.collisions_base + j - m.collisions_base = j := by omega
  unfold json__deref
  rw [if_pos ⟨Nat.le_add_right _ _, by omega⟩, hidx]

/-- The chain walk of `json__hash_map_get` over a laid-out chain finds
exactly the first slot whose key matches. -/
theorem json__get_go_chain (m : json__hash_map) (k : json_string)
    (hsz : m.collisions_size ≤ m.collisions.length) :
    ∀ (js : List Nat) (e : json__hash_map_entry) (fuel : Nat),
      js.length < fuel → json__chain_is m e js →
      json__hash_map_get_go m k fuel e =
        (js.find? fun j =>
          json_string_eq (m.collisions.getD j json__zero_entry).key k).map
          fun j => hm_loc.coll (m.collisions_base + j) := by
  intro js
  induction js with
  | nil =>
    intro e fuel hf hc
    have hn : e.next = none := hc
    cases fuel with
    | zero => omega
    | succ f => simp [json__hash_map_get_go, hn]
  | cons j js ih =>
    intro e fuel hf hc
    obtain ⟨hj, hnext, hrest⟩ := hc
    cases fuel with
    | zero => omega
    | succ f =>
    rw [List.length_cons] at hf
    simp only [json__hash_map_get_go]
    rw [hnext]
    dsimp only
    rw [json__deref_slot m j (by omega)]
    dsimp only
    cases hkey : json_string_eq (m.collisions.getD j json__zero_entry).key k with
    | true =>
      rw [List.find?_cons]
      rw [hkey]
      rfl
    | false =>
      rw [if_neg (by simp), ih _ f (by omega) hrest, List.find?_cons]
      rw [hkey]

/-- The chain walk of `json__hash_map_insert` ends at the chain's last
location. -/
theorem json__chain_end_go_spec (m : json__hash_map)
    (hsz : m.collisions_size ≤ m.collisions.length) :
    ∀ (js : List Nat) (loc : hm_loc) (fuel : Nat), js.length < fuel →
      json__chain_is m (json__read_loc m loc) js →
      json__hash_map_chain_end_go m fuel loc =
        (js.map fun j => hm_loc.coll (m.collisions_base + j)).getLastD loc := by
  intro js
  induction js with
  | nil =>
    intro loc fuel hf hc
    have hn : (json__read_loc m loc).next = none := hc
    cases fuel with
    | zero => omega
    | succ f => simp [json__hash_map_chain_end_go, hn]
  | cons j js ih =>
    intro loc fuel hf hc
    obtain ⟨hj, hnext, hrest⟩ := hc
    cases fuel with
    | zero => omega
    | succ f =>
    rw [List.length_cons] at hf
    have hread : json__read_loc m (hm_loc.coll (m.collisions_base + j)) =
        m.collisions.getD j json__zero_entry := by
      show (json__deref m (m.collisions_base + j)).getD json__zero_entry = _
      rw [json__deref_slot m j (by omega)]
      rfl
    simp only [json__hash_map_chain_end_go]
    rw [hnext]
    dsimp only
    rw [json__deref_slot m j (by omega)]
    dsimp only
    rw [ih _ f (by omega) (by rw [hread]; exact hrest)]
    rw [List.map_cons, List.getLastD_cons]

/-- Under the layout invariant, a lookup returns exactly the first
binding of the key in the home bucket's chain. -/
theorem json__getKV_eq_chain (m : json__hash_map) (layout : List (List Nat))
    (hinv : json__inv m layout) (k : json_string) :
    json__getKV m k =
      (json__chain_kvs m (json__hash k % m.bucket_cap)
        (layout.getD (json__hash k % m.bucket_cap) [])).find?
        fun p => json_string_eq p.1 k := by
  obtain ⟨hblen, hcap, hclen, hccap, hsz, hllen, hperm, hchains, hplace, hnodup,
    hcount⟩ := hinv
  have hbl : json__hash k % m.bucket_cap < m.bucket_cap := Nat.mod_lt _ (by omega)
  have hjs_len : (layout.getD (json__hash k % m.bucket_cap) []).length ≤
      m.collisions_size := by
    have hmem : layout.getD (json__hash k % m.bucket_cap) [] ∈ layout := by
      rw [List.getD_eq_getElem _ _ (by omega)]
      exact List.getElem_mem _
    have h2 := json__length_le_flatten layout _ hmem
    rw [hperm.length_eq, List.length_range] at h2
    exact h2
  cases hv : json__hash_map_entry_valid
      (m.bucket.getD (json__hash k % m.bucket_cap) json__zero_entry) with
  | false =>
    rw [json__chain_kvs, json__chain_entry_list,
      if_neg (by simp only [Bool.not_eq_true]; exact hv)]
    simp only [json__getKV, json__hash_map_get, json__hash_map_get_loc]
    rw [if_pos hv]
    rfl
  | true =>
    have hchain := (hchains _ hbl).1 hv
    rw [json__chain_kvs, json__chain_entry_list, if_pos hv]
    simp only [json__getKV, json__hash_map_get, json__hash_map_get_loc]
    rw [if_neg (by rw [hv]; simp)]
    cases hkey : json_string_eq
        (m.bucket.getD (json__hash k % m.bucket_cap) json__zero_entry).key k with
    | true =>
      rw [List.map_cons, List.find?_cons]
      rw [hkey]
      rfl
    | false =>
      rw [if_neg (by simp), json__get_go_chain m k (by omega) _ _ _ (by omega) hchain]
      rw [List.map_cons, List.find?_cons]
      rw [hkey]
      rw [List.map_map, List.find?_map]
      cases hfind : List.find?
          (fun j => json_string_eq (m.collisions.getD j json__zero_entry).key k)
          (layout.getD (json__hash k % m.bucket_cap) []) with
      | none =>
        rw [show ((fun p => json_string_eq p.1 k) ∘
            ((fun e => (e.key, e.value)) ∘
              fun j => m.collisions.getD j json__zero_entry)) =
            fun j => json_string_eq (m.collisions.getD j json__zero_entry).key k
          from rfl, hfind]
        rfl
      | some j =>
        have hjlt : j < m.collisions_size :=
          json__chain_is_slots m _ _ hchain j (List.mem_of_find?_eq_some hfind)
        have hread : json__read_loc m (hm_loc.coll (m.collisions_base + j)) =
            m.collisions.getD j json__zero_entry := by
          show (json__deref m (m.collisions_base + j)).getD json__zero_entry = _
          rw [json__deref_slot m j (by omega)]
          rfl
        rw [show ((fun p => json_string_eq p.1 k) ∘
            ((fun e => (e.key, e.value)) ∘
              fun j => m.collisions.getD j json__zero_entry)) =
            fun j => json_string_eq (m.collisions.getD j json__zero_entry).key k
          from rfl, hfind]
        simp only [Option.map_some', Function.comp_apply]
        rw [hread]

/-- A key a lookup misses is not the key of any live binding. -/
theorem json__getKV_none_not_mem (m : json__hash_map) (layout : List (List Nat))
    (hinv : json__inv m layout) (k : json_string)
    (hnone : json__getKV m k = none) :
    ∀ p ∈ json__all_kvs m layout, p.1 ≠ k := by
  intro p hp hpk
  have hplace := hinv.2.2.2.2.2.2.2.2.1
  rw [json__all_kvs, List.mem_flatMap] at hp
  obtain ⟨i, hi, hpchain⟩ := hp
  rw [List.mem_range] at hi
  have hib := (hplace i hi p hpchain).2
  rw [hpk] at hib
  rw [json__getKV_eq_chain m layout hinv k, hib, List.find?_eq_none] at hnone
  exact hnone p hpchain (by rw [hpk]; simp [json_string_eq_iff])

/-- Splitting a `flatMap` over the index range at the single index whose
image grew by one element. -/
theorem json__flatMap_snoc_mid {α : Type} (f g : Nat → List α) (cap b : Nat) (x : α)
    (hb : b < cap) (hne : ∀ i, i < cap → i ≠ b → g i = f i)
    (hchg : g b = f b ++ [x]) :
    ∃ A B, (List.range cap).flatMap f = A ++ B ∧
      (List.range cap).flatMap g = A ++ x :: B := by
  have hcap : cap = (b + 1) + (cap - b - 1) := by omega
  have hsplit : List.range cap =
      (List.range b ++ [b]) ++ (List.range (cap - b - 1)).map fun t => b + 1 + t := by
    conv_lhs => rw [hcap, List.range_add, List.range_add]
    rw [show List.range 1 = [0] from rfl]
    simp
  refine ⟨(List.range b).flatMap f ++ f b,
    ((List.range (cap - b - 1)).map fun t => b + 1 + t).flatMap f, ?_, ?_⟩
  · rw [hsplit, List.flatMap_append, List.flatMap_append]
    simp [List.append_assoc]
  · rw [hsplit, List.flatMap_append, List.flatMap_append]
    have h1 : (List.range b).flatMap g = (List.range b).flatMap f := by
      apply List.flatMap_congr
      intro i hi
      rw [List.mem_range] at hi
      exact hne i (by omega) (by omega)
    have h2 : ((List.range (cap - b - 1)).map fun t => b + 1 + t).flatMap g =
        ((List.range (cap - b - 1)).map fun t => b + 1 + t).flatMap f := by
      apply List.flatMap_congr
      intro i hi
      rw [List.mem_map] at hi
      obtain ⟨t, ht, hti⟩ := hi
      rw [List.mem_range] at ht
      exact hne i (by omega) (by omega)
    rw [h1, h2, List.flatMap_singleton, hchg]
    simp [List.append_assoc]

/-- Below the load-factor threshold the insert epilogue returns the map
as is. -/
theorem json__insert_tail_no_grow
    (growFn : Nat → json__hash_map → json__grow_result) (a : Alloc) (n : Nat)
    (m : json__hash_map) (h : 10 * m.bucket_size ≤ 7 * m.bucket_cap) :
    json__hash_map_insert_tail growFn a n m = some (true, m, n) := by
  unfold json__hash_map_insert_tail
  rw [if_neg]
  simp only [json__load_factor_exceeded, decide_eq_true_eq]
  omega

/-- The filled collision region never outgrows the number of live
entries. -/
theorem json__size_le_bucket_size (m : json__hash_map) (layout : List (List Nat))
    (hinv : json__inv m layout) : m.collisions_size ≤ m.bucket_size := by
  obtain ⟨hblen, hcap, hclen, hccap, hsz, hllen, hperm, hchains, hplace, hnodup,
    hcount⟩ := hinv
  rw [hcount]
  have h1 : m.collisions_size = layout.flatten.length := by
    rw [hperm.length_eq, List.length_range]
  rw [h1, json__flatten_eq_flatMap layout, hllen, json__all_kvs,
    List.length_flatMap, List.length_flatMap]
  apply List.sum_le_sum
  intro i hi
  rw [List.mem_range] at hi
  simp only [Function.comp_apply]
  cases hv : json__hash_map_entry_valid (m.bucket.getD i json__zero_entry) with
  | false =>
    rw [(hchains i hi).2 hv]
    simp
  | true =>
    rw [json__chain_kvs, json__chain_entry_list, if_pos hv]
    simp

/-- The all-zero entry is not live. -/
theorem json__valid_zero : json__hash_map_entry_valid json__zero_entry = false := by
  decide

/-- Reading any in-range slot of the zeroed map's bucket array. -/
theorem json__empty_bucket_getD (cap base i : Nat) (hi : i < cap) :
    (json__empty_map cap base).bucket.getD i json__zero_entry = json__zero_entry := by
  show (List.replicate cap json__zero_entry).getD i json__zero_entry = _
  rw [List.getD_eq_getElem _ _ (by simp [hi]), List.getElem_replicate]

/-- Reading any slot of the all-empty layout. -/
theorem json__empty_layout_getD (cap i : Nat) :
    (List.replicate cap ([] : List Nat)).getD i [] = [] := by
  by_cases hi : i < cap
  · rw [List.getD_eq_getElem _ _ (by simp [hi]), List.getElem_replicate]
  · rw [List.getD_eq_default _ _ (by simp; omega)]

/-- The zeroed map holds no bindings under the all-empty layout. -/
theorem json__all_kvs_empty (cap base : Nat) :
    json__all_kvs (json__empty_map cap base) (List.replicate cap []) = [] := by
  rw [json__all_kvs, List.flatMap_eq_nil_iff]
  intro i hi
  rw [List.mem_range] at hi
  rw [json__chain_kvs, json__chain_entry_list,
    if_neg (by rw [json__empty_bucket_getD cap base i hi, json__valid_zero]; simp)]
  rfl

/-- The layout invariant holds of the zeroed map. -/
theorem json__inv_empty (cap base : Nat) (hcap : 16 ≤ cap) :
    json__inv (json__empty_map cap base) (List.replicate cap []) := by
  refine ⟨by simp [json__empty_map], hcap, by simp [json__empty_map], rfl,
    by simp [json__empty_map], by simp [json__empty_map], ?_, ?_, ?_, ?_, ?_⟩
  · show (List.replicate cap ([] : List Nat)).flatten.Perm (List.range 0)
    have h : (List.replicate cap ([] : List Nat)).flatten = [] := by simp
    rw [h]
    rfl
  · intro i hi
    constructor
    · intro hv
      rw [json__empty_bucket_getD cap base i hi, json__valid_zero] at hv
      cases hv
    · intro _
      exact json__empty_layout_getD cap i
  · intro i hi p hp
    have hvne : ¬json__hash_map_entry_valid
        ((json__empty_map cap base).bucket.getD i json__zero_entry) = true := by
      rw [json__empty_bucket_getD cap base i hi, json__valid_zero]
      simp
    rw [json__chain_kvs, json__chain_entry_list, if_neg hvne] at hp
    cases hp
  · rw [json__all_kvs_empty]
    exact List.nodup_nil
  · rw [json__all_kvs_empty]
    rfl

/-- Lookups on the zeroed map miss. -/
theorem json__getKV_empty (cap base : Nat) (hcap : 0 < cap) (k : json_string) :
    json__getKV (json__empty_map cap base) k = none := by
  have hz := json__empty_bucket_getD cap base
    (json__hash k % (json__empty_map cap base).bucket_cap)
    (Nat.mod_lt _ (by show 0 < cap; omega))
  simp only [json__getKV, json__hash_map_get, json__hash_map_get_loc]
  rw [if_pos (by rw [hz, json__valid_zero])]
  rfl

/-- Liveness of an entry does not depend on its link. -/
theorem json__valid_next (e : json__hash_map_entry) (x : Option Nat) :
    json__hash_map_entry_valid { e with next := x } =
      json__hash_map_entry_valid e := rfl

/-- Each slot list of a layout fits in the filled collision region. -/
theorem json__layout_len {n : Nat} (L : List (List Nat))
    (hperm : L.flatten.Perm (List.range n)) (i : Nat) (hi : i < L.length) :
    (L.getD i []).length ≤ n := by
  have hmem : L.getD i [] ∈ L := by
    rw [List.getD_eq_getElem _ _ hi]
    exact List.getElem_mem _
  have h := json__length_le_flatten L _ hmem
  rw [hperm.length_eq, List.length_range] at h
  exact h

/-- Chains over the same slot contents are the same entry lists. -/
theorem json__chain_entry_list_congr (m m2 : json__hash_map) (i : Nat)
    (js : List Nat)
    (hh : m2.bucket.getD i json__zero_entry = m.bucket.getD i json__zero_entry)
    (hc : ∀ j ∈ js, m2.collisions.getD j json__zero_entry =
      m.collisions.getD j json__zero_entry) :
    json__chain_entry_list m2 i js = json__chain_entry_list m i js := by
  rw [json__chain_entry_list, json__chain_entry_list, hh]
  cases hv : json__hash_map_entry_valid (m.bucket.getD i json__zero_entry) with
  | false => rw [if_neg (by simp), if_neg (by simp)]
  | true =>
    rw [if_pos rfl, if_pos rfl]
    congr 1
    exact List.map_congr_left hc

/-- Chains over the same slot contents carry the same bindings. -/
theorem json__chain_kvs_congr (m m2 : json__hash_map) (i : Nat) (js : List Nat)
    (hh : m2.bucket.getD i json__zero_entry = m.bucket.getD i json__zero_entry)
    (hc : ∀ j ∈ js, m2.collisions.getD j json__zero_entry =
      m.collisions.getD j json__zero_entry) :
    json__chain_kvs m2 i js = json__chain_kvs m i js := by
  rw [json__chain_kvs, json__chain_kvs,
    json__chain_entry_list_congr m m2 i js hh hc]

/-- Flattening around one replaced slot list. -/
theorem json__flatten_set {α : Type} :
    ∀ (L : List (List α)) (b : Nat) (x : List α), b < L.length →
      ∃ P S, L.flatten = P ++ L.getD b [] ++ S ∧
        (L.set b x).flatten = P ++ x ++ S := by
  intro L
  induction L with
  | nil => intro b x hb; simp at hb
  | cons y ys ih =>
    intro b x hb
    cases b with
    | zero =>
      refine ⟨[], ys.flatten, ?_, ?_⟩
      · simp [List.flatten_cons]
      · simp [List.flatten_cons]
    | succ b =>
      rw [List.length_cons] at hb
      obtain ⟨P, S, h1, h2⟩ := ih b x (by omega)
      refine ⟨y ++ P, S, ?_, ?_⟩
      · rw [List.flatten_cons, List.getD_cons_succ, h1]
        simp [List.append_assoc]
      · rw [List.set_cons_succ, List.flatten_cons, h2]
        simp [List.append_assoc]

/-- Moving a freshly appended element of a middle segment to the front,
up to permutation. -/
theorem json__perm_snoc_mid {α : Type} (P M S : List α) (x : α) :
    (P ++ (M ++ [x]) ++ S).Perm (x :: (P ++ M ++ S)) := by
  have h1 : P ++ (M ++ [x]) ++ S = (P ++ M) ++ x :: S := by
    simp [List.append_assoc]
  rw [h1]
  have h2 := @List.perm_middle _ x (P ++ M) S
  simpa [List.append_assoc] using h2

/-- `range (n+1)` is `n` consed onto `range n`, up to permutation. -/
theorem json__range_succ_perm (n : Nat) :
    (List.range (n + 1)).Perm (n :: List.range n) := by
  rw [List.range_succ]
  have h2 := @List.perm_middle _ n (List.range n) ([] : List Nat)
  simp only [List.append_nil] at h2
  exact h2

/-- Inserting a fresh key into an empty home bucket: the invariant is
preserved with the layout unchanged and lookups gain exactly the new
binding. -/
theorem json__insert_upd_empty (m : json__hash_map) (layout : List (List Nat))
    (hinv : json__inv m layout) (k : json_string) (v : json_value)
    (hv : json_value_type v ≠ json_type.JSON_INVALID)
    (hfresh : json__getKV m k = none)
    (hvh : json__hash_map_entry_valid
      (m.bucket.getD (json__hash k % m.bucket_cap) json__zero_entry) = false)
    (m1 : json__hash_map)
    (hm1 : m1 = { m with
      bucket := m.bucket.set (json__hash k % m.bucket_cap)
        { key := k, value := v, next := none },
      bucket_size := m.bucket_size + 1 }) :
    json__inv m1 layout ∧
    (∀ k2, json__getKV m1 k2 = if k2 = k then some (k, v) else json__getKV m k2) := by
  subst hm1
  have hinv0 := hinv
  obtain ⟨hblen, hcap, hclen, hccap, hsz, hllen, hperm, hchains, hplace, hnodup,
    hcount⟩ := hinv0
  have hbl : json__hash k % m.bucket_cap < m.bucket_cap := Nat.mod_lt _ (by omega)
  have hjs : layout.getD (json__hash k % m.bucket_cap) [] = [] :=
    (hchains _ hbl).2 hvh
  have hvalid_new : json__hash_map_entry_valid
      ({ key := k, value := v, next := none } : json__hash_map_entry) = true := by
    simp [json__hash_map_entry_valid, hv]
  have hheads : ∀ i, i < m.bucket_cap → i ≠ json__hash k % m.bucket_cap →
      (m.bucket.set (json__hash k % m.bucket_cap)
        { key := k, value := v, next := none }).getD i json__zero_entry =
      m.bucket.getD i json__zero_entry := by
    intro i hi hne
    rw [json__getD_set]
    rw [if_neg]
    intro hcon
    exact hne hcon.1.symm
  have hheadb : (m.bucket.set (json__hash k % m.bucket_cap)
      { key := k, value := v, next := none }).getD
        (json__hash k % m.bucket_cap) json__zero_entry =
      { key := k, value := v, next := none } := by
    rw [json__getD_set, if_pos ⟨rfl, by omega⟩]
  -- chain lists away from the home bucket are untouched
  have hlist : ∀ i, i < m.bucket_cap → i ≠ json__hash k % m.bucket_cap →
      json__chain_kvs { m with
        bucket := m.bucket.set (json__hash k % m.bucket_cap)
          { key := k, value := v, next := none },
        bucket_size := m.bucket_size + 1 } i (layout.getD i []) =
      json__chain_kvs m i (layout.getD i []) := by
    intro i hi hne
    exact json__chain_kvs_congr m _ i _ (hheads i hi hne) (fun j _ => rfl)
  have hlistb : json__chain_kvs { m with
      bucket := m.bucket.set (json__hash k % m.bucket_cap)
        { key := k, value := v, next := none },
      bucket_size := m.bucket_size + 1 } (json__hash k % m.bucket_cap)
        (layout.getD (json__hash k % m.bucket_cap) []) = [(k, v)] := by
    rw [hjs, json__chain_kvs, json__chain_entry_list]
    rw [if_pos (by rw [hheadb]; exact hvalid_new)]
    rw [hheadb]
    rfl
  -- the binding lists split around the new binding
  obtain ⟨A, B, hAB, hAB1⟩ := json__flatMap_snoc_mid
    (fun i => json__chain_kvs m i (layout.getD i []))
    (fun i => json__chain_kvs { m with
      bucket := m.bucket.set (json__hash k % m.bucket_cap)
        { key := k, value := v, next := none },
      bucket_size := m.bucket_size + 1 } i (layout.getD i []))
    m.bucket_cap (json__hash k % m.bucket_cap) (k, v) hbl
    (fun i hi hne => hlist i hi hne)
    (by dsimp only
        rw [hlistb, json__chain_kvs, json__chain_entry_list, hjs,
          if_neg (by rw [hvh]; simp)]
        rfl)
  have hall : json__all_kvs m layout = A ++ B := hAB
  have hall1 : json__all_kvs { m with
      bucket := m.bucket.set (json__hash k % m.bucket_cap)
        { key := k, value := v, next := none },
      bucket_size := m.bucket_size + 1 } layout = A ++ (k, v) :: B := hAB1
  have hknotin := json__getKV_none_not_mem m layout hinv k hfresh
  have hinv1 : json__inv { m with
      bucket := m.bucket.set (json__hash k % m.bucket_cap)
        { key := k, value := v, next := none },
      bucket_size := m.bucket_size + 1 } layout := by
    refine ⟨by rw [List.length_set]; exact hblen, hcap, hclen, hccap, hsz, hllen,
      hperm, ?_, ?_, ?_, ?_⟩
    · intro i hi
      by_cases hib : i = json__hash k % m.bucket_cap
      · subst hib
        constructor
        · intro _
          rw [hheadb, hjs]
          rfl
        · intro hcon
          rw [hheadb, hvalid_new] at hcon
          cases hcon
      · constructor
        · intro hval
          rw [hheads i hi hib] at hval ⊢
          apply json__chain_is_frame m
          · rfl
          · exact Nat.le_refl _
          · exact fun j _ => rfl
          · exact (hchains i hi).1 hval
        · intro hval
          rw [hheads i hi hib] at hval
          exact (hchains i hi).2 hval
    · intro i hi p hp
      by_cases hib : i = json__hash k % m.bucket_cap
      · subst hib
        rw [hlistb, List.mem_singleton] at hp
        subst hp
        exact ⟨hv, rfl⟩
      · rw [hlist i hi hib] at hp
        exact hplace i hi p hp
    · rw [hall1, List.map_append, List.map_cons, List.nodup_middle,
        List.nodup_cons]
      constructor
      · intro hkin
        rw [← List.map_append, List.mem_map] at hkin
        obtain ⟨p, hpmem, hpk⟩ := hkin
        exact hknotin p (by rw [hall]; exact hpmem) hpk
      · rw [← List.map_append, ← hall]
        exact hnodup
    · rw [hall1]
      show m.bucket_size + 1 = (A ++ (k, v) :: B).length
      rw [hcount, hall]
      simp only [List.length_append, List.length_cons]
      omega
  refine ⟨hinv1, ?_⟩
  intro k2
  by_cases hk2 : k2 = k
  · subst hk2
    rw [if_pos rfl, json__getKV_eq_chain _ layout hinv1 k2]
    dsimp only
    rw [hlistb, List.find?_cons]
    dsimp only
    rw [(json_string_eq_iff k2 k2).mpr rfl]
  · rw [if_neg hk2, json__getKV_eq_chain _ layout hinv1 k2,
      json__getKV_eq_chain m layout hinv k2]
    dsimp only
    by_cases hb2 : json__hash k2 % m.bucket_cap = json__hash k % m.bucket_cap
    · rw [hb2, hlistb, hjs, json__chain_kvs, json__chain_entry_list,
        if_neg (by rw [hvh]; simp), List.find?_cons]
      dsimp only
      have hne : json_string_eq k k2 = false := by
        cases h : json_string_eq k k2 with
        | true => exact absurd ((json_string_eq_iff k k2).mp h).symm hk2
        | false => rfl
      rw [hne]
      rfl
    · rw [hlist _ (Nat.mod_lt _ (by omega)) hb2]

/-- Every slot mentioned by a layout lies in the filled collision
region. -/
theorem json__layout_slot_lt {n : Nat} (L : List (List Nat))
    (hperm : L.flatten.Perm (List.range n)) (i j : Nat)
    (hj : j ∈ L.getD i []) : j < n := by
  by_cases hi : i < L.length
  · have hjf : j ∈ L.flatten := by
      rw [List.mem_flatten]
      refine ⟨L.getD i [], ?_, hj⟩
      rw [List.getD_eq_getElem _ _ hi]
      exact List.getElem_mem _
    have h2 := hperm.mem_iff.mp hjf
    rw [List.mem_range] at h2
    exact h2
  · rw [List.getD_eq_default _ _ (by omega)] at hj
    cases hj

/-- Inserting a fresh key whose home bucket is occupied by a chain of no
collision slots: the new entry takes collision slot `collisions_size`,
the head's link is set to it, and lookups gain exactly the new
binding. -/
theorem json__insert_upd_chain_head (m : json__hash_map) (layout : List (List Nat))
    (hinv : json__inv m layout) (k : json_string) (v : json_value)
    (hv : json_value_type v ≠ json_type.JSON_INVALID)
    (hfresh : json__getKV m k = none)
    (hroom : m.collisions_size + 1 < m.collisions_cap)
    (hvh : json__hash_map_entry_valid
      (m.bucket.getD (json__hash k % m.bucket_cap) json__zero_entry) = true)
    (hjs : layout.getD (json__hash k % m.bucket_cap) [] = [])
    (m1 : json__hash_map)
    (hm1 : m1 = { m with
      bucket := m.bucket.set (json__hash k % m.bucket_cap)
        { m.bucket.getD (json__hash k % m.bucket_cap) json__zero_entry with
            next := some (m.collisions_base + m.collisions_size) },
      collisions := m.collisions.set m.collisions_size
        { key := k, value := v, next := none },
      collisions_size := m.collisions_size + 1,
      bucket_size := m.bucket_size + 1 }) :
    json__inv m1 (layout.set (json__hash k % m.bucket_cap) [m.collisions_size]) ∧
    (∀ k2, json__getKV m1 k2 = if k2 = k then some (k, v) else json__getKV m k2) := by
  subst hm1
  have hinv0 := hinv
  obtain ⟨hblen, hcap, hclen, hccap, hsz, hllen, hperm, hchains, hplace, hnodup,
    hcount⟩ := hinv0
  have hbl : json__hash k % m.bucket_cap < m.bucket_cap := Nat.mod_lt _ (by omega)
  have hsize_lt : m.collisions_size < m.collisions.length := by omega
  have hvalid_new : json__hash_map_entry_valid
      ({ key := k, value := v, next := none } : json__hash_map_entry) = true := by
    simp [json__hash_map_entry_valid, hv]
  have hvalid_hd : json__hash_map_entry_valid
      { m.bucket.getD (json__hash k % m.bucket_cap) json__zero_entry with
          next := some (m.collisions_base + m.collisions_size) } = true := by
    rw [json__valid_next]
    exact hvh
  have hheads : ∀ i, i < m.bucket_cap → i ≠ json__hash k % m.bucket_cap →
      (m.bucket.set (json__hash k % m.bucket_cap)
        { m.bucket.getD (json__hash k % m.bucket_cap) json__zero_entry with
            next := some (m.collisions_base + m.collisions_size) }).getD i
          json__zero_entry =
      m.bucket.getD i json__zero_entry := by
    intro i hi hne
    rw [json__getD_set, if_neg]
    intro hcon
    exact hne hcon.1.symm
  have hheadb : (m.bucket.set (json__hash k % m.bucket_cap)
      { m.bucket.getD (json__hash k % m.bucket_cap) json__zero_entry with
          next := some (m.collisions_base + m.collisions_size) }).getD
        (json__hash k % m.bucket_cap) json__zero_entry =
      { m.bucket.getD (json__hash k % m.bucket_cap) json__zero_entry with
          next := some (m.collisions_base + m.collisions_size) } := by
    rw [json__getD_set, if_pos ⟨rfl, by omega⟩]
  have hcoll_frame : ∀ j, j < m.collisions_size →
      (m.collisions.set m.collisions_size
        { key := k, value := v, next := none }).getD j json__zero_entry =
      m.collisions.getD j json__zero_entry := by
    intro j hj
    rw [json__getD_set, if_neg (fun h => by omega)]
  have hcoll_new : (m.collisions.set m.collisions_size
      { key := k, value := v, next := none }).getD m.collisions_size
        json__zero_entry = { key := k, value := v, next := none } := by
    rw [json__getD_set, if_pos ⟨rfl, by omega⟩]
  have hlay_b : (layout.set (json__hash k % m.bucket_cap)
      [m.collisions_size]).getD (json__hash k % m.bucket_cap) [] =
      [m.collisions_size] := by
    rw [json__getD_set, if_pos ⟨rfl, by omega⟩]
  have hlay_ne : ∀ i, i ≠ json__hash k % m.bucket_cap →
      (layout.set (json__hash k % m.bucket_cap)
        [m.collisions_size]).getD i [] = layout.getD i [] := by
    intro i hne
    rw [json__getD_set, if_neg]
    intro hcon
    exact hne hcon.1.symm
  have hslot_lt : ∀ i j, j ∈ layout.getD i [] → j < m.collisions_size :=
    fun i j hj => json__layout_slot_lt layout hperm i j hj
  -- the home chain's binding list before and after
  have hlistb_old : json__chain_kvs m (json__hash k % m.bucket_cap)
      (layout.getD (json__hash k % m.bucket_cap) []) =
      [((m.bucket.getD (json__hash k % m.bucket_cap) json__zero_entry).key,
        (m.bucket.getD (json__hash k % m.bucket_cap) json__zero_entry).value)] := by
    rw [hjs, json__chain_kvs, json__chain_entry_list, if_pos hvh]
    rfl
  have hlistb : json__chain_kvs { m with
      bucket := m.bucket.set (json__hash k % m.bucket_cap)
        { m.bucket.getD (json__hash k % m.bucket_cap) json__zero_entry with
            next := some (m.collisions_base + m.collisions_size) },
      collisions := m.collisions.set m.collisions_size
        { key := k, value := v, next := none },
      collisions_size := m.collisions_size + 1,
      bucket_size := m.bucket_size + 1 } (json__hash k % m.bucket_cap)
      ((layout.set (json__hash k % m.bucket_cap) [m.collisions_size]).getD
        (json__hash k % m.bucket_cap) []) =
      [((m.bucket.getD (json__hash k % m.bucket_cap) json__zero_entry).key,
        (m.bucket.getD (json__hash k % m.bucket_cap) json__zero_entry).value),
       (k, v)] := by
    rw [hlay_b, json__chain_kvs, json__chain_entry_list]
    dsimp only
    rw [if_pos (by rw [hheadb]; exact hvalid_hd), hheadb]
    simp only [List.map_cons, List.map_nil]
    rw [hcoll_new]
  obtain ⟨A, B, hAB, hAB1⟩ := json__flatMap_snoc_mid
    (fun i => json__chain_kvs m i (layout.getD i []))
    (fun i => json__chain_kvs { m with
      bucket := m.bucket.set (json__hash k % m.bucket_cap)
        { m.bucket.getD (json__hash k % m.bucket_cap) json__zero_entry with
            next := some (m.collisions_base + m.collisions_size) },
      collisions := m.collisions.set m.collisions_size
        { key := k, value := v, next := none },
      collisions_size := m.collisions_size + 1,
      bucket_size := m.bucket_size + 1 } i
        ((layout.set (json__hash k % m.bucket_cap) [m.collisions_size]).getD i []))
    m.bucket_cap (json__hash k % m.bucket_cap) (k, v) hbl
    (fun i hi hne => by
      dsimp only
      rw [hlay_ne i hne]
      exact json__chain_kvs_congr m _ i _ (hheads i hi hne)
        (fun j hj => hcoll_frame j (hslot_lt i j hj)))
    (by dsimp only
        rw [hlistb, hlistb_old]
        rfl)
  have hall : json__all_kvs m layout = A ++ B := hAB
  have hall1 : json__all_kvs { m with
      bucket := m.bucket.set (json__hash k % m.bucket_cap)
        { m.bucket.getD (json__hash k % m.bucket_cap) json__zero_entry with
            next := some (m.collisions_base + m.collisions_size) },
      collisions := m.collisions.set m.collisions_size
        { key := k, value := v, next := none },
      collisions_size := m.collisions_size + 1,
      bucket_size := m.bucket_size + 1 }
      (layout.set (json__hash k % m.bucket_cap) [m.collisions_size]) =
      A ++ (k, v) :: B := hAB1
  have hknotin := json__getKV_none_not_mem m layout hinv k hfresh
  have hinv1 : json__inv { m with
      bucket := m.bucket.set (json__hash k % m.bucket_cap)
        { m.bucket.getD (json__hash k % m.bucket_cap) json__zero_entry with
            next := some (m.collisions_base + m.collisions_size) },
      collisions := m.collisions.set m.collisions_size
        { key := k, value := v, next := none },
      collisions_size := m.collisions_size + 1,
      bucket_size := m.bucket_size + 1 }
      (layout.set (json__hash k % m.bucket_cap) [m.collisions_size]) := by
    refine ⟨by rw [List.length_set]; exact hblen, hcap,
      by rw [List.length_set]; exact hclen, hccap,
      by show m.collisions_size + 1 ≤ m.bucket_cap; omega,
      by rw [List.length_set]; exact hllen, ?_, ?_, ?_, ?_, ?_⟩
    · obtain ⟨P, S, hPS, hPS1⟩ := json__flatten_set layout
        (json__hash k % m.bucket_cap) [m.collisions_size] (by omega)
      rw [hPS1]
      rw [hjs] at hPS
      have hp2 : (P ++ ([] : List Nat) ++ S).Perm
          (List.range m.collisions_size) := by
        rw [← hPS]
        exact hperm
      exact (json__perm_snoc_mid P [] S m.collisions_size).trans
        ((hp2.cons m.collisions_size).trans
          (json__range_succ_perm m.collisions_size).symm)
    · intro i hi
      by_cases hib : i = json__hash k % m.bucket_cap
      · subst hib
        constructor
        · intro _
          rw [hlay_b, hheadb]
          refine ⟨by show m.collisions_size < m.collisions_size + 1; omega, rfl, ?_⟩
          show ((m.collisions.set m.collisions_size
            { key := k, value := v, next := none }).getD m.collisions_size
              json__zero_entry).next = none
          rw [hcoll_new]
        · intro hcon
          rw [hheadb, hvalid_hd] at hcon
          cases hcon
      · constructor
        · intro hval
          rw [hheads i hi hib] at hval ⊢
          rw [hlay_ne i hib]
          apply json__chain_is_frame m
          · rfl
          · exact Nat.le_succ _
          · intro j hj
            exact hcoll_frame j (hslot_lt i j hj)
          · exact (hchains i hi).1 hval
        · intro hval
          rw [hheads i hi hib] at hval
          rw [hlay_ne i hib]
          exact (hchains i hi).2 hval
    · intro i hi p hp
      by_cases hib : i = json__hash k % m.bucket_cap
      · subst hib
        rw [hlistb] at hp
        rw [List.mem_cons, List.mem_singleton] at hp
        rcases hp with hp | hp
        · subst hp
          exact hplace _ hbl _ (by rw [hlistb_old]; exact List.mem_singleton.mpr rfl)
        · subst hp
          exact ⟨hv, rfl⟩
      · rw [hlay_ne i hib, json__chain_kvs_congr m _ i _ (hheads i hi hib)
          (fun j hj => hcoll_frame j (hslot_lt i j hj))] at hp
        exact hplace i hi p hp
    · rw [hall1, List.map_append, List.map_cons, List.nodup_middle,
        List.nodup_cons]
      constructor
      · intro hkin
        rw [← List.map_append, List.mem_map] at hkin
        obtain ⟨p, hpmem, hpk⟩ := hkin
        exact hknotin p (by rw [hall]; exact hpmem) hpk
      · rw [← List.map_append, ← hall]
        exact hnodup
    · rw [hall1]
      show m.bucket_size + 1 = (A ++ (k, v) :: B).length
      rw [hcount, hall]
      simp only [List.length_append, List.length_cons]
      omega
  refine ⟨hinv1, ?_⟩
  intro k2
  by_cases hk2 : k2 = k
  · subst hk2
    rw [if_pos rfl, json__getKV_eq_chain _ _ hinv1 k2]
    dsimp only
    rw [hlistb]
    have hfind0 : (json__chain_kvs m (json__hash k2 % m.bucket_cap)
        (layout.getD (json__hash k2 % m.bucket_cap) [])).find?
          (fun p => json_string_eq p.1 k2) = none := by
      rw [← json__getKV_eq_chain m layout hinv k2]
      exact hfresh
    rw [hlistb_old, List.find?_eq_none] at hfind0
    have hhdk : json_string_eq
        (m.bucket.getD (json__hash k2 % m.bucket_cap) json__zero_entry).key
          k2 = false := by
      have h2 := hfind0 _ (List.mem_singleton.mpr rfl)
      cases h : json_string_eq
          (m.bucket.getD (json__hash k2 % m.bucket_cap) json__zero_entry).key
            k2 with
      | true => exact absurd h h2
      | false => rfl
    simp only [List.find?_cons, hhdk, (json_string_eq_iff k2 k2).mpr rfl]
  · rw [if_neg hk2, json__getKV_eq_chain _ _ hinv1 k2,
      json__getKV_eq_chain m layout hinv k2]
    dsimp only
    have hne : json_string_eq k k2 = false := by
      cases h : json_string_eq k k2 with
      | true => exact absurd ((json_string_eq_iff k k2).mp h).symm hk2
      | false => rfl
    by_cases hb2 : json__hash k2 % m.bucket_cap = json__hash k % m.bucket_cap
    · rw [hb2, hlistb, hlistb_old]
      cases hhd : json_string_eq
          (m.bucket.getD (json__hash k % m.bucket_cap) json__zero_entry).key
            k2 with
      | true => simp only [List.find?_cons, hhd]
      | false => simp only [List.find?_cons, hhd, hne, List.find?_nil]
    · rw [hlay_ne _ hb2, json__chain_kvs_congr m _ _ _
        (hheads _ (Nat.mod_lt _ (by omega)) hb2)
        (fun j hj => hcoll_frame j (hslot_lt _ j hj))]

/-- Appending one slot to a laid-out chain changes its binding list by
exactly the new binding. -/
theorem json__chain_kvs_snoc (m m1 : json__hash_map) (b : Nat) (js : List Nat)
    (t s : Nat) (k : json_string) (v : json_value)
    (hh : m1.bucket.getD b json__zero_entry = m.bucket.getD b json__zero_entry)
    (hvh : json__hash_map_entry_valid
      (m.bucket.getD b json__zero_entry) = true)
    (hfr : ∀ j ∈ js, m1.collisions.getD j json__zero_entry =
      m.collisions.getD j json__zero_entry)
    (ht : m1.collisions.getD t json__zero_entry =
      { m.collisions.getD t json__zero_entry with
          next := some (m.collisions_base + s) })
    (hs : m1.collisions.getD s json__zero_entry =
      { key := k, value := v, next := none }) :
    json__chain_kvs m1 b (js ++ [t] ++ [s]) =
      json__chain_kvs m b (js ++ [t]) ++ [(k, v)] := by
  rw [json__chain_kvs, json__chain_kvs, json__chain_entry_list,
    json__chain_entry_list, hh, if_pos hvh, if_pos hvh, List.map_cons,
    List.map_cons, List.cons_append]
  congr 1
  rw [List.map_map, List.map_map, List.map_append, List.map_append,
    List.map_append]
  congr 1
  congr 1
  · exact List.map_congr_left fun j hj => by
      simp only [Function.comp_apply]
      rw [hfr j hj]
  · simp only [List.map_cons, List.map_nil, Function.comp_apply]
    rw [ht]
  · simp only [List.map_cons, List.map_nil, Function.comp_apply]
    rw [hs]

/-- Inserting a fresh key whose home bucket chains through collision
slots ending at slot `t`: the new entry takes slot `collisions_size`,
slot `t`'s link is pointed at it, and lookups gain exactly the new
binding. -/
theorem json__insert_upd_chain_coll (m : json__hash_map)
    (layout : List (List Nat)) (hinv : json__inv m layout) (k : json_string)
    (v : json_value) (hv : json_value_type v ≠ json_type.JSON_INVALID)
    (hfresh : json__getKV m k = none)
    (hroom : m.collisions_size + 1 < m.collisions_cap)
    (hvh : json__hash_map_entry_valid
      (m.bucket.getD (json__hash k % m.bucket_cap) json__zero_entry) = true)
    (js2 : List Nat) (t : Nat)
    (hjs : layout.getD (json__hash k % m.bucket_cap) [] = js2 ++ [t])
    (m1 : json__hash_map)
    (hm1 : m1 = { m with
      collisions := (m.collisions.set m.collisions_size
        { key := k, value := v, next := none }).set t
        { m.collisions.getD t json__zero_entry with
            next := some (m.collisions_base + m.collisions_size) },
      collisions_size := m.collisions_size + 1,
      bucket_size := m.bucket_size + 1 }) :
    json__inv m1 (layout.set (json__hash k % m.bucket_cap)
      (js2 ++ [t] ++ [m.collisions_size])) ∧
    (∀ k2, json__getKV m1 k2 = if k2 = k then some (k, v) else json__getKV m k2) := by
  subst hm1
  have hinv0 := hinv
  obtain ⟨hblen, hcap, hclen, hccap, hsz, hllen, hperm, hchains, hplace, hnodup,
    hcount⟩ := hinv0
  have hbl : json__hash k % m.bucket_cap < m.bucket_cap := Nat.mod_lt _ (by omega)
  have hsize_lt : m.collisions_size < m.collisions.length := by omega
  have hslot_lt : ∀ i j, j ∈ layout.getD i [] → j < m.collisions_size :=
    fun i j hj => json__layout_slot_lt layout hperm i j hj
  have htlt : t < m.collisions_size := by
    refine hslot_lt (json__hash k % m.bucket_cap) t ?_
    rw [hjs]
    exact List.mem_append_right _ (List.mem_singleton.mpr rfl)
  have hflat : layout.flatten.Nodup := hperm.nodup_iff.mpr (List.nodup_range _)
  have hjs_nodup : (js2 ++ [t]).Nodup := by
    rw [← hjs]
    refine (List.nodup_flatten.mp hflat).1 _ ?_
    rw [List.getD_eq_getElem _ _ (by omega)]
    exact List.getElem_mem _
  have htnotin : t ∉ js2 := by
    rw [List.nodup_append] at hjs_nodup
    intro hmem
    exact hjs_nodup.2.2 hmem (List.mem_singleton.mpr rfl)
  have hvalid_new : json__hash_map_entry_valid
      ({ key := k, value := v, next := none } : json__hash_map_entry) = true := by
    simp [json__hash_map_entry_valid, hv]
  have hcoll_frame : ∀ j, j < m.collisions_size → j ≠ t →
      ((m.collisions.set m.collisions_size
        { key := k, value := v, next := none }).set t
        { m.collisions.getD t json__zero_entry with
            next := some (m.collisions_base + m.collisions_size) }).getD j
          json__zero_entry =
      m.collisions.getD j json__zero_entry := by
    intro j hj hjt
    rw [json__getD_set, if_neg (fun h => hjt h.1.symm), json__getD_set,
      if_neg (fun h => by omega)]
  have hcoll_t : ((m.collisions.set m.collisions_size
      { key := k, value := v, next := none }).set t
      { m.collisions.getD t json__zero_entry with
          next := some (m.collisions_base + m.collisions_size) }).getD t
        json__zero_entry =
      { m.collisions.getD t json__zero_entry with
          next := some (m.collisions_base + m.collisions_size) } := by
    rw [json__getD_set, if_pos ⟨rfl, by rw [List.length_set]; omega⟩]
  have hcoll_new : ((m.collisions.set m.collisions_size
      { key := k, value := v, next := none }).set t
      { m.collisions.getD t json__zero_entry with
          next := some (m.collisions_base + m.collisions_size) }).getD
        m.collisions_size json__zero_entry =
      { key := k, value := v, next := none } := by
    rw [json__getD_set, if_neg (fun h => by omega), json__getD_set,
      if_pos ⟨rfl, by omega⟩]
  have hlay_b : (layout.set (json__hash k % m.bucket_cap)
      (js2 ++ [t] ++ [m.collisions_size])).getD (json__hash k % m.bucket_cap)
        [] = js2 ++ [t] ++ [m.collisions_size] := by
    rw [json__getD_set, if_pos ⟨rfl, by omega⟩]
  have hlay_ne : ∀ i, i ≠ json__hash k % m.bucket_cap →
      (layout.set (json__hash k % m.bucket_cap)
        (js2 ++ [t] ++ [m.collisions_size])).getD i [] = layout.getD i [] := by
    intro i hne
    rw [json__getD_set, if_neg]
    intro hcon
    exact hne hcon.1.symm
  have hchain : json__chain_is m
      (m.bucket.getD (json__hash k % m.bucket_cap) json__zero_entry)
      (js2 ++ [t]) := by
    rw [← hjs]
    exact (hchains _ hbl).1 hvh
  have hjne : ∀ i, i ≠ json__hash k % m.bucket_cap →
      ∀ j ∈ layout.getD i [], j ≠ t := by
    intro i hne j hj hjt
    subst hjt
    refine json__layout_disjoint layout hflat i (json__hash k % m.bucket_cap)
      hne j hj ?_
    rw [hjs]
    exact List.mem_append_right _ (List.mem_singleton.mpr rfl)
  have hcongr_ne : ∀ i, i < m.bucket_cap → i ≠ json__hash k % m.bucket_cap →
      json__chain_kvs { m with
        collisions := (m.collisions.set m.collisions_size
          { key := k, value := v, next := none }).set t
          { m.collisions.getD t json__zero_entry with
              next := some (m.collisions_base + m.collisions_size) },
        collisions_size := m.collisions_size + 1,
        bucket_size := m.bucket_size + 1 } i (layout.getD i []) =
      json__chain_kvs m i (layout.getD i []) := by
    intro i hi hne
    exact json__chain_kvs_congr m _ i _ rfl
      (fun j hj => hcoll_frame j (hslot_lt i j hj) (hjne i hne j hj))
  have hlistb : json__chain_kvs { m with
      collisions := (m.collisions.set m.collisions_size
        { key := k, value := v, next := none }).set t
        { m.collisions.getD t json__zero_entry with
            next := some (m.collisions_base + m.collisions_size) },
      collisions_size := m.collisions_size + 1,
      bucket_size := m.bucket_size + 1 } (json__hash k % m.bucket_cap)
      (js2 ++ [t] ++ [m.collisions_size]) =
      json__chain_kvs m (json__hash k % m.bucket_cap) (js2 ++ [t]) ++ [(k, v)] := by
    refine json__chain_kvs_snoc m _ _ js2 t m.collisions_size k v rfl hvh
      ?_ ?_ ?_
    · intro j hj
      have hjlt : j < m.collisions_size := by
        refine hslot_lt (json__hash k % m.bucket_cap) j ?_
        rw [hjs]
        exact List.mem_append_left _ hj
      exact hcoll_frame j hjlt (fun h => htnotin (h ▸ hj))
    · exact hcoll_t
    · exact hcoll_new
  obtain ⟨A, B, hAB, hAB1⟩ := json__flatMap_snoc_mid
    (fun i => json__chain_kvs m i (layout.getD i []))
    (fun i => json__chain_kvs { m with
      collisions := (m.collisions.set m.collisions_size
        { key := k, value := v, next := none }).set t
        { m.collisions.getD t json__zero_entry with
            next := some (m.collisions_base + m.collisions_size) },
      collisions_size := m.collisions_size + 1,
      bucket_size := m.bucket_size + 1 } i
        ((layout.set (json__hash k % m.bucket_cap)
          (js2 ++ [t] ++ [m.collisions_size])).getD i []))
    m.bucket_cap (json__hash k % m.bucket_cap) (k, v) hbl
    (fun i hi hne => by
      dsimp only
      rw [hlay_ne i hne]
      exact hcongr_ne i hi hne)
    (by dsimp only
        rw [hlay_b, hjs, hlistb])
  have hall : json__all_kvs m layout = A ++ B := hAB
  have hall1 : json__all_kvs { m with
      collisions := (m.collisions.set m.collisions_size
        { key := k, value := v, next := none }).set t
        { m.collisions.getD t json__zero_entry with
            next := some (m.collisions_base + m.collisions_size) },
      collisions_size := m.collisions_size + 1,
      bucket_size := m.bucket_size + 1 }
      (layout.set (json__hash k % m.bucket_cap)
        (js2 ++ [t] ++ [m.collisions_size])) = A ++ (k, v) :: B := hAB1
  have hknotin := json__getKV_none_not_mem m layout hinv k hfresh
  have hinv1 : json__inv { m with
      collisions := (m.collisions.set m.collisions_size
        { key := k, value := v, next := none }).set t
        { m.collisions.getD t json__zero_entry with
            next := some (m.collisions_base + m.collisions_size) },
      collisions_size := m.collisions_size + 1,
      bucket_size := m.bucket_size + 1 }
      (layout.set (json__hash k % m.bucket_cap)
        (js2 ++ [t] ++ [m.collisions_size])) := by
    refine ⟨hblen, hcap,
      by rw [List.length_set, List.length_set]; exact hclen, hccap,
      by show m.collisions_size + 1 ≤ m.bucket_cap; omega,
      by rw [List.length_set]; exact hllen, ?_, ?_, ?_, ?_, ?_⟩
    · obtain ⟨P, S, hPS, hPS1⟩ := json__flatten_set layout
        (json__hash k % m.bucket_cap) (js2 ++ [t] ++ [m.collisions_size])
        (by omega)
      rw [hPS1]
      rw [hjs] at hPS
      have hp2 : (P ++ (js2 ++ [t]) ++ S).Perm
          (List.range m.collisions_size) := by
        rw [← hPS]
        exact hperm
      exact (json__perm_snoc_mid P (js2 ++ [t]) S m.collisions_size).trans
        ((hp2.cons m.collisions_size).trans
          (json__range_succ_perm m.collisions_size).symm)
    · intro i hi
      by_cases hib : i = json__hash k % m.bucket_cap
      · subst hib
        constructor
        · intro _
          rw [hlay_b]
          apply json__chain_is_snoc m
          · rfl
          · rfl
          · show m.collisions_size < m.collisions_size + 1
            omega
          · show (((m.collisions.set m.collisions_size
              { key := k, value := v, next := none }).set t
              { m.collisions.getD t json__zero_entry with
                  next := some (m.collisions_base + m.collisions_size) }).getD
                m.collisions_size json__zero_entry).next = none
            rw [hcoll_new]
          · exact hcoll_t
          · exact hchain
          · intro j hj
            have hjlt : j < m.collisions_size := by
              refine hslot_lt (json__hash k % m.bucket_cap) j ?_
              rw [hjs]
              exact List.mem_append_left _ hj
            exact hcoll_frame j hjlt (fun h => htnotin (h ▸ hj))
        · intro hcon
          cases hvh.symm.trans hcon
      · constructor
        · intro hval
          rw [hlay_ne i hib]
          apply json__chain_is_frame m
          · rfl
          · exact Nat.le_succ _
          · intro j hj
            exact hcoll_frame j (hslot_lt i j hj) (hjne i hib j hj)
          · exact (hchains i hi).1 hval
        · intro hval
          rw [hlay_ne i hib]
          exact (hchains i hi).2 hval
    · intro i hi p hp
      by_cases hib : i = json__hash k % m.bucket_cap
      · subst hib
        rw [hlay_b, hlistb, List.mem_append, List.mem_singleton] at hp
        rcases hp with hp | hp
        · refine hplace _ hbl p ?_
          rw [hjs]
          exact hp
        · subst hp
          exact ⟨hv, rfl⟩
      · rw [hlay_ne i hib, hcongr_ne i hi hib] at hp
        exact hplace i hi p hp
    · rw [hall1, List.map_append, List.map_cons, List.nodup_middle,
        List.nodup_cons]
      constructor
      · intro hkin
        rw [← List.map_append, List.mem_map] at hkin
        obtain ⟨p, hpmem, hpk⟩ := hkin
        exact hknotin p (by rw [hall]; exact hpmem) hpk
      · rw [← List.map_append, ← hall]
        exact hnodup
    · rw [hall1]
      show m.bucket_size + 1 = (A ++ (k, v) :: B).length
      rw [hcount, hall]
      simp only [List.length_append, List.length_cons]
      omega
  refine ⟨hinv1, ?_⟩
  intro k2
  by_cases hk2 : k2 = k
  · subst hk2
    rw [if_pos rfl, json__getKV_eq_chain _ _ hinv1 k2]
    dsimp only
    rw [hlay_b, hlistb, List.find?_append]
    have hfind0 : (json__chain_kvs m (json__hash k2 % m.bucket_cap)
        (js2 ++ [t])).find? (fun p => json_string_eq p.1 k2) = none := by
      rw [← hjs, ← json__getKV_eq_chain m layout hinv k2]
      exact hfresh
    rw [hfind0, Option.none_or]
    simp only [List.find?_cons, (json_string_eq_iff k2 k2).mpr rfl]
  · rw [if_neg hk2, json__getKV_eq_chain _ _ hinv1 k2,
      json__getKV_eq_chain m layout hinv k2]
    dsimp only
    have hne : json_string_eq k k2 = false := by
      cases h : json_string_eq k k2 with
      | true => exact absurd ((json_string_eq_iff k k2).mp h).symm hk2
      | false => rfl
    by_cases hb2 : json__hash k2 % m.bucket_cap = json__hash k % m.bucket_cap
    · rw [hb2, hlay_b, hlistb, hjs, List.find?_append]
      have hsing : ([(k, v)].find? fun p => json_string_eq p.1 k2) = none := by
        simp only [List.find?_cons, hne, List.find?_nil]
      rw [hsing, Option.or_none]
    · rw [hlay_ne _ hb2, hcongr_ne _ (Nat.mod_lt _ (by omega)) hb2]

/-- Reading a collisions location given by base plus in-range offset. -/
theorem json__read_loc_coll2 (m2 : json__hash_map) (base j : Nat)
    (hbase : m2.collisions_base = base) (hj : j < m2.collisions.length) :
    json__read_loc m2 (hm_loc.coll (base + j)) =
      m2.collisions.getD j json__zero_entry := by
  subst hbase
  show (json__deref m2 (m2.collisions_base + j)).getD json__zero_entry = _
  rw [json__deref_slot m2 j hj]
  rfl

/-- Writing a collisions location given by base plus in-range offset. -/
theorem json__write_loc_coll2 (m2 : json__hash_map) (base j : Nat)
    (e : json__hash_map_entry) (hbase : m2.collisions_base = base)
    (hj : j < m2.collisions.length) :
    json__write_loc m2 (hm_loc.coll (base + j)) e =
      { m2 with collisions := m2.collisions.set j e } := by
  subst hbase
  show (if m2.collisions_base ≤ m2.collisions_base + j ∧
      m2.collisions_base + j - m2.collisions_base < m2.collisions.length then
    { m2 with collisions :=
        m2.collisions.set (m2.collisions_base + j - m2.collisions_base) e }
  else m2) = _
  rw [if_pos ⟨Nat.le_add_right _ _, by omega⟩,
    show m2.collisions_base + j - m2.collisions_base = j from by omega]

/-- One insert of a fresh key, with room in the collisions block and an
always-successful allocator: the code takes the no-reallocation path,
the updated map satisfies the invariant for an extended layout, lookups
gain exactly the new binding, and the result is handed to the
load-factor epilogue. -/
theorem json__insert_core_spec
    (growFn : Nat → json__hash_map → json__grow_result) (a : Alloc)
    (hok : ∀ t2, a.ok t2 = true) (n : Nat) (m : json__hash_map)
    (layout : List (List Nat)) (hinv : json__inv m layout)
    (k : json_string) (v : json_value)
    (hv : json_value_type v ≠ json_type.JSON_INVALID)
    (hfresh : json__getKV m k = none)
    (hroom : m.collisions_size + 1 < m.collisions_cap) :
    ∃ n1 m1 layout1,
      json__hash_map_insert_core growFn a n m k v =
        json__hash_map_insert_tail growFn a n1 m1 ∧
      json__inv m1 layout1 ∧
      m1.bucket_cap = m.bucket_cap ∧
      m1.collisions_cap = m.collisions_cap ∧
      m1.bucket_size = m.bucket_size + 1 ∧
      m1.collisions_size ≤ m.collisions_size + 1 ∧
      (∀ k2, json__getKV m1 k2 =
        if k2 = k then some (k, v) else json__getKV m k2) := by
  have hinv0 := hinv
  obtain ⟨hblen, hcap, hclen, hccap, hsz, hllen, hperm, hchains, hplace, hnodup,
    hcount⟩ := hinv0
  have hbl : json__hash k % m.bucket_cap < m.bucket_cap := Nat.mod_lt _ (by omega)
  have hcopy : json_string_copy a n k =
      (k, true, if k.length = 0 then n else n + 1) := by
    unfold json_string_copy json_string_create
    by_cases hk : k.length = 0
    · rw [List.length_eq_zero] at hk
      subst hk
      rfl
    · rw [if_neg hk, if_pos (hok n), List.take_length, if_neg hk]
  cases hvh : json__hash_map_entry_valid
      (m.bucket.getD (json__hash k % m.bucket_cap) json__zero_entry) with
  | false =>
    obtain ⟨hinv1, hchar⟩ :=
      json__insert_upd_empty m layout hinv k v hv hfresh hvh _ rfl
    refine ⟨(if k.length = 0 then n else n + 1), _, layout, ?_, hinv1, rfl, rfl,
      rfl, Nat.le_succ _, hchar⟩
    simp only [json__hash_map_insert_core]
    rw [hcopy]
    dsimp only
    rw [if_neg (by simp), if_neg (by rw [hvh]; simp)]
  | true =>
    have hchain0 := (hchains _ hbl).1 hvh
    have hjslen : (layout.getD (json__hash k % m.bucket_cap) []).length ≤
        m.collisions_size := json__layout_len layout hperm _ (by omega)
    have hend : json__hash_map_chain_end_go m (m.collisions.length + 1)
        (hm_loc.head (json__hash k % m.bucket_cap)) =
        ((layout.getD (json__hash k % m.bucket_cap) []).map fun j =>
          hm_loc.coll (m.collisions_base + j)).getLastD
          (hm_loc.head (json__hash k % m.bucket_cap)) := by
      refine json__chain_end_go_spec m (by omega) _ _ _ (by omega) ?_
      exact hchain0
    rcases List.eq_nil_or_concat
        (layout.getD (json__hash k % m.bucket_cap) []) with hjs | ⟨js2, t, hjs⟩
    · obtain ⟨hinv1, hchar⟩ :=
        json__insert_upd_chain_head m layout hinv k v hv hfresh hroom hvh hjs
          _ rfl
      refine ⟨(if k.length = 0 then n else n + 1), _, _, ?_, hinv1, rfl, rfl,
        rfl, Nat.le_refl _, hchar⟩
      simp only [json__hash_map_insert_core]
      rw [hcopy]
      dsimp only
      rw [if_neg (by simp), if_pos hvh, if_neg (by omega), hend, hjs]
      simp only [List.map_nil, List.getLastD_nil]
      simp only [json__hash_map_insert_link]
      rfl
    · rw [List.concat_eq_append] at hjs
      have htlt : t < m.collisions_size := by
        refine json__layout_slot_lt layout hperm (json__hash k % m.bucket_cap) t ?_
        rw [hjs]
        exact List.mem_append_right _ (List.mem_singleton.mpr rfl)
      obtain ⟨hinv1, hchar⟩ :=
        json__insert_upd_chain_coll m layout hinv k v hv hfresh hroom hvh js2 t
          hjs _ rfl
      refine ⟨(if k.length = 0 then n else n + 1), _, _, ?_, hinv1, rfl, rfl,
        rfl, Nat.le_refl _, hchar⟩
      simp only [json__hash_map_insert_core]
      rw [hcopy]
      dsimp only
      rw [if_neg (by simp), if_pos hvh, if_neg (by omega), hend, hjs]
      rw [List.map_append,
        show ([t].map fun j => hm_loc.coll (m.collisions_base + j)) =
          [hm_loc.coll (m.collisions_base + t)] from rfl,
        List.getLastD_concat]
      simp only [json__hash_map_insert_link]
      rw [json__read_loc_coll2
        { m with collisions :=
            (m.collisions.set m.collisions_size
              { key := k, value := v, next := none }) }
        m.collisions_base t rfl
        (by show t < (m.collisions.set m.collisions_size
              { key := k, value := v, next := none }).length
            rw [List.length_set]
            omega)]
      rw [json__write_loc_coll2
        { m with collisions :=
            (m.collisions.set m.collisions_size
              { key := k, value := v, next := none }) }
        m.collisions_base t _ rfl
        (by show t < (m.collisions.set m.collisions_size
              { key := k, value := v, next := none }).length
            rw [List.length_set]
            omega)]
      rw [show (m.collisions.set m.collisions_size
          { key := k, value := v, next := none }).getD t json__zero_entry =
          m.collisions.getD t json__zero_entry from by
        rw [json__getD_set, if_neg (fun h => by omega)]]

/-- Re-insertion distributes over list concatenation. -/
theorem json__reinsert_list_append
    (insertFn : Nat → json__hash_map → json_string → json_value →
      Option (Bool × json__hash_map × Nat))
    (A B : List (json_string × json_value)) :
    ∀ (acc : json__hash_map) (nn : Nat),
      json__reinsert_list insertFn (A ++ B) acc nn =
        match json__reinsert_list insertFn A acc nn with
        | .ok acc2 n2 => json__reinsert_list insertFn B acc2 n2
        | r => r := by
  induction A with
  | nil => intro acc nn; rfl
  | cons p A ih =>
    intro acc nn
    obtain ⟨k0, v0⟩ := p
    simp only [List.cons_append, json__reinsert_list]
    cases h : insertFn nn acc k0 v0 with
    | none => rfl
    | some r =>
      obtain ⟨b, acc2, n2⟩ := r
      cases b with
      | false => rfl
      | true => exact ih acc2 n2

/-- The chain pass of the growth re-insertion feeds exactly the chain's
bindings, head first, to the insert function. -/
theorem json__grow_chain_kvs
    (insertFn : Nat → json__hash_map → json_string → json_value →
      Option (Bool × json__hash_map × Nat)) (old : json__hash_map)
    (hsz : old.collisions_size ≤ old.collisions.length) :
    ∀ (js : List Nat) (e : json__hash_map_entry) (fuel : Nat),
      js.length < fuel → json__chain_is old e js →
      ∀ (acc : json__hash_map) (nn : Nat),
        json__grow_chain insertFn old fuel e acc nn =
          json__reinsert_list insertFn ((e.key, e.value) ::
            js.map fun j => ((old.collisions.getD j json__zero_entry).key,
              (old.collisions.getD j json__zero_entry).value)) acc nn := by
  intro js
  induction js with
  | nil =>
    intro e fuel hf hc acc nn
    have hn : e.next = none := hc
    cases fuel with
    | zero => omega
    | succ f =>
      simp only [json__grow_chain, json__reinsert_list, List.map_nil]
      cases h : insertFn nn acc e.key e.value with
      | none => rfl
      | some r =>
        obtain ⟨b, acc2, n2⟩ := r
        cases b with
        | false => rfl
        | true => rw [hn]
  | cons j js ih =>
    intro e fuel hf hc acc nn
    obtain ⟨hj, hnext, hrest⟩ := hc
    cases fuel with
    | zero => omega
    | succ f =>
      rw [List.length_cons] at hf
      simp only [json__grow_chain, json__reinsert_list, List.map_cons]
      cases h : insertFn nn acc e.key e.value with
      | none => rfl
      | some r =>
        obtain ⟨b, acc2, n2⟩ := r
        cases b with
        | false => rfl
        | true =>
          dsimp only
          rw [hnext]
          dsimp only
          rw [json__deref_slot old j (by omega)]
          dsimp only
          exact ih _ f (by omega) hrest acc2 n2

/-- The bucket pass of the growth re-insertion feeds exactly the live
bindings of the walked buckets, in layout order, to the insert
function. -/
theorem json__grow_buckets_kvs
    (insertFn : Nat → json__hash_map → json_string → json_value →
      Option (Bool × json__hash_map × Nat)) (old : json__hash_map)
    (layout : List (List Nat)) (hinv : json__inv old layout) :
    ∀ (cnt i : Nat), i + cnt ≤ old.bucket_cap →
      ∀ (acc : json__hash_map) (nn : Nat),
        json__grow_buckets insertFn old cnt i acc nn =
          json__reinsert_list insertFn
            ((List.range' i cnt).flatMap fun b2 =>
              json__chain_kvs old b2 (layout.getD b2 [])) acc nn := by
  have hinv0 := hinv
  obtain ⟨hblen, hcap, hclen, hccap, hsz, hllen, hperm, hchains, hplace, hnodup,
    hcount⟩ := hinv0
  intro cnt
  induction cnt with
  | zero => intro i _ acc nn; rfl
  | succ cnt ih =>
    intro i hcnt acc nn
    rw [List.range'_succ, List.flatMap_cons, json__reinsert_list_append]
    simp only [json__grow_buckets]
    cases hv : json__hash_map_entry_valid (old.bucket.getD i json__zero_entry) with
    | false =>
      rw [if_pos rfl]
      rw [json__chain_kvs, json__chain_entry_list, if_neg (by rw [hv]; simp)]
      rw [List.map_nil]
      exact ih (i + 1) (by omega) acc nn
    | true =>
      rw [if_neg (by simp)]
      have hjslen : (layout.getD i []).length ≤ old.collisions_size :=
        json__layout_len layout hperm i (by omega)
      rw [json__grow_chain_kvs insertFn old (by omega) _ _ _ (by omega)
        ((hchains i (by omega)).1 hv) acc nn]
      have hlist_eq : json__chain_kvs old i (layout.getD i []) =
          ((old.bucket.getD i json__zero_entry).key,
            (old.bucket.getD i json__zero_entry).value) ::
          (layout.getD i []).map fun j =>
            ((old.collisions.getD j json__zero_entry).key,
              (old.collisions.getD j json__zero_entry).value) := by
        rw [json__chain_kvs, json__chain_entry_list, if_pos hv, List.map_cons,
          List.map_map]
        rfl
      rw [hlist_eq]
      cases hres : json__reinsert_list insertFn
          (((old.bucket.getD i json__zero_entry).key,
            (old.bucket.getD i json__zero_entry).value) ::
          (layout.getD i []).map fun j =>
            ((old.collisions.getD j json__zero_entry).key,
              (old.collisions.getD j json__zero_entry).value)) acc nn with
      | ok acc2 n2 => exact ih (i + 1) (by omega) acc2 n2
      | failed n2 => rfl
      | crashed => rfl

/-- Feeding a list of fresh, distinct, live bindings to the insert logic
under enough room and headroom below the load factor: every insert
succeeds without triggering growth or reallocation, the invariant is
maintained, and lookups afterwards find exactly the new bindings in
front of the old ones. -/
theorem json__reinsert_all (growFn : Nat → json__hash_map → json__grow_result)
    (a : Alloc) (hok : ∀ t2, a.ok t2 = true) :
    ∀ (kvs : List (json_string × json_value)) (acc : json__hash_map)
      (layout : List (List Nat)) (nn : Nat),
      json__inv acc layout →
      (∀ p ∈ kvs, json_value_type p.2 ≠ json_type.JSON_INVALID) →
      ((kvs.map Prod.fst).Nodup) →
      (∀ p ∈ kvs, json__getKV acc p.1 = none) →
      10 * (acc.bucket_size + kvs.length) ≤ 7 * acc.bucket_cap →
      acc.collisions_size + kvs.length < acc.bucket_cap →
      ∃ acc2 layout2 n2,
        json__reinsert_list (fun n3 acc3 k3 v3 =>
          json__hash_map_insert_core growFn a n3 acc3 k3 v3) kvs acc nn =
          .ok acc2 n2 ∧
        json__inv acc2 layout2 ∧
        acc2.bucket_cap = acc.bucket_cap ∧
        acc2.bucket_size = acc.bucket_size + kvs.length ∧
        acc2.collisions_size ≤ acc.collisions_size + kvs.length ∧
        (∀ k2, json__getKV acc2 k2 =
          ((kvs.find? fun p => json_string_eq p.1 k2).or
            (json__getKV acc k2))) := by
  intro kvs
  induction kvs with
  | nil =>
    intro acc layout nn hinv _ _ _ _ _
    refine ⟨acc, layout, nn, rfl, hinv, rfl, rfl, Nat.le_refl _, ?_⟩
    intro k2
    rw [List.find?_nil, Option.none_or]
  | cons p rest ih =>
    intro acc layout nn hinv hvals hnodup hfresh hload hroom2
    obtain ⟨k0, v0⟩ := p
    have hccap : acc.collisions_cap = acc.bucket_cap := hinv.2.2.2.1
    rw [List.length_cons] at hload hroom2
    rw [List.map_cons, List.nodup_cons] at hnodup
    obtain ⟨n1, m1, layout1, hrun, hinv1, hcap1, hccap1, hbs1, hsz1, hchar1⟩ :=
      json__insert_core_spec growFn a hok nn acc layout hinv k0 v0
        (hvals (k0, v0) (List.mem_cons_self _ _))
        (hfresh (k0, v0) (List.mem_cons_self _ _)) (by omega)
    have htail : json__hash_map_insert_tail growFn a n1 m1 =
        some (true, m1, n1) :=
      json__insert_tail_no_grow growFn a n1 m1 (by omega)
    obtain ⟨acc2, layout2, n2, hrun2, hinv2, hcap2, hbs2, hsz2, hchar2⟩ :=
      ih m1 layout1 n1 hinv1
        (fun q hq => hvals q (List.mem_cons_of_mem _ hq))
        hnodup.2
        (fun q hq => by
          rw [hchar1 q.1, if_neg, hfresh q (List.mem_cons_of_mem _ hq)]
          intro hqk
          exact hnodup.1 (hqk ▸ List.mem_map.mpr ⟨q, hq, rfl⟩))
        (by omega) (by omega)
    refine ⟨acc2, layout2, n2, ?_, hinv2, by omega,
      by rw [List.length_cons]; omega, by rw [List.length_cons]; omega, ?_⟩
    · simp only [json__reinsert_list]
      rw [hrun, htail]
      exact hrun2
    · intro k2
      rw [hchar2 k2, List.find?_cons]
      by_cases hk2 : k2 = k0
      · subst hk2
        rw [show json_string_eq ((k2, v0) : json_string × json_value).1 k2 = true
          from (json_string_eq_iff _ _).mpr rfl]
        have hrest_none : rest.find? (fun q => json_string_eq q.1 k2) = none := by
          rw [List.find?_eq_none]
          intro q hq hpred
          exact hnodup.1 ((json_string_eq_iff _ _).mp hpred ▸
            List.mem_map.mpr ⟨q, hq, rfl⟩)
        rw [hrest_none, Option.none_or, hchar1 k2, if_pos rfl]
        rfl
      · rw [show json_string_eq ((k0, v0) : json_string × json_value).1 k2 = false
          from by
            cases h : json_string_eq k0 k2 with
            | true => exact absurd ((json_string_eq_iff _ _).mp h).symm hk2
            | false => rfl]
        rw [hchar1 k2, if_neg hk2]

/-- Searching all live bindings for a key finds exactly what a lookup
finds: entries outside the home bucket can never carry the key. -/
theorem json__find_all_kvs (m : json__hash_map) (layout : List (List Nat))
    (hinv : json__inv m layout) (k : json_string) :
    (json__all_kvs m layout).find? (fun p => json_string_eq p.1 k) =
      json__getKV m k := by
  have hinv0 := hinv
  obtain ⟨hblen, hcap, hclen, hccap, hsz, hllen, hperm, hchains, hplace, hnodup,
    hcount⟩ := hinv0
  have hbl : json__hash k % m.bucket_cap < m.bucket_cap := Nat.mod_lt _ (by omega)
  have hcap2 : m.bucket_cap =
      (json__hash k % m.bucket_cap + 1) +
        (m.bucket_cap - (json__hash k % m.bucket_cap) - 1) := by omega
  have hsplit : List.range m.bucket_cap =
      (List.range (json__hash k % m.bucket_cap) ++ [json__hash k % m.bucket_cap])
        ++ (List.range (m.bucket_cap - (json__hash k % m.bucket_cap) - 1)).map
          fun t2 => (json__hash k % m.bucket_cap) + 1 + t2 := by
    conv_lhs => rw [hcap2, List.range_add, List.range_add]
    rw [show List.range 1 = [0] from rfl]
    simp
  rw [json__all_kvs, hsplit, List.flatMap_append, List.flatMap_append,
    List.find?_append, List.find?_append, List.flatMap_singleton]
  have hpre : ((List.range (json__hash k % m.bucket_cap)).flatMap fun i =>
      json__chain_kvs m i (layout.getD i [])).find?
        (fun p => json_string_eq p.1 k) = none := by
    rw [List.find?_eq_none]
    intro p hp hpred
    rw [List.mem_flatMap] at hp
    obtain ⟨i, hi, hpc⟩ := hp
    rw [List.mem_range] at hi
    have hpl := (hplace i (by omega) p hpc).2
    rw [(json_string_eq_iff _ _).mp hpred] at hpl
    omega
  have hsuf : (((List.range (m.bucket_cap - (json__hash k % m.bucket_cap) - 1)).map
      fun t2 => (json__hash k % m.bucket_cap) + 1 + t2).flatMap fun i =>
      json__chain_kvs m i (layout.getD i [])).find?
        (fun p => json_string_eq p.1 k) = none := by
    rw [List.find?_eq_none]
    intro p hp hpred
    rw [List.mem_flatMap] at hp
    obtain ⟨i, hi, hpc⟩ := hp
    rw [List.mem_map] at hi
    obtain ⟨t2, ht2, hti⟩ := hi
    rw [List.mem_range] at ht2
    have hil : i < m.bucket_cap := by omega
    have hpl := (hplace i hil p hpc).2
    rw [(json_string_eq_iff _ _).mp hpred] at hpl
    omega
  rw [hpre, hsuf, Option.none_or, Option.or_none]
  exact (json__getKV_eq_chain m layout hinv k).symm

/-- Claim-level specification of a completed growth: under an always
successful allocator and at most one binding of headroom past the load
factor, growth doubles the bucket capacity, reports success — releasing
exactly the old table (its keys, its values, its arrays and the map
structure itself, json.h line 850) on the way — and preserves the
invariant, the number of live bindings, and every shallow lookup
result. -/
theorem json__grow_spec (a : Alloc) (hok : ∀ t2, a.ok t2 = true) (gas n : Nat)
    (m : json__hash_map) (layout : List (List Nat)) (hinv : json__inv m layout)
    (hload : 10 * m.bucket_size ≤ 7 * m.bucket_cap + 10) :
    ∃ m2 layout2 n2,
      json__hash_map_grow a (gas + 1) n m =
        json__grow_result.ok m2 n2 (json__hm_delete m) ∧
      json__inv m2 layout2 ∧
      m2.bucket_cap = m.bucket_cap * JSON_GROWTH_FACTOR ∧
      m2.bucket_size = m.bucket_size ∧
      (∀ k2, json__getKV m2 k2 = json__getKV m k2) := by
  have hinv0 := hinv
  obtain ⟨hblen, hcap, hclen, hccap, hsz, hllen, hperm, hchains, hplace, hnodup,
    hcount⟩ := hinv0
  have hgf : JSON_GROWTH_FACTOR = 2 := rfl
  have hnew_inv := json__inv_empty (m.bucket_cap * JSON_GROWTH_FACTOR)
    (a.base (n + 1)) (by rw [hgf]; omega)
  obtain ⟨acc2, layout2, n2, hrun, hinv2, hcap2, hbs2, hsz2, hchar2⟩ :=
    json__reinsert_all (fun n3 hm3 => json__hash_map_grow a gas n3 hm3) a hok
      (json__all_kvs m layout)
      (json__empty_map (m.bucket_cap * JSON_GROWTH_FACTOR) (a.base (n + 1)))
      (List.replicate (m.bucket_cap * JSON_GROWTH_FACTOR) []) (n + 2)
      hnew_inv
      (fun p hp => by
        rw [json__all_kvs, List.mem_flatMap] at hp
        obtain ⟨i, hi, hpc⟩ := hp
        rw [List.mem_range] at hi
        exact (hplace i hi p hpc).1)
      hnodup
      (fun p _ => json__getKV_empty _ _ (by rw [hgf]; omega) p.1)
      (by show 10 * (0 + (json__all_kvs m layout).length) ≤
            7 * (m.bucket_cap * JSON_GROWTH_FACTOR)
          rw [hgf, ← hcount]
          omega)
      (by show 0 + (json__all_kvs m layout).length <
            m.bucket_cap * JSON_GROWTH_FACTOR
          rw [hgf, ← hcount]
          omega)
  refine ⟨acc2, layout2, n2, ?_, hinv2, hcap2.trans rfl, ?_, ?_⟩
  · simp only [json__hash_map_grow]
    rw [if_neg (by rw [hok n]; simp), if_neg (by rw [hok (n + 1)]; simp)]
    rw [json__grow_buckets_kvs _ m layout hinv m.bucket_cap 0 (by omega) _ _]
    rw [← List.range_eq_range']
    rw [show ((List.range m.bucket_cap).flatMap fun b2 =>
        json__chain_kvs m b2 (layout.getD b2 [])) = json__all_kvs m layout
      from rfl]
    have hmatch : (match json__reinsert_list (fun n3 acc3 k3 v3 =>
        json__hash_map_insert_core
          (fun n4 hm4 => json__hash_map_grow a gas n4 hm4) a n3 acc3 k3 v3)
        (json__all_kvs m layout)
        (json__empty_map (m.bucket_cap * JSON_GROWTH_FACTOR) (a.base (n + 1)))
        (n + 2) with
      | json__reinsert_result.ok final nf =>
        json__grow_result.ok final nf (json__hm_delete m)
      | json__reinsert_result.failed nf => json__grow_result.fail m nf
      | json__reinsert_result.crashed => json__grow_result.ub) =
        json__grow_result.ok acc2 n2 (json__hm_delete m) := by
      rw [hrun]
    exact hmatch
  · rw [hbs2]
    show 0 + (json__all_kvs m layout).length = m.bucket_size
    omega
  · intro k2
    rw [hchar2 k2, json__getKV_empty _ _ (by rw [hgf]; omega) k2,
      Option.or_none, json__find_all_kvs m layout hinv k2]

/-- One public insert of a fresh key below the load factor: it reports
success, maintains the invariant and the load-factor bound (growing the
table when the new binding crosses the threshold), and lookups gain
exactly the new binding. -/
theorem json__insert_spec (a : Alloc) (hok : ∀ t2, a.ok t2 = true)
    (gas n : Nat) (m : json__hash_map) (layout : List (List Nat))
    (hinv : json__inv m layout) (k : json_string) (v : json_value)
    (hv : json_value_type v ≠ json_type.JSON_INVALID)
    (hfresh : json__getKV m k = none)
    (hload : 10 * m.bucket_size ≤ 7 * m.bucket_cap) :
    ∃ m2 layout2 n2,
      json__hash_map_insert (gas + 1) a n m k v = some (true, m2, n2) ∧
      json__inv m2 layout2 ∧
      10 * m2.bucket_size ≤ 7 * m2.bucket_cap ∧
      m2.bucket_size = m.bucket_size + 1 ∧
      m.bucket_cap ≤ m2.bucket_cap ∧
      (∀ k2, json__getKV m2 k2 =
        if k2 = k then some (k, v) else json__getKV m k2) := by
  have hsb := json__size_le_bucket_size m layout hinv
  have hcap16 : 16 ≤ m.bucket_cap := hinv.2.1
  have hccap : m.collisions_cap = m.bucket_cap := hinv.2.2.2.1
  have hroom : m.collisions_size + 1 < m.collisions_cap := by omega
  obtain ⟨n1, m1, layout1, hrun, hinv1, hcap1, hccap1, hbs1, hsz1, hchar1⟩ :=
    json__insert_core_spec
      (fun n3 hm3 => json__hash_map_grow a (gas + 1) n3 hm3) a hok n m layout
      hinv k v hv hfresh hroom
  by_cases hload2 : 10 * m1.bucket_size ≤ 7 * m1.bucket_cap
  · refine ⟨m1, layout1, n1, ?_, hinv1, hload2, hbs1, by omega, hchar1⟩
    show json__hash_map_insert_core _ a n m k v = _
    rw [hrun, json__insert_tail_no_grow _ _ _ _ hload2]
  · have hgf : JSON_GROWTH_FACTOR = 2 := rfl
    obtain ⟨m2, layout2, n2, hgrow, hinv2, hcap2, hbs2, hchar2⟩ :=
      json__grow_spec a hok gas n1 m1 layout1 hinv1 (by omega)
    rw [hgf] at hcap2
    refine ⟨m2, layout2, n2, ?_, hinv2, by omega, by omega, by omega, ?_⟩
    · show json__hash_map_insert_core _ a n m k v = _
      rw [hrun]
      unfold json__hash_map_insert_tail
      have hcond : json__load_factor_exceeded m1 = true := by
        simp only [json__load_factor_exceeded, decide_eq_true_eq]
        omega
      rw [if_pos hcond]
      dsimp only
      rw [hgrow]
    · intro k2
      rw [hchar2 k2, hchar1 k2]

/-- Running a list of inserts of distinct fresh keys against a map below
the load factor: every insert reports success, the invariant and the
load-factor bound are maintained across any growths triggered on the
way, and lookups afterwards find exactly the new bindings in front of
the old ones. -/
theorem json__insert_seq_spec (a : Alloc) (hok : ∀ t2, a.ok t2 = true) :
    ∀ (kvs : List (json_string × json_value)) (m : json__hash_map)
      (layout : List (List Nat)) (n : Nat),
      json__inv m layout →
      (∀ p ∈ kvs, json_value_type p.2 ≠ json_type.JSON_INVALID) →
      ((kvs.map Prod.fst).Nodup) →
      (∀ p ∈ kvs, json__getKV m p.1 = none) →
      10 * m.bucket_size ≤ 7 * m.bucket_cap →
      ∃ m2 layout2 n2,
        json__insert_seq a n kvs m = some (m2, n2) ∧
        json__inv m2 layout2 ∧
        10 * m2.bucket_size ≤ 7 * m2.bucket_cap ∧
        m2.bucket_size = m.bucket_size + kvs.length ∧
        m.bucket_cap ≤ m2.bucket_cap ∧
        (∀ k2, json__getKV m2 k2 =
          ((kvs.find? fun p => json_string_eq p.1 k2).or
            (json__getKV m k2))) := by
  intro kvs
  induction kvs with
  | nil =>
    intro m layout n hinv _ _ _ hload
    refine ⟨m, layout, n, rfl, hinv, hload, rfl, Nat.le_refl _, ?_⟩
    intro k2
    rw [List.find?_nil, Option.none_or]
  | cons p rest ih =>
    intro m layout n hinv hvals hnodup hfresh hload
    obtain ⟨k0, v0⟩ := p
    rw [List.map_cons, List.nodup_cons] at hnodup
    obtain ⟨m1, layout1, n1, hrun, hinv1, hload1, hbs1, hcaple1, hchar1⟩ :=
      json__insert_spec a hok 0 n m layout hinv k0 v0
        (hvals (k0, v0) (List.mem_cons_self _ _))
        (hfresh (k0, v0) (List.mem_cons_self _ _)) hload
    have hins : json__hash_map_insert 1 a n m k0 v0 = some (true, m1, n1) := hrun
    obtain ⟨m2, layout2, n2, hrun2, hinv2, hload2, hbs2, hcaple2, hchar2⟩ :=
      ih m1 layout1 n1 hinv1
        (fun q hq => hvals q (List.mem_cons_of_mem _ hq))
        hnodup.2
        (fun q hq => by
          rw [hchar1 q.1, if_neg, hfresh q (List.mem_cons_of_mem _ hq)]
          intro hqk
          exact hnodup.1 (hqk ▸ List.mem_map.mpr ⟨q, hq, rfl⟩))
        hload1
    refine ⟨m2, layout2, n2, ?_, hinv2, hload2,
      by rw [List.length_cons]; omega, by omega, ?_⟩
    · simp only [json__insert_seq]
      rw [hins]
      exact hrun2
    · intro k2
      rw [hchar2 k2, List.find?_cons]
      by_cases hk2 : k2 = k0
      · subst hk2
        rw [show json_string_eq ((k2, v0) : json_string × json_value).1 k2 = true
          from (json_string_eq_iff _ _).mpr rfl]
        have hrest_none : rest.find? (fun q => json_string_eq q.1 k2) = none := by
          rw [List.find?_eq_none]
          intro q hq hpred
          exact hnodup.1 ((json_string_eq_iff _ _).mp hpred ▸
            List.mem_map.mpr ⟨q, hq, rfl⟩)
        rw [hrest_none, Option.none_or, hchar1 k2, if_pos rfl]
        rfl
      · rw [show json_string_eq ((k0, v0) : json_string × json_value).1 k2 = false
          from by
            cases h : json_string_eq k0 k2 with
            | true => exact absurd ((json_string_eq_iff _ _).mp h).symm hk2
            | false => rfl]
        rw [hchar1 k2, if_neg hk2]

/-- Among bindings with distinct keys, searching for a member's key
finds exactly that member. -/
theorem json__find_self (kvs : List (json_string × json_value))
    (p : json_string × json_value) (hmem : p ∈ kvs)
    (hnodup : (kvs.map Prod.fst).Nodup) :
    kvs.find? (fun q => json_string_eq q.1 p.1) = some p := by
  induction kvs with
  | nil => cases hmem
  | cons q rest ih =>
    rw [List.mem_cons] at hmem
    rw [List.map_cons, List.nodup_cons] at hnodup
    rcases hmem with hmem | hmem
    · subst hmem
      rw [List.find?_cons, (json_string_eq_iff _ _).mpr rfl]
    · have hq : json_string_eq q.1 p.1 = false := by
        cases h : json_string_eq q.1 p.1 with
        | true =>
          exfalso
          apply hnodup.1
          rw [(json_string_eq_iff _ _).mp h]
          exact List.mem_map.mpr ⟨p, hmem, rfl⟩
        | false => rfl
      rw [List.find?_cons, hq]
      exact ih hmem hnodup.2

/-- A binding a lookup returns is among the map's live bindings. -/
theorem json__getKV_mem_all (m : json__hash_map) (layout : List (List Nat))
    (hinv : json__inv m layout) (k : json_string) (p : json_string × json_value)
    (hget : json__getKV m k = some p) : p ∈ json__all_kvs m layout := by
  have hcap : 16 ≤ m.bucket_cap := hinv.2.1
  rw [json__getKV_eq_chain m layout hinv k] at hget
  have hmem := List.mem_of_find?_eq_some hget
  rw [json__all_kvs, List.mem_flatMap]
  exact ⟨json__hash k % m.bucket_cap,
    by rw [List.mem_range]; exact Nat.mod_lt _ (by omega), hmem⟩

/-- Every binding the map holds contributes its value's releases to the
map's destruction trace: the binding sits in a live bucket slot or in a
filled collision slot, and `json__hm_delete` walks both. -/
theorem json__all_kvs_delete_mem (m : json__hash_map) (layout : List (List Nat))
    (hinv : json__inv m layout) (p : json_string × json_value)
    (hp : p ∈ json__all_kvs m layout) :
    ∀ act ∈ json_value_delete p.2, act ∈ json__hm_delete m := by
  have hinv0 := hinv
  obtain ⟨hblen, hcap, hclen, hccap, hsz, hllen, hperm, hchains, hplace, hnodup,
    hcount⟩ := hinv0
  intro act hact
  rw [json__all_kvs, List.mem_flatMap] at hp
  obtain ⟨i, hi, hpc⟩ := hp
  rw [List.mem_range] at hi
  have hval := (hplace i hi p hpc).1
  rw [json__chain_kvs, List.mem_map] at hpc
  obtain ⟨e, he, hpe⟩ := hpc
  have hvale : json__hash_map_entry_valid e = true := by
    rw [json__hash_map_entry_valid, decide_eq_true_eq]
    rw [← hpe] at hval
    exact hval
  have hact2 : act ∈ json_string_delete e.key ++ json_value_delete e.value := by
    rw [List.mem_append]
    right
    rw [← hpe] at hact
    exact hact
  rw [json__chain_entry_list] at he
  by_cases hvh : json__hash_map_entry_valid
      (m.bucket.getD i json__zero_entry) = true
  · rw [if_pos hvh] at he
    rw [List.mem_cons] at he
    rcases he with he | he
    · subst he
      rw [json__hm_delete, List.mem_append]
      left
      rw [List.mem_append]
      right
      rw [List.mem_flatMap]
      refine ⟨i, by rw [List.mem_range]; exact hi, ?_⟩
      show act ∈ (if json__hash_map_entry_valid
          (m.bucket.getD i json__zero_entry) = true then
        json_string_delete (m.bucket.getD i json__zero_entry).key ++
          json_value_delete (m.bucket.getD i json__zero_entry).value
      else [])
      rw [if_pos hvh]
      exact hact2
    · rw [List.mem_map] at he
      obtain ⟨j, hj, hje⟩ := he
      have hjlt : j < m.collisions_size := json__layout_slot_lt layout hperm i j hj
      subst hje
      rw [json__hm_delete, List.mem_append]
      left
      rw [List.mem_append]
      left
      rw [List.mem_flatMap]
      refine ⟨j, by rw [List.mem_range]; exact hjlt, ?_⟩
      show act ∈ (if json__hash_map_entry_valid
          (m.collisions.getD j json__zero_entry) = true then
        json_string_delete (m.collisions.getD j json__zero_entry).key ++
          json_value_delete (m.collisions.getD j json__zero_entry).value
      else [])
      rw [if_pos hvale]
      exact hact2
  · rw [if_neg hvh] at he
    cases he

/-- Claim C2.  The claim states that after a threshold-triggered growth
every previously inserted key is still retrievable via get with its
original value.  At the struct level the bindings do survive the
growth: the first conjunct proves every sequence of inserts of distinct
keys with live values that crosses the load factor of the initial
16-bucket table completes with a grown table on which get returns every
inserted key and value struct.  But the completion path of
`json__hash_map_grow` runs `json__hm_delete` on the old table
(json.h lines 850-851) although the re-insertion pass copied only the
keys and transferred each value by struct assignment: the second
conjunct shows every completed growth emits exactly the old table's
full destruction trace, and the third shows the growth of any map
holding a string binding succeeds with a release trace that contains
the byte payload of that very string — which get still returns
afterwards — as well as the old map structure through which the C code
then stores the new map.  The freed payloads and the freed,
re-written map structure mean the retrieved values are not the claim's
live original values once the growth has run. -/
theorem c2_growth_frees_payloads_of_retrievable_values :
    (∀ (a : Alloc), (∀ t2, a.ok t2 = true) →
      ∀ (kvs : List (json_string × json_value)),
      ((kvs.map Prod.fst).Nodup) →
      (∀ p ∈ kvs, json_value_type p.2 ≠ json_type.JSON_INVALID) →
      10 * kvs.length > 7 * JSON_INITIAL_BUCKET_SIZE →
      ∃ m n, json__run_inserts a kvs = some (m, n) ∧
        JSON_INITIAL_BUCKET_SIZE < m.bucket_cap ∧
        ∀ p ∈ kvs, json__getKV m p.1 = some p) ∧
    (∀ (a : Alloc) (gas n : Nat) (m m2 : json__hash_map) (n2 : Nat)
      (released : List free_action),
      json__hash_map_grow a gas n m = json__grow_result.ok m2 n2 released →
      released = json__hm_delete m) ∧
    (∀ (a : Alloc), (∀ t2, a.ok t2 = true) →
      ∀ (gas n : Nat) (m : json__hash_map) (layout : List (List Nat)),
      json__inv m layout →
      10 * m.bucket_size ≤ 7 * m.bucket_cap + 10 →
      ∀ (k s : json_string),
      json__getKV m k = some (k, json_value.JSON_STRING s) →
      0 < s.length →
      ∃ m2 n2 released,
        json__hash_map_grow a (gas + 1) n m =
          json__grow_result.ok m2 n2 released ∧
        json__getKV m2 k = some (k, json_value.JSON_STRING s) ∧
        free_action.FreeStringData s ∈ released ∧
        free_action.FreeMapStruct ∈ released) := by
  refine ⟨?_, ?_, ?_⟩
  · intro a hok kvs hnodup hvals hcross
    have h16 : JSON_INITIAL_BUCKET_SIZE = 16 := rfl
    rw [h16] at hcross
    have hcreate : json__hm_create a 0 =
        (some (json__empty_map 16 (a.base 2)), 3) := by
      unfold json__hm_create
      rw [if_neg (by rw [hok 0]; simp), if_neg (by rw [hok 1]; simp),
        if_neg (by rw [hok 2]; simp)]
      rfl
    obtain ⟨m2, layout2, n2, hseq, hinv2, hload2, hbs2, hcaple2, hchar2⟩ :=
      json__insert_seq_spec a hok kvs (json__empty_map 16 (a.base 2))
        (List.replicate 16 []) 3
        (json__inv_empty 16 _ (by omega))
        hvals hnodup
        (fun p _ => json__getKV_empty 16 _ (by omega) p.1)
        (by show 10 * 0 ≤ 7 * 16; omega)
    have hbs0 : (json__empty_map 16 (a.base 2)).bucket_size = 0 := rfl
    rw [hbs0] at hbs2
    refine ⟨m2, n2, ?_, ?_, ?_⟩
    · show (match json__hm_create a 0 with
        | (some m0, n0) => json__insert_seq a n0 kvs m0
        | (none, _) => none) = some (m2, n2)
      rw [hcreate]
      exact hseq
    · rw [h16]
      omega
    · intro p hp
      rw [hchar2 p.1, json__find_self kvs p hp hnodup,
        json__getKV_empty 16 _ (by omega) p.1]
      rfl
  · intro a gas n m m2 n2 released h
    cases gas with
    | zero =>
      unfold json__hash_map_grow at h
      exact json__grow_result.noConfusion h
    | succ g =>
      unfold json__hash_map_grow at h
      dsimp only at h
      split at h
      · exact json__grow_result.noConfusion h
      · split at h
        · exact json__grow_result.noConfusion h
        · split at h
          · injection h with h1 h2 h3
            exact h3.symm
          · exact json__grow_result.noConfusion h
          · exact json__grow_result.noConfusion h
  · intro a hok gas n m layout hinv hload k s hget hs
    obtain ⟨m2, layout2, n2, hgrow, hinv2, hcap2, hbs2, hchar2⟩ :=
      json__grow_spec a hok gas n m layout hinv hload
    refine ⟨m2, n2, json__hm_delete m, hgrow, ?_, ?_, ?_⟩
    · rw [hchar2 k]
      exact hget
    · refine json__all_kvs_delete_mem m layout hinv (k, json_value.JSON_STRING s)
        (json__getKV_mem_all m layout hinv k _ hget)
        (free_action.FreeStringData s) ?_
      show free_action.FreeStringData s ∈ json_string_delete s
      rw [json_string_delete, if_pos hs]
      exact List.mem_singleton.mpr rfl
    · rw [json__hm_delete, List.mem_append]
      right
      rw [List.mem_cons, List.mem_cons, List.mem_cons]
      right
      right
      left
      rfl

/-- Witness for the C2 theorem: the first part runs on twelve distinct
number-valued keys, where the twelfth insert pushes the 16-bucket table
past the 0.7 load factor and growth to 32 buckets runs; the second part
grows a concrete one-binding map holding a string value and shows the
growth's release trace holds the string's payload and the map
structure while the key is still returned by get afterwards. -/
theorem c2_growth_frees_payloads_of_retrievable_values_witness :
    (∃ m n, json__run_inserts allocAllOk c2_kvs = some (m, n) ∧
      JSON_INITIAL_BUCKET_SIZE < m.bucket_cap ∧
      ∀ p ∈ c2_kvs, json__getKV m p.1 = some p) ∧
    (∃ m2 n2 released,
      json__hash_map_grow allocAllOk 1 0 c2_str_map =
        json__grow_result.ok m2 n2 released ∧
      json__getKV m2 [107, 48] =
        some ([107, 48], json_value.JSON_STRING [104, 105]) ∧
      free_action.FreeStringData [104, 105] ∈ released ∧
      free_action.FreeMapStruct ∈ released) :=
  ⟨c2_growth_frees_payloads_of_retrievable_values.1 allocAllOk (fun _ => rfl)
      c2_kvs (by decide) (by decide) (by decide),
    c2_growth_frees_payloads_of_retrievable_values.2.2 allocAllOk (fun _ => rfl)
      0 0 c2_str_map c2_str_layout (by decide) (by decide) [107, 48] [104, 105]
      rfl (by decide)⟩
